import Mathlib

/-!
Module host of buildat (`src/server/state.cpp`): a shallow embedding

The development models the server-side module host: the registry of loaded
modules (`CState`), the per-module container with its worker thread
(`ModuleContainer`, `ModuleThread`), the direct-call protocol
(`execute_direct_cb`), the access policy (`is_dependency_u`,
`check_valid_access_u`, `access_module`), the shutdown state and the build of
a module (`build_module_u`).  Two small functions of other files are modelled
as well: `get_section_region` of `builtin/voxelworld/voxelworld.cpp` and
`address_bytes_to_string` of `impl/tcpsocket.cpp`.

Conventions of the embedding.

* Heap objects that the C++ compares by address (`ModuleContainer*`,
  `interface::Module*`) carry an `addr` field; pointer comparison is
  comparison of `addr`.
* `std::map<ss_, T>` is an association list searched from the front
  (`smap_find`, `smap_set`, `smap_erase`).
* Semaphores are counters: `post` adds one, `wait` needs a positive count.
* Code of a module (its `init`, `event`, direct callbacks) is not part of the
  host.  Its only host-visible behaviour is whether it raises; that outcome is
  carried by the callback token or given as an argument.  The calls the worker
  makes on the module are recorded in the history field `trace` of the
  container.
* Logging and the diagnostic backtrace chain (`set_caller_thread`,
  `ref_backtraces`) do not influence control flow and are left out.
* Recursion that the C++ does not bound (`is_dependency_u`) takes a fuel
  argument; `none` means the fuel ran out.
* Event types (`Event::Type`, declared in `interface/event.h`) are unsigned
  machine integers; where the code does arithmetic on one (`sub_event`) the
  width of the type is an argument and the arithmetic is taken modulo
  `2 ^ type_bits`.  An index out of the bounds of a vector is undefined
  behaviour and gives no result (`none`).
* Memory allocation is taken to succeed: growing a string, a map or a vector
  does not raise.
-/

namespace Buildat

/-! ## Data model -/

/-- Exceptions raised by the host.  `Exception` is the generic host exception
(`throw Exception(msg)`), the others are the distinguished kinds. -/
inductive Exn where
  | Exception (msg : String)
  | TargetModuleNotAvailable (msg : String)
  | ModuleNotFoundException (msg : String)
  | ModuleError (msg : String)
  deriving DecidableEq, Repr

/-- Outcome of running host code on one thread.  `blocked` is a semaphore wait
that cannot proceed in the run considered, `null_deref` is a dereference of a
null `thread` or `module` pointer, `no_fuel` says that the fuel given to the
dependency search ran out (no statement about the code). -/
inductive Res (α : Type) where
  | ok (a : α)
  | threw (e : Exn)
  | blocked
  | null_deref
  | no_fuel
  deriving DecidableEq, Repr

/-- Record `interface::ModuleDependency`. -/
structure ModuleDependency where
  module : String
  optional : Bool := false
  deriving DecidableEq, Repr

/-- Record `interface::ModuleMeta`: the fields the host reads. -/
structure ModuleMeta where
  dependencies : List ModuleDependency := []
  disable_cpp : Bool := false
  cxxflags : String := ""
  ldflags : String := ""
  cxxflags_windows : String := ""
  ldflags_windows : String := ""
  cxxflags_linux : String := ""
  ldflags_linux : String := ""
  deriving DecidableEq, Repr

/-- Record `interface::ModuleInfo`. -/
structure ModuleInfo where
  name : String := ""
  path : String := ""
  meta : ModuleMeta := {}
  deriving DecidableEq, Repr

/-- Payload of an event (`Event::p`). -/
inductive Payload where
  | null
  | ModuleLoadedEvent (name : String)
  | ModuleUnloadedEvent (name : String)
  | ModuleModifiedEvent (name : String) (path : String)
  | other (n : Nat)
  deriving DecidableEq, Repr

/-- Record `interface::Event`: a type id and a payload. -/
structure Event where
  type : Nat
  p : Payload := Payload.null
  deriving DecidableEq, Repr

/-- A direct callback `std::function<void(interface::Module*)>`: an identity
and what running it does as far as the host can see (raise or not). -/
structure Callback where
  id : Nat
  raises : Option Exn := none
  deriving DecidableEq, Repr

/-- A call the worker thread made on the module. -/
inductive Call where
  | direct (cb : Callback)
  | event (e : Event)
  deriving DecidableEq, Repr

/-- The `interface::Module` instance owned by a container. -/
structure Module where
  addr : Nat
  m_module_name : String
  deriving DecidableEq, Repr

/-- The `interface::Thread` of a container: the stop flag. -/
structure Thread where
  stop_requested : Bool := false
  deriving DecidableEq, Repr

/-- Struct `ModuleContainer`.  `module` and `thread` are `none` when the
`up_` pointer is null.  `trace` is a history variable: the calls made on the
module by the worker, oldest first. -/
structure ModuleContainer where
  addr : Nat
  module : Option Module
  info : ModuleInfo
  thread : Option Thread := none
  direct_cb : Option Callback := none
  direct_cb_exception : Option Exn := none
  event_queue : List Event := []
  event_queue_sem : Nat := 0
  direct_cb_executed_sem : Nat := 0
  direct_cb_free_sem : Nat := 1
  executing_module_destructor : Bool := false
  trace : List Call := []
  deriving DecidableEq, Repr

/-! ## `std::map` as an association list -/

/-- Lexicographic order on character codes. -/
def chars_lt : List Char → List Char → Bool
  | _, [] => false
  | [], _ :: _ => true
  | a :: as, b :: bs => a.toNat < b.toNat || (a.toNat == b.toNat && chars_lt as bs)

/-- Order `operator<` of `std::string` (the order of the keys of a map). -/
def str_lt (a b : String) : Bool := chars_lt a.toList b.toList

/-- Lookup `m.find(k)`. -/
def smap_find {α : Type} : List (String × α) → String → Option α
  | [], _ => none
  | (k0, v) :: r, k => if k0 = k then some v else smap_find r k

/-- Assignment `m[k] = v`: replaces the entry of `k`, or inserts it before the
first larger key. -/
def smap_set {α : Type} : List (String × α) → String → α → List (String × α)
  | [], k, v => [(k, v)]
  | (k0, v0) :: r, k, v =>
    if k0 = k then (k, v) :: r
    else if str_lt k k0 then (k, v) :: (k0, v0) :: r
    else (k0, v0) :: smap_set r k v

/-- Removal `m.erase(k)`. -/
def smap_erase {α : Type} (m : List (String × α)) (k : String) : List (String × α) :=
  m.filter (fun p => !(p.1 == k))

/-! ## Access policy -/

/-- The second loop of `is_dependency_u`: descend into every dependency that
is loaded, in order, stopping at the first that answers `true`. -/
def is_dependency_loop (m_modules : List (String × ModuleContainer))
    (descend : ModuleContainer → Option Bool) : List ModuleDependency → Option Bool
  | [] => some false
  | dep :: rest =>
    match smap_find m_modules dep.module with
    | none => is_dependency_loop m_modules descend rest
    | some mc_dependency =>
      match descend mc_dependency with
      | none => none
      | some true => some true
      | some false => is_dependency_loop m_modules descend rest

/-- Function `CState::is_dependency_u`: first look for the searched name among
the direct dependencies, then recurse into the loaded dependencies. -/
def is_dependency_u (m_modules : List (String × ModuleContainer)) :
    Nat → ModuleContainer → ModuleContainer → Option Bool
  | 0, _, _ => none
  | fuel + 1, mc_should_be_dependent, mc_should_be_dependency =>
    if mc_should_be_dependent.info.meta.dependencies.any
        (fun dep => dep.module == mc_should_be_dependency.info.name) then some true
    else
      is_dependency_loop m_modules
        (fun mc_dependency => is_dependency_u m_modules fuel mc_dependency mc_should_be_dependency)
        mc_should_be_dependent.info.meta.dependencies

/-- Function `CState::check_valid_access_u`: `some (Except.error e)` when it
throws `e`, `some (Except.ok ())` when it returns, `none` when the fuel of the
dependency search ran out. -/
def check_valid_access_u (m_modules : List (String × ModuleContainer)) (fuel : Nat)
    (target_mc caller_mc : ModuleContainer) : Option (Except Exn Unit) :=
  if caller_mc.addr = target_mc.addr then
    some (Except.error (Exn.Exception ("Cannot access \"" ++ target_mc.info.name ++ "\" from \"" ++
      caller_mc.info.name ++ "\": Accessing itself is disallowed")))
  else
    match is_dependency_u m_modules fuel target_mc caller_mc with
    | none => none
    | some true =>
      some (Except.error (Exn.Exception ("Cannot access \"" ++ target_mc.info.name ++ "\" from \"" ++
        caller_mc.info.name ++ "\": Target depends on caller - access must " ++
        "happen the other way around")))
    | some false => some (Except.ok ())

/-- Edge of the dependency graph of the registry: `a` is the name of a loaded
module whose meta lists `b` as a dependency (optional or not). -/
def DeclaredDep (m_modules : List (String × ModuleContainer)) (a b : String) : Prop :=
  ∃ mc, smap_find m_modules a = some mc ∧ ∃ d ∈ mc.info.meta.dependencies, d.module = b

/-- Reachability of `b` from `a` by one or more declared dependencies; every
name on the way but the last is the name of a loaded module. -/
def DepReachable (m_modules : List (String × ModuleContainer)) (a b : String) : Prop :=
  Relation.TransGen (DeclaredDep m_modules) a b

/-- The declared dependencies of the loaded modules have no cycle. -/
def Acyclic (m_modules : List (String × ModuleContainer)) : Prop :=
  ∀ a, ¬ DepReachable m_modules a a

/-! ## The container and its worker thread -/

namespace ModuleContainer

/-- Constructor of `ModuleContainer`: null thread, empty slot and queue, and
`direct_cb_free_sem` posted once. -/
def create (addr : Nat) (module : Option Module) (info : ModuleInfo) : ModuleContainer :=
  { addr := addr, module := module, info := info, direct_cb_free_sem := 1 }

/-- Method `thread_request_stop`: nothing without a thread; otherwise set the
stop flag and post `direct_cb_free_sem` and `event_queue_sem`. -/
def thread_request_stop (mc : ModuleContainer) : ModuleContainer :=
  match mc.thread with
  | none => mc
  | some t =>
    { mc with
      thread := some { t with stop_requested := true }
      direct_cb_free_sem := mc.direct_cb_free_sem + 1
      event_queue_sem := mc.event_queue_sem + 1 }

/-- Method `push_event`: append to the queue and post `event_queue_sem`. -/
def push_event (mc : ModuleContainer) (event : Event) : ModuleContainer :=
  { mc with
    event_queue := mc.event_queue ++ [event]
    event_queue_sem := mc.event_queue_sem + 1 }

/-- Test `caller_mc == this` of `execute_direct_cb`. -/
def is_this (mc : ModuleContainer) (caller_mc : Option ModuleContainer) : Bool :=
  match caller_mc with
  | none => false
  | some c => c.addr == mc.addr

/-- Step `direct_cb_free_sem.wait()` of `execute_direct_cb`; `none` when the
count is zero and the caller has to block. -/
def edc_acquire (mc : ModuleContainer) : Option ModuleContainer :=
  if mc.direct_cb_free_sem = 0 then none
  else some { mc with direct_cb_free_sem := mc.direct_cb_free_sem - 1 }

/-- Name used for the caller in the `TargetModuleNotAvailable` message. -/
def caller_name (caller_mc : Option ModuleContainer) : String :=
  match caller_mc with
  | none => "__unknown"
  | some c => c.info.name

/-- Message of the `TargetModuleNotAvailable` raised by the stop check. -/
def stopping_message (mc : ModuleContainer) (caller_mc : Option ModuleContainer) : String :=
  "Target module [" ++ mc.info.name ++ "] is stopping - " ++
    "called by [" ++ caller_name caller_mc ++ "]"

/-- The stop check of `execute_direct_cb` (under `mutex`): with a stop
requested the semaphore is posted back and `TargetModuleNotAvailable` raised. -/
def edc_check (mc : ModuleContainer) (caller_mc : Option ModuleContainer) :
    Res Unit × ModuleContainer :=
  match mc.thread with
  | none => (Res.null_deref, mc)
  | some t =>
    if t.stop_requested then
      (Res.threw (Exn.TargetModuleNotAvailable (stopping_message mc caller_mc)),
        { mc with direct_cb_free_sem := mc.direct_cb_free_sem + 1 })
    else (Res.ok (), mc)

/-- The block of `execute_direct_cb` under `event_queue_mutex`: store the
callback in the slot, clear the exception, post `event_queue_sem`. -/
def edc_park (mc : ModuleContainer) (cb : Callback) : ModuleContainer :=
  { mc with
    direct_cb := some cb
    direct_cb_exception := none
    event_queue_sem := mc.event_queue_sem + 1 }

/-- Step `direct_cb_executed_sem.wait()` of `execute_direct_cb`. -/
def edc_wait (mc : ModuleContainer) : Option ModuleContainer :=
  if mc.direct_cb_executed_sem = 0 then none
  else some { mc with direct_cb_executed_sem := mc.direct_cb_executed_sem - 1 }

/-- The end of `execute_direct_cb`: read out the exception, clear it, post
`direct_cb_free_sem`; the value is what goes to `result_exception`. -/
def edc_release (mc : ModuleContainer) : Option Exn × ModuleContainer :=
  (mc.direct_cb_exception,
    { mc with
      direct_cb_exception := none
      direct_cb_free_sem := mc.direct_cb_free_sem + 1 })

end ModuleContainer

namespace ModuleThread

open ModuleContainer

/-- Step `mc->event_queue_sem.wait()` at the top of the loop of `run`. -/
def w_wait (mc : ModuleContainer) : Option ModuleContainer :=
  if mc.event_queue_sem = 0 then none
  else some { mc with event_queue_sem := mc.event_queue_sem - 1 }

/-- The grab under `event_queue_mutex` in `run`: a parked callback is taken
first (and stays in the slot); otherwise the front of the queue is popped.
The result is the pair of locals `direct_cb` and `event` (`got_event`). -/
def w_grab (mc : ModuleContainer) : (Option Callback × Option Event) × ModuleContainer :=
  match mc.direct_cb with
  | some cb => ((some cb, none), mc)
  | none =>
    match mc.event_queue with
    | e :: rest => ((none, some e), { mc with event_queue := rest })
    | [] => ((none, none), mc)

/-- The stop branch of `run`: a grabbed callback is discarded, the slot
emptied and `direct_cb_executed_sem` posted; a grabbed event is dropped. -/
def w_stop (mc : ModuleContainer) (direct_cb : Option Callback) : ModuleContainer :=
  match direct_cb with
  | some _ =>
    { mc with
      direct_cb := none
      direct_cb_executed_sem := mc.direct_cb_executed_sem + 1 }
  | none => mc

/-- The part of `run` after the loop, up to the destructor call: the module is
moved out of the container and `executing_module_destructor` is set. -/
def w_begin_destruct (mc : ModuleContainer) : ModuleContainer :=
  { mc with module := none, executing_module_destructor := true }

/-- The end of `run`: the destructor has returned. -/
def w_end_destruct (mc : ModuleContainer) : ModuleContainer :=
  { mc with executing_module_destructor := false }

/-- Method `ModuleThread::handle_direct_cb`: call the callback on the module
(unless the module is null), then empty the slot, store the exception and post
`direct_cb_executed_sem`. -/
def handle_direct_cb (mc : ModuleContainer) (direct_cb : Callback) : ModuleContainer :=
  match mc.module with
  | none =>
    { mc with
      direct_cb := none
      direct_cb_exception := none
      direct_cb_executed_sem := mc.direct_cb_executed_sem + 1 }
  | some _ =>
    { mc with
      trace := mc.trace ++ [Call.direct direct_cb]
      direct_cb := none
      direct_cb_exception := direct_cb.raises
      direct_cb_executed_sem := mc.direct_cb_executed_sem + 1 }

/-- Method `ModuleThread::handle_event`: call `module->event` (unless the
module is null).  `what` is the message of the `std::exception` the handler
raises, if it does; the second component is then the `shutdown` call made on
the server. -/
def handle_event (mc : ModuleContainer) (event : Event) (what : Option String) :
    ModuleContainer × Option (Int × String) :=
  match mc.module with
  | none => (mc, none)
  | some _ =>
    ({ mc with trace := mc.trace ++ [Call.event event] },
      what.map (fun w => (1, "M[" ++ mc.info.name ++ "]->event() failed: " ++ w)))

/-- What one iteration of the loop of `run` leaves behind. -/
structure Iteration where
  mc : ModuleContainer
  exited : Bool
  shutdown : Option (Int × String)
  deriving DecidableEq, Repr

/-- One iteration of the loop of `ModuleThread::run`, started at the wait on
`event_queue_sem`; `none` when that wait cannot proceed or there is no thread.
On a stop request the loop is left and the module destructed. -/
def run_iteration (mc : ModuleContainer) (ev_raises : Event → Option String) :
    Option Iteration :=
  match mc.thread with
  | none => none
  | some t =>
    match w_wait mc with
    | none => none
    | some mc1 =>
      match w_grab mc1 with
      | ((direct_cb, event), mc2) =>
        if t.stop_requested then
          some { mc := w_end_destruct (w_begin_destruct (w_stop mc2 direct_cb)),
                 exited := true, shutdown := none }
        else
          match direct_cb, event with
          | some cb, _ => some { mc := handle_direct_cb mc2 cb, exited := false, shutdown := none }
          | none, some e =>
            some { mc := (handle_event mc2 e (ev_raises e)).1, exited := false,
                   shutdown := (handle_event mc2 e (ev_raises e)).2 }
          | none, none => some { mc := mc2, exited := false, shutdown := none }

end ModuleThread

/-- What another thread does to the target container between the moment the
caller of `execute_direct_cb` has parked its callback and the next iteration
of the target's worker. -/
inductive Interference where
  | nothing
  | stop_request
  deriving DecidableEq, Repr

/-- The effect of an interference on the container. -/
def Interference.apply : Interference → ModuleContainer → ModuleContainer
  | Interference.nothing, mc => mc
  | Interference.stop_request, mc => mc.thread_request_stop

namespace ModuleContainer

open ModuleThread

/-- Method `ModuleContainer::execute_direct_cb`, run together with the worker
of the target: the caller goes up to its wait on `direct_cb_executed_sem`,
the worker (waiting at the top of its loop) does one iteration, the caller
finishes.  The value is the exception left in `result_exception`. -/
def execute_direct_cb (mc : ModuleContainer) (cb : Callback)
    (caller_mc : Option ModuleContainer) (itf : Interference) :
    Res (Option Exn) × ModuleContainer :=
  if mc.is_this caller_mc then (Res.threw (Exn.Exception "caller_mc == this"), mc)
  else
    match mc.edc_acquire with
    | none => (Res.blocked, mc)
    | some mc1 =>
      match mc1.edc_check caller_mc with
      | (Res.threw e, mc2) => (Res.threw e, mc2)
      | (Res.blocked, mc2) => (Res.blocked, mc2)
      | (Res.null_deref, mc2) => (Res.null_deref, mc2)
      | (Res.no_fuel, mc2) => (Res.no_fuel, mc2)
      | (Res.ok (), mc2) =>
        match run_iteration (itf.apply (mc2.edc_park cb)) (fun _ => none) with
        | none => (Res.blocked, itf.apply (mc2.edc_park cb))
        | some it =>
          match it.mc.edc_wait with
          | none => (Res.blocked, it.mc)
          | some mc5 => (Res.ok mc5.edc_release.1, mc5.edc_release.2)

/-- Method `init_and_start_thread`: check the module, create and start the
thread, then run `module->init()` through `execute_direct_cb` and rethrow
what it raised.  `init` stands for the lambda calling `module->init()`. -/
def init_and_start_thread (mc : ModuleContainer) (init : Callback) :
    Res Unit × ModuleContainer :=
  match mc.module with
  | none => (Res.threw (Exn.Exception "init_and_start_thread(): module is null"), mc)
  | some m =>
    if mc.info.name ≠ m.m_module_name then
      (Res.threw (Exn.Exception ("init_and_start_thread(): Module name does not" ++
        " match: info.name=\"" ++ mc.info.name ++ "\"," ++
        " module->m_module_name=\"" ++ m.m_module_name ++ "\"")), mc)
    else if mc.thread.isSome then
      (Res.threw (Exn.Exception "init_and_start_thread(): thread != nullptr"), mc)
    else
      match execute_direct_cb { mc with thread := some {} } init none Interference.nothing with
      | (Res.ok (some e), mc1) => (Res.threw e, mc1)
      | (Res.ok none, mc1) => (Res.ok (), mc1)
      | (Res.threw e, mc1) => (Res.threw e, mc1)
      | (Res.blocked, mc1) => (Res.blocked, mc1)
      | (Res.null_deref, mc1) => (Res.null_deref, mc1)
      | (Res.no_fuel, mc1) => (Res.no_fuel, mc1)

/-- Method `thread_join`: once the worker has left its loop the thread object
is deleted and the module pointer reset. -/
def thread_join (mc : ModuleContainer) : ModuleContainer :=
  { mc with thread := none, module := none }

end ModuleContainer

/-! ## The host state -/

/-- Insertion into a `set_<ss_>`, kept sorted and without duplicates. -/
def sset_insert : List String → String → List String
  | [], k => [k]
  | x :: r, k =>
    if x = k then x :: r
    else if str_lt k x then k :: x :: r
    else x :: sset_insert r k

/-- The data members of `CState` that the modelled operations use.
`m_event_subs` holds weak pointers, given by the address of the container.
`next_addr` is the address the next `new ModuleContainer` returns.
`emitted` is a history variable: the events passed to the asynchronous
`emit_event`, oldest first. -/
structure CState where
  m_shutdown_requested : Bool := false
  m_shutdown_exit_status : Int := 0
  m_shutdown_reason : String := ""
  m_module_info : List (String × ModuleInfo) := []
  m_modules : List (String × ModuleContainer) := []
  m_unloads_requested : List String := []
  m_reloads_requested : List ModuleInfo := []
  m_modified_modules : List String := []
  m_module_load_order : List String := []
  m_event_subs : List (List Nat) := []
  m_tmp_data : List (String × String) := []
  next_addr : Nat := 1
  emitted : List Event := []
  deriving DecidableEq, Repr

/-- What the host takes from outside the modelled code: the event-name
registry (`Event::t`), the result of `build_module_u`, and the callbacks run
on module threads together with what they raise. -/
structure HostEnv where
  t : String → Nat
  build : ModuleInfo → Option Module
  init : String → Callback
  on_unload : String → Callback
  on_continue : String → Callback

namespace CState

/-- Method `CState::shutdown`. -/
def shutdown (st : CState) (exit_status : Int) (reason : String) : CState :=
  if st.m_shutdown_requested && exit_status == 0 then st
  else
    { st with
      m_shutdown_requested := true
      m_shutdown_exit_status := exit_status
      m_shutdown_reason := reason }

/-- Method `CState::is_shutdown_requested`: the returned flag, and the values
written through `exit_status` and `reason` (written only when requested). -/
def is_shutdown_requested (st : CState) : Bool × Option (Int × String) :=
  if st.m_shutdown_requested then
    (true, some (st.m_shutdown_exit_status, st.m_shutdown_reason))
  else (false, none)

/-- The container a weak pointer locks to: the one of that address which the
registry still owns. -/
def lock (st : CState) (addr : Nat) : Option ModuleContainer :=
  (st.m_modules.find? (fun p => p.2.addr == addr)).map (fun p => p.2)

/-- Push `event` on the queue of the container at `addr`, if it is alive. -/
def push_to (m_modules : List (String × ModuleContainer)) (addr : Nat) (event : Event) :
    List (String × ModuleContainer) :=
  m_modules.map (fun p => (p.1, if p.2.addr = addr then p.2.push_event event else p.2))

/-- Method `CState::emit_event(event)`, the asynchronous emission: push the
event to every live subscriber of its type. -/
def emit_event (st : CState) (event : Event) : CState :=
  if st.m_event_subs.length ≤ event.type then { st with emitted := st.emitted ++ [event] }
  else
    { st with
      m_modules := (st.m_event_subs.getD event.type []).foldl
        (fun ms addr => push_to ms addr event) st.m_modules
      emitted := st.emitted ++ [event] }

/-- Method `CState::sub_event`; `module` is the pointer value (`none` for
null).  `type` is an `Event::Type`, the unsigned integer type `size_t` (it is
printed with `%zu`), whose width in bits is `type_bits`: the sum `type + 1`
wraps around at `2 ^ type_bits`.  The result is `none` when the index of
`m_event_subs[type]` is out of bounds, which is undefined behaviour (in
practice a crash). -/
def sub_event (type_bits : Nat) (st : CState) (module : Option Nat) (type : Nat) :
    Option CState :=
  match st.m_modules.find? (fun p => p.2.module.map (fun m => m.addr) == module) with
  | none => some st
  | some (_, mc0) =>
    let subs :=
      if st.m_event_subs.length ≤ (type + 1) % 2 ^ type_bits then
        st.m_event_subs ++
          List.replicate ((type + 1) % 2 ^ type_bits - st.m_event_subs.length) []
      else st.m_event_subs
    if subs.length ≤ type then none
    else if (subs.getD type []).any (fun a => a == mc0.addr) then
      some { st with m_event_subs := subs }
    else some { st with m_event_subs := subs.set type (subs.getD type [] ++ [mc0.addr]) }

/-- Method `CState::load_module_direct_u`. -/
def load_module_direct_u (env : HostEnv) (st : CState) (m : Option Module) (name : String) :
    Res Unit × CState :=
  let info : ModuleInfo := { name := name, path := "" }
  let mc := ModuleContainer.create st.next_addr m info
  let st1 : CState :=
    { st with
      m_module_info := smap_set st.m_module_info name info
      m_modules := smap_set st.m_modules name mc
      m_module_load_order := st.m_module_load_order ++ [name]
      next_addr := st.next_addr + 1 }
  ((mc.init_and_start_thread (env.init name)).1,
    { st1 with m_modules := smap_set st1.m_modules name (mc.init_and_start_thread (env.init name)).2 })

/-- Method `CState::load_module`. -/
def load_module (env : HostEnv) (st : CState) (info : ModuleInfo) : Res Bool × CState :=
  if (smap_find st.m_modules info.name).isSome then (Res.ok false, st)
  else
    let st1 : CState := { st with m_module_info := smap_set st.m_module_info info.name info }
    if !info.meta.disable_cpp && (env.build info).isNone then (Res.ok false, st1)
    else
      let m : Option Module := if info.meta.disable_cpp then none else env.build info
      let mc := ModuleContainer.create st1.next_addr m info
      let st2 : CState :=
        { st1 with
          m_modules := smap_set st1.m_modules info.name mc
          m_module_load_order := st1.m_module_load_order ++ [info.name]
          next_addr := st1.next_addr + 1 }
      let loaded : Event :=
        { type := env.t "core:module_loaded", p := Payload.ModuleLoadedEvent info.name }
      if info.meta.disable_cpp then (Res.ok true, emit_event st2 loaded)
      else
        match mc.init_and_start_thread (env.init info.name) with
        | (Res.ok _, mc1) =>
          (Res.ok true, emit_event { st2 with m_modules := smap_set st2.m_modules info.name mc1 } loaded)
        | (Res.threw e, mc1) =>
          (Res.threw e, { st2 with m_modules := smap_set st2.m_modules info.name mc1 })
        | (Res.blocked, mc1) =>
          (Res.blocked, { st2 with m_modules := smap_set st2.m_modules info.name mc1 })
        | (Res.null_deref, mc1) =>
          (Res.null_deref, { st2 with m_modules := smap_set st2.m_modules info.name mc1 })
        | (Res.no_fuel, mc1) =>
          (Res.no_fuel, { st2 with m_modules := smap_set st2.m_modules info.name mc1 })

/-- Method `CState::unload_module(name)`: record the request. -/
def unload_module (st : CState) (module_name : String) : CState :=
  match smap_find st.m_modules module_name with
  | none => st
  | some _ => { st with m_unloads_requested := sset_insert st.m_unloads_requested module_name }

/-- The loop of `reload_module(info)` over `m_reloads_requested`. -/
def update_reload : List ModuleInfo → ModuleInfo → List ModuleInfo
  | [], info => [info]
  | info0 :: rest, info =>
    if info0.name = info.name then info :: rest
    else info0 :: update_reload rest info

/-- Method `CState::reload_module(const ModuleInfo&)`. -/
def reload_module (st : CState) (info : ModuleInfo) : CState :=
  { st with m_reloads_requested := update_reload st.m_reloads_requested info }

/-- Method `CState::reload_module(const ss_&)`. -/
def reload_module_name (st : CState) (module_name : String) : CState :=
  match smap_find st.m_module_info module_name with
  | none => st
  | some info => st.reload_module info

/-- Method `CState::unload_module_u`. -/
def unload_module_u (env : HostEnv) (st : CState) (module_name : String) : CState :=
  match smap_find st.m_modules module_name with
  | none => st
  | some mc =>
    emit_event
      { st with
        m_event_subs := st.m_event_subs.map (fun sublist => sublist.filter (fun a => a != mc.addr))
        m_modules := smap_erase st.m_modules module_name }
      { type := env.t "core:module_unloaded", p := Payload.ModuleUnloadedEvent module_name }

/-- Whether `caller_mc` is a container running its module destructor. -/
def in_destructor (caller_mc : Option ModuleContainer) : Bool :=
  match caller_mc with
  | none => false
  | some c => c.executing_module_destructor

/-- The `try` block of `CState::access_module`: look the target up, check the
access when the caller is a module, run the callback on the target. -/
def access_module_try (st : CState) (fuel : Nat) (caller_mc : Option ModuleContainer)
    (module_name : String) (cb : Callback) (itf : Interference) : Res Unit × CState :=
  match smap_find st.m_modules module_name with
  | none =>
    (Res.threw (Exn.Exception ("access_module(): Module \"" ++ module_name ++ "\" not found")), st)
  | some mc =>
    match (match caller_mc with
           | none => some (Except.ok ())
           | some c => check_valid_access_u st.m_modules fuel mc c) with
    | none => (Res.no_fuel, st)
    | some (Except.error e) => (Res.threw e, st)
    | some (Except.ok _) =>
      match mc.execute_direct_cb cb caller_mc itf with
      | (Res.ok (some e), mc1) => (Res.threw e, { st with m_modules := smap_set st.m_modules module_name mc1 })
      | (Res.ok none, mc1) => (Res.ok (), { st with m_modules := smap_set st.m_modules module_name mc1 })
      | (Res.threw e, mc1) => (Res.threw e, { st with m_modules := smap_set st.m_modules module_name mc1 })
      | (Res.blocked, mc1) => (Res.blocked, { st with m_modules := smap_set st.m_modules module_name mc1 })
      | (Res.null_deref, mc1) => (Res.null_deref, { st with m_modules := smap_set st.m_modules module_name mc1 })
      | (Res.no_fuel, mc1) => (Res.no_fuel, { st with m_modules := smap_set st.m_modules module_name mc1 })

/-- Method `CState::access_module`: the `try` block, and the `catch(...)` that
swallows the exception when the caller is running its module destructor. -/
def access_module (st : CState) (fuel : Nat) (caller_mc : Option ModuleContainer)
    (module_name : String) (cb : Callback) (itf : Interference) : Res Bool × CState :=
  match access_module_try st fuel caller_mc module_name cb itf with
  | (Res.ok _, st1) => (Res.ok true, st1)
  | (Res.threw e, st1) =>
    if in_destructor caller_mc then (Res.ok true, st1) else (Res.threw e, st1)
  | (Res.blocked, st1) => (Res.blocked, st1)
  | (Res.null_deref, st1) => (Res.null_deref, st1)
  | (Res.no_fuel, st1) => (Res.no_fuel, st1)

/-- First loop of `handle_events`: one `core:module_modified` per modified
module; raises when the info of a name is missing. -/
def emit_modified (env : HostEnv) : CState → List String → Res Unit × CState
  | st, [] => (Res.ok (), st)
  | st, name :: rest =>
    match smap_find st.m_module_info name with
    | none => (Res.threw (Exn.Exception "Info of modified module not available"), st)
    | some info =>
      emit_modified env
        (emit_event st { type := env.t "core:module_modified",
                         p := Payload.ModuleModifiedEvent info.name info.path }) rest

/-- Loop of `handle_unloads_and_reloads` sending `core:unload` through
`access_module` from the driver thread. -/
def send_unloads (env : HostEnv) : CState → List String → Res Unit × CState
  | st, [] => (Res.ok (), st)
  | st, name :: rest =>
    match access_module st 0 none name (env.on_unload name) Interference.nothing with
    | (Res.ok _, st1) => send_unloads env st1 rest
    | (Res.threw e, st1) => (Res.threw e, st1)
    | (Res.blocked, st1) => (Res.blocked, st1)
    | (Res.null_deref, st1) => (Res.null_deref, st1)
    | (Res.no_fuel, st1) => (Res.no_fuel, st1)

/-- Loop of `handle_unloads_and_reloads` loading the reloaded modules and
sending `core:continue`. -/
def do_reloads (env : HostEnv) : CState → List ModuleInfo → Res Unit × CState
  | st, [] => (Res.ok (), st)
  | st, info :: rest =>
    match load_module env st info with
    | (Res.ok _, st1) =>
      match access_module st1 0 none info.name (env.on_continue info.name) Interference.nothing with
      | (Res.ok _, st2) => do_reloads env st2 rest
      | (Res.threw e, st2) => (Res.threw e, st2)
      | (Res.blocked, st2) => (Res.blocked, st2)
      | (Res.null_deref, st2) => (Res.null_deref, st2)
      | (Res.no_fuel, st2) => (Res.no_fuel, st2)
    | (Res.threw e, st1) => (Res.threw e, st1)
    | (Res.blocked, st1) => (Res.blocked, st1)
    | (Res.null_deref, st1) => (Res.null_deref, st1)
    | (Res.no_fuel, st1) => (Res.no_fuel, st1)

/-- Method `CState::handle_unloads_and_reloads`. -/
def handle_unloads_and_reloads (env : HostEnv) (st : CState) : Res Unit × CState :=
  let unloads_requested := st.m_unloads_requested ++ st.m_reloads_requested.map (fun i => i.name)
  let loads_requested := st.m_reloads_requested
  let st1 : CState := { st with m_unloads_requested := [], m_reloads_requested := [] }
  match send_unloads env st1 unloads_requested with
  | (Res.ok _, st2) =>
    do_reloads env (unloads_requested.foldl (fun s name => unload_module_u env s name) st2)
      loads_requested
  | (r, st2) => (r, st2)

/-- Method `CState::handle_events`. -/
def handle_events (env : HostEnv) (st : CState) : Res Unit × CState :=
  match emit_modified env { st with m_modified_modules := [] } st.m_modified_modules with
  | (Res.ok _, st1) => handle_unloads_and_reloads env st1
  | (r, st1) => (r, st1)

/-- One iteration of the worker of the container loaded under `name`, seen
from the host: the container is updated in place, and the `shutdown` call of
a failed event handler reaches the host.  `none` when no such container is
loaded or its worker cannot do an iteration. -/
def worker_iteration (st : CState) (name : String) (ev_raises : Event → Option String) :
    Option CState :=
  match smap_find st.m_modules name with
  | none => none
  | some mc =>
    match ModuleThread.run_iteration mc ev_raises with
    | none => none
    | some it =>
      match it.shutdown with
      | none => some { st with m_modules := smap_set st.m_modules name it.mc }
      | some (exit_status, reason) =>
        some (shutdown { st with m_modules := smap_set st.m_modules name it.mc }
          exit_status reason)

/-- Method `CState::get_module_path`. -/
def get_module_path (st : CState) (module_name : String) : Except Exn String :=
  match smap_find st.m_modules module_name with
  | none => Except.error (Exn.ModuleNotFoundException ("Module not found: " ++ module_name))
  | some mc => Except.ok mc.info.path

/-- Method `CState::get_module`: the module pointer of the container, `none`
for `NULL` (name not loaded, or a container whose module pointer is null). -/
def get_module (st : CState) (module_name : String) : Option Module :=
  match smap_find st.m_modules module_name with
  | none => none
  | some mc => mc.module

/-- Method `CState::check_module`. -/
def check_module (st : CState) (module_name : String) : Except Exn Module :=
  match st.get_module module_name with
  | some m => Except.ok m
  | none => Except.error (Exn.ModuleNotFoundException ("Module not found: " ++ module_name))

/-- Method `CState::has_module`. -/
def has_module (st : CState) (module_name : String) : Bool :=
  (smap_find st.m_modules module_name).isSome

/-- Method `CState::get_loaded_modules`. -/
def get_loaded_modules (st : CState) : List String :=
  st.m_modules.map (fun p => p.1)

/-- Method `CState::get_modules_in_unload_order`: walk `m_module_load_order`
backwards and collect the container of every name that is loaded.  The result
stands for the vector of shared pointers: each entry is the container as it
is at the time of the call. -/
def get_modules_in_unload_order (st : CState) : List ModuleContainer :=
  st.m_module_load_order.reverse.filterMap (fun name => smap_find st.m_modules name)

/-- Apply `f` to the container at `addr`, if it is in the registry: a call
through a shared pointer to that container. -/
def update_at (m_modules : List (String × ModuleContainer)) (addr : Nat)
    (f : ModuleContainer → ModuleContainer) : List (String × ModuleContainer) :=
  m_modules.map (fun p => (p.1, if p.2.addr = addr then f p.2 else p.2))

/-- Method `CState::thread_request_stop`, the part on the modules: ask every
container of `get_modules_in_unload_order`, in that order, to stop.  The stop
of the file watch thread is left out. -/
def thread_request_stop (st : CState) : CState :=
  { st with
    m_modules := st.get_modules_in_unload_order.foldl
      (fun ms mc => update_at ms mc.addr ModuleContainer.thread_request_stop) st.m_modules }

/-- Method `CState::thread_join`, the part on the modules: join every
container of `get_modules_in_unload_order`, in that order.  A join returns
once the worker of the container has left its loop; what the worker did until
then is given by its iterations (`worker_iteration`).  Only the local shared
pointer is reset afterwards: the containers stay in `m_modules`.  The join of
the file watch thread is left out. -/
def thread_join (st : CState) : CState :=
  { st with
    m_modules := st.get_modules_in_unload_order.foldl
      (fun ms mc => update_at ms mc.addr ModuleContainer.thread_join) st.m_modules }

/-- Method `CState::tmp_store_data`. -/
def tmp_store_data (st : CState) (name : String) (data : String) : CState :=
  { st with m_tmp_data := smap_set st.m_tmp_data name data }

/-- Method `CState::tmp_restore_data`: `m_tmp_data[name]` inserts an empty
string when the name has no entry; the entry is erased and its value
returned. -/
def tmp_restore_data (st : CState) (name : String) : String × CState :=
  let m1 :=
    match smap_find st.m_tmp_data name with
    | some _ => st.m_tmp_data
    | none => smap_set st.m_tmp_data name ""
  ((smap_find m1 name).getD "", { st with m_tmp_data := smap_erase m1 name })

end CState

/-! ## Reachable host states -/

/-- The host states reachable from the empty host by the operations of the
host, each under any environment: loads, unloads, the driver tick, the
requests, subscriptions and emissions, direct calls, shutdown requests,
file-change notifications, iterations of the workers and the stop request to
all workers. -/
inductive HostReachable : CState → Prop where
  | empty : HostReachable {}
  | load_module (env : HostEnv) (st : CState) (info : ModuleInfo) :
    HostReachable st → HostReachable (CState.load_module env st info).2
  | load_module_direct_u (env : HostEnv) (st : CState) (m : Option Module) (name : String) :
    HostReachable st → HostReachable (CState.load_module_direct_u env st m name).2
  | unload_module_u (env : HostEnv) (st : CState) (name : String) :
    HostReachable st → HostReachable (CState.unload_module_u env st name)
  | handle_events (env : HostEnv) (st : CState) :
    HostReachable st → HostReachable (CState.handle_events env st).2
  | unload_module (st : CState) (name : String) :
    HostReachable st → HostReachable (st.unload_module name)
  | reload_module (st : CState) (info : ModuleInfo) :
    HostReachable st → HostReachable (st.reload_module info)
  | reload_module_name (st : CState) (name : String) :
    HostReachable st → HostReachable (st.reload_module_name name)
  | sub_event (type_bits : Nat) (st st1 : CState) (module : Option Nat) (type : Nat) :
    HostReachable st → st.sub_event type_bits module type = some st1 → HostReachable st1
  | emit_event (st : CState) (event : Event) :
    HostReachable st → HostReachable (st.emit_event event)
  | access_module (st : CState) (fuel : Nat) (caller_mc : Option ModuleContainer)
      (name : String) (cb : Callback) (itf : Interference) :
    HostReachable st → HostReachable (st.access_module fuel caller_mc name cb itf).2
  | shutdown (st : CState) (exit_status : Int) (reason : String) :
    HostReachable st → HostReachable (st.shutdown exit_status reason)
  | modified (st : CState) (name : String) :
    HostReachable st →
    HostReachable { st with m_modified_modules := sset_insert st.m_modified_modules name }
  | worker_iteration (st st1 : CState) (name : String) (ev_raises : Event → Option String) :
    HostReachable st → st.worker_iteration name ev_raises = some st1 → HostReachable st1
  | thread_request_stop (st : CState) :
    HostReachable st → HostReachable st.thread_request_stop

/-- The part of invariant P1 that the host keeps: every loaded name has an
entry in `m_module_info` and occurs in `m_module_load_order`. -/
def RegistryInv (st : CState) : Prop :=
  ∀ name, (smap_find st.m_modules name).isSome = true →
    (smap_find st.m_module_info name).isSome = true ∧ name ∈ st.m_module_load_order

/-- Relation between a host state and a later one: no info entry and no
load-order entry is lost, and every name loaded later was loaded before or
has an info entry and a load-order entry. -/
def Grows (st st1 : CState) : Prop :=
  (∀ n, (smap_find st.m_module_info n).isSome = true →
    (smap_find st1.m_module_info n).isSome = true) ∧
  (∀ n, n ∈ st.m_module_load_order → n ∈ st1.m_module_load_order) ∧
  (∀ n, (smap_find st1.m_modules n).isSome = true →
    (smap_find st.m_modules n).isSome = true ∨
    ((smap_find st1.m_module_info n).isSome = true ∧ n ∈ st1.m_module_load_order))

/-- A container is well formed when a worker that is running and not asked
to stop has a module to work on. -/
def ContainerOk (c : ModuleContainer) : Prop :=
  ∀ t, c.thread = some t → t.stop_requested = false → c.module.isSome = true

/-- Every container of a registry is well formed. -/
def ModsOk (m : List (String × ModuleContainer)) : Prop :=
  ∀ k c, smap_find m k = some c → ContainerOk c

/-- Every loaded container of the host is well formed. -/
def AllOk (st : CState) : Prop := ModsOk st.m_modules

/-- A property of host states that the building blocks of the driver tick
keep: emissions, direct calls, unloads, loads, and the clearing of the
request records. -/
structure Preserved (P : CState → Prop) : Prop where
  emit : ∀ (st : CState) (e : Event), P st → P (st.emit_event e)
  access : ∀ (st : CState) (fuel : Nat) (caller_mc : Option ModuleContainer) (name : String)
    (cb : Callback) (itf : Interference), P st → P (st.access_module fuel caller_mc name cb itf).2
  unload : ∀ (env : HostEnv) (st : CState) (name : String), P st →
    P (CState.unload_module_u env st name)
  load : ∀ (env : HostEnv) (st : CState) (info : ModuleInfo), P st →
    P (CState.load_module env st info).2
  clear_modified : ∀ st : CState, P st → P { st with m_modified_modules := [] }
  clear_requests : ∀ st : CState, P st →
    P { st with m_unloads_requested := [], m_reloads_requested := [] }

/-! ## The direct-call protocol of one container, step by step

The threads that touch one container are its worker, any number of callers of
`execute_direct_cb` (numbered), emitters calling `push_event`, and whoever
calls `thread_request_stop`.  Each action below is one of the atomic pieces of
those functions; `Proto.step` gives its effect, and `none` when the action is
not enabled (a wait on a zero semaphore, or a thread that is elsewhere in its
code). -/

/-- Where a caller of `execute_direct_cb` stands: not calling, past
`direct_cb_free_sem.wait()`, past the stop check, past the parking of its
callback (waiting on `direct_cb_executed_sem`), and past that wait. -/
inductive CallerPc where
  | idle
  | acquired (cb : Callback)
  | passed (cb : Callback)
  | parked (cb : Callback)
  | finishing
  deriving DecidableEq, Repr

/-- Where the worker stands in the loop of `ModuleThread::run`: at the wait on
`event_queue_sem`, past it, past the grab (with the locals `direct_cb` and
`event`), or out of the loop. -/
inductive WorkerPc where
  | waiting
  | woken
  | grabbed (direct_cb : Option Callback) (event : Option Event)
  | exited
  deriving DecidableEq, Repr

/-- State of the protocol: the container, the position of the worker and of
every caller, and the history of the events pushed. -/
structure Proto where
  mc : ModuleContainer
  worker : WorkerPc
  callers : Nat → CallerPc
  pushed : List Event

/-- The atomic actions of the threads around one container. -/
inductive Action where
  | push (e : Event)
  | stop
  | acquire (i : Nat) (cb : Callback)
  | check (i : Nat)
  | park (i : Nat)
  | wake (i : Nat)
  | release (i : Nat)
  | w_wait
  | w_grab
  | w_dispatch (what : Option String)
  deriving DecidableEq, Repr

/-- Value of `thread->stop_requested()` (false without a thread). -/
def ModuleContainer.stop_requested (mc : ModuleContainer) : Bool :=
  match mc.thread with
  | some t => t.stop_requested
  | none => false

namespace Proto

open ModuleContainer ModuleThread

/-- A container whose thread has just been started, with every caller idle. -/
def start (addr : Nat) (m : Module) (info : ModuleInfo) : Proto :=
  { mc := { ModuleContainer.create addr (some m) info with thread := some {} }
    worker := WorkerPc.waiting
    callers := fun _ => CallerPc.idle
    pushed := [] }

/-- Effect of one action. -/
def step (s : Proto) : Action → Option Proto
  | Action.push e => some { s with mc := s.mc.push_event e, pushed := s.pushed ++ [e] }
  | Action.stop => some { s with mc := s.mc.thread_request_stop }
  | Action.acquire i cb =>
    match s.callers i, s.mc.edc_acquire with
    | CallerPc.idle, some mc1 =>
      some { s with mc := mc1, callers := Function.update s.callers i (CallerPc.acquired cb) }
    | _, _ => none
  | Action.check i =>
    match s.callers i with
    | CallerPc.acquired cb =>
      match s.mc.edc_check none with
      | (Res.ok _, mc1) =>
        some { s with mc := mc1, callers := Function.update s.callers i (CallerPc.passed cb) }
      | (Res.threw _, mc1) =>
        some { s with mc := mc1, callers := Function.update s.callers i CallerPc.idle }
      | _ => none
    | _ => none
  | Action.park i =>
    match s.callers i with
    | CallerPc.passed cb =>
      some { s with mc := s.mc.edc_park cb,
                    callers := Function.update s.callers i (CallerPc.parked cb) }
    | _ => none
  | Action.wake i =>
    match s.callers i, s.mc.edc_wait with
    | CallerPc.parked _, some mc1 =>
      some { s with mc := mc1, callers := Function.update s.callers i CallerPc.finishing }
    | _, _ => none
  | Action.release i =>
    match s.callers i with
    | CallerPc.finishing =>
      some { s with mc := s.mc.edc_release.2,
                    callers := Function.update s.callers i CallerPc.idle }
    | _ => none
  | Action.w_wait =>
    match s.worker, w_wait s.mc with
    | WorkerPc.waiting, some mc1 => some { s with mc := mc1, worker := WorkerPc.woken }
    | _, _ => none
  | Action.w_grab =>
    match s.worker with
    | WorkerPc.woken =>
      some { s with mc := (w_grab s.mc).2,
                    worker := WorkerPc.grabbed (w_grab s.mc).1.1 (w_grab s.mc).1.2 }
    | _ => none
  | Action.w_dispatch what =>
    match s.worker with
    | WorkerPc.grabbed direct_cb event =>
      if s.mc.stop_requested then
        some { s with mc := w_end_destruct (w_begin_destruct (w_stop s.mc direct_cb)),
                      worker := WorkerPc.exited }
      else
        match direct_cb, event with
        | some cb, _ => some { s with mc := handle_direct_cb s.mc cb, worker := WorkerPc.waiting }
        | none, some e =>
          some { s with mc := (handle_event s.mc e what).1, worker := WorkerPc.waiting }
        | none, none => some { s with worker := WorkerPc.waiting }
    | _ => none

/-- Effect of a sequence of actions; `none` as soon as one is not enabled. -/
def run : Proto → List Action → Option Proto
  | s, [] => some s
  | s, a :: rest =>
    match s.step a with
    | none => none
    | some s1 => run s1 rest

/-- Whether the caller is between the stop check it passed and the release of
`direct_cb_free_sem`: its callback is about to be parked, parked, being
executed, or done and not yet given up. -/
def in_flight : CallerPc → Bool
  | CallerPc.passed _ => true
  | CallerPc.parked _ => true
  | CallerPc.finishing => true
  | _ => false

/-- The events passed to `module->event`, oldest first, read off the trace. -/
def handled : List Call → List Event
  | [] => []
  | Call.event e :: r => e :: handled r
  | Call.direct _ :: r => handled r

/-- The event the worker holds in its local `event`, if any. -/
def in_hand : WorkerPc → List Event
  | WorkerPc.grabbed _ (some e) => [e]
  | _ => []

end Proto

/-- Invariant of the direct-call protocol.  At most one caller is in flight;
while no stop is requested `direct_cb_free_sem` is 1 with every caller idle,
or 0 with exactly one caller not idle; the callback in the slot, and the one
the worker has grabbed, is the callback of a parked caller;
`direct_cb_executed_sem` is at most 1, and when it is 1 the slot is empty and
a caller is parked. -/
structure ProtoInv (s : Proto) : Prop where
  one_in_flight : ∀ i j, Proto.in_flight (s.callers i) = true →
    Proto.in_flight (s.callers j) = true → i = j
  holders : s.mc.stop_requested = false →
    (s.mc.direct_cb_free_sem = 1 ∧ ∀ i, s.callers i = CallerPc.idle) ∨
    (s.mc.direct_cb_free_sem = 0 ∧
      ∃ i, s.callers i ≠ CallerPc.idle ∧ ∀ j, j ≠ i → s.callers j = CallerPc.idle)
  slot_owner : ∀ cb, s.mc.direct_cb = some cb → ∃ i, s.callers i = CallerPc.parked cb
  grabbed_slot : ∀ cb ev, s.worker = WorkerPc.grabbed (some cb) ev → s.mc.direct_cb = some cb
  executed_le : s.mc.direct_cb_executed_sem ≤ 1
  executed_owner : 0 < s.mc.direct_cb_executed_sem →
    s.mc.direct_cb = none ∧ ∃ i cb, s.callers i = CallerPc.parked cb

/-- Invariant of the event queue.  Until the worker has left its loop the
module is there and the events pushed are, in order, those passed to
`module->event`, the one the worker holds, and those in the queue; the worker
never holds a callback and an event together; it leaves the loop only after a
stop request; the events passed to `module->event` are always a prefix of the
events pushed. -/
structure EventInv (s : Proto) : Prop where
  live : s.worker ≠ WorkerPc.exited →
    s.mc.module.isSome = true ∧
    s.pushed = Proto.handled s.mc.trace ++ Proto.in_hand s.worker ++ s.mc.event_queue
  grabbed_one : ∀ cb ev, s.worker = WorkerPc.grabbed (some cb) ev → ev = none
  exited_stop : s.worker = WorkerPc.exited → s.mc.stop_requested = true
  handled_prefix : Proto.handled s.mc.trace <+: s.pushed

/-- No subscriber list holds a container twice. -/
def SubsNodup (st : CState) : Prop := ∀ l, l ∈ st.m_event_subs → l.Nodup

/-- One worker iteration on each of the named containers, in turn. -/
def CState.worker_iterations (ev_raises : Event → Option String) :
    CState → List String → Option CState
  | st, [] => some st
  | st, name :: rest =>
    match st.worker_iteration name ev_raises with
    | none => none
    | some st1 => worker_iterations ev_raises st1 rest

/-! ## The build of a module

`CState::build_module_u` works on the files of the build directory and on the
compiler adapter.  The code it calls outside of `state.cpp` is taken as
parameters: `list_includes` and `hash_files`, the methods `build` and
`construct` of the compiler adapter, `sha1::hex`, `fs::strip_file_name`, the
values of the server configuration, and the platform. -/

/-- The arguments of one call of `m_compiler->build`, with the include
directories the adapter holds at that moment. -/
structure BuildCall where
  module_name : String
  in_path : String
  out_path : String
  extra_cxxflags : String
  extra_ldflags : String
  skip_compile : Bool
  include_directories : List String
  deriving DecidableEq, Repr

/-- What `build_module_u` takes from outside `state.cpp`.  The method
`compiler_build` is `m_compiler->build`: its result and what it does to the
files. -/
structure BuildEnv where
  win32 : Bool
  list_includes : List (String × String) → String → List String → List String
  hash_files : List (String × String) → List String → String
  sha1_hex : String → String
  strip_file_name : String → String
  skip_compiling_modules : String → Bool
  rccpp_build_path : String
  exe_path : String
  compiler_build : BuildCall → List (String × String) → Bool × List (String × String)
  construct : String → Option Module

/-- The state `build_module_u` works on: the files (path and bytes of every
file that can be opened), the include directories of the compiler adapter,
`m_modules_path`, and `m_module_file_watches` (per module, directory and
watched path of every watch).  The field `build_calls` is a history variable:
the calls of `m_compiler->build` made so far. -/
structure BuildState where
  fs : List (String × String) := []
  include_directories : List String := []
  m_modules_path : String := ""
  m_module_file_watches : List (String × List (String × String)) := []
  build_calls : List BuildCall := []
  deriving DecidableEq, Repr

namespace BuildState

/-- Local `init_cpp_path` of `build_module_u`. -/
def init_cpp_path (info : ModuleInfo) : String :=
  info.path ++ "/" ++ info.name ++ ".cpp"

/-- Local `includes` of `build_module_u`. -/
def includes (env : BuildEnv) (s : BuildState) (info : ModuleInfo) : List String :=
  env.list_includes s.fs (init_cpp_path info) (s.include_directories ++ [s.m_modules_path])

/-- Local `extra_cxxflags` of `build_module_u`. -/
def extra_cxxflags (env : BuildEnv) (info : ModuleInfo) : String :=
  if env.win32 then info.meta.cxxflags ++ (" " ++ info.meta.cxxflags_windows)
  else info.meta.cxxflags ++ (" " ++ info.meta.cxxflags_linux)

/-- Local `extra_ldflags` of `build_module_u`. -/
def extra_ldflags (env : BuildEnv) (info : ModuleInfo) : String :=
  if env.win32 then
    info.meta.ldflags ++ (" " ++ info.meta.ldflags_windows) ++ " -lbuildat_core" ++
      " -lwsock32 -lws2_32" ++ (" -L\"" ++ env.strip_file_name env.exe_path ++ "\"")
  else info.meta.ldflags ++ (" " ++ info.meta.ldflags_linux)

/-- Local `content_hash` of `build_module_u`: the hash of the includes and of
the source file. -/
def content_hash (env : BuildEnv) (s : BuildState) (info : ModuleInfo) : String :=
  env.hash_files s.fs (includes env s info ++ [init_cpp_path info])

/-- Local `build_dst` of `build_module_u`. -/
def build_dst (env : BuildEnv) (s : BuildState) (info : ModuleInfo) : String :=
  if env.win32 then
    env.rccpp_build_path ++ ("/" ++ info.name ++ "_" ++ env.sha1_hex (content_hash env s info) ++
      "." ++ "dll")
  else env.rccpp_build_path ++ ("/" ++ info.name ++ "." ++ "so")

/-- Local `hashfile_path` of `build_module_u`. -/
def hashfile_path (env : BuildEnv) (s : BuildState) (info : ModuleInfo) : String :=
  build_dst env s info ++ ".hash"

/-- Local `previous_hash` of `build_module_u`: the bytes of the hash file, the
empty string when it cannot be opened. -/
def previous_hash (env : BuildEnv) (s : BuildState) (info : ModuleInfo) : String :=
  match smap_find s.fs (hashfile_path env s info) with
  | some bytes => bytes
  | none => ""

/-- Local `skip_compile` of `build_module_u` at the call of `m_compiler->build`:
the configured value, set to true when the output file can be opened and the
hash file holds the fresh hash. -/
def skip_compile (env : BuildEnv) (s : BuildState) (info : ModuleInfo) : Bool :=
  if !env.skip_compiling_modules info.name then
    if !(smap_find s.fs (build_dst env s info)).isSome then
      env.skip_compiling_modules info.name
    else if previous_hash env s info = content_hash env s info then true
    else env.skip_compiling_modules info.name
  else env.skip_compiling_modules info.name

/-- The call of `m_compiler->build` that `build_module_u` makes. -/
def build_call (env : BuildEnv) (s : BuildState) (info : ModuleInfo) : BuildCall :=
  { module_name := info.name
    in_path := init_cpp_path info
    out_path := build_dst env s info
    extra_cxxflags := extra_cxxflags env info
    extra_ldflags := extra_ldflags env info
    skip_compile := skip_compile env s info
    include_directories := s.include_directories ++ [s.m_modules_path] }

/-- The file watches after the first part of `build_module_u`: a module
without a watch gets one on the directory of its source and of each include. -/
def with_file_watch (env : BuildEnv) (s : BuildState) (info : ModuleInfo) :
    List (String × List (String × String)) :=
  if (smap_find s.m_module_file_watches info.name).isSome then s.m_module_file_watches
  else
    smap_set s.m_module_file_watches info.name
      ((init_cpp_path info :: includes env s info).map
        (fun watch_path => (env.strip_file_name watch_path, watch_path)))

/-- Method `CState::build_module_u`: the module constructed (`none` for
`nullptr`), and the state left. -/
def build_module_u (env : BuildEnv) (s : BuildState) (info : ModuleInfo) :
    Option Module × BuildState :=
  let s1 : BuildState :=
    { s with
      m_module_file_watches := with_file_watch env s info
      build_calls := s.build_calls ++ [build_call env s info]
      fs := (env.compiler_build (build_call env s info) s.fs).2 }
  if !(env.compiler_build (build_call env s info) s.fs).1 then (none, s1)
  else if !skip_compile env s info then
    (env.construct info.name,
      { s1 with fs := smap_set s1.fs (hashfile_path env s info) (content_hash env s info) })
  else (env.construct info.name, s1)

end BuildState

/-- The containers of a registry have addresses below `n`, and no two names
hold containers of one address. -/
def ModsAddr (n : Nat) (m : List (String × ModuleContainer)) : Prop :=
  (∀ k c, smap_find m k = some c → c.addr < n) ∧
  (∀ k1 k2 c1 c2, smap_find m k1 = some c1 → smap_find m k2 = some c2 →
    c1.addr = c2.addr → k1 = k2)

/-- The loaded containers of a host have addresses below `next_addr`, and
no two names hold containers of one address. -/
def AddrInv (st : CState) : Prop := ModsAddr st.next_addr st.m_modules

/-- What `event_queue_sem` is there to count: the queued events, and one for a
callback parked in the slot. -/
def ModuleContainer.pending (mc : ModuleContainer) : Nat :=
  mc.event_queue.length + (if mc.direct_cb.isSome then 1 else 0)

/-- How the count of `event_queue_sem` stands to the number it is there to
count, by the position of the worker.  With the worker at its wait the two are
equal; past the wait, and past the grab of a callback (which stays in the slot
until it is handled), the count is one less; past the grab of an event they
are equal again; a grab that took nothing, and a worker out of its loop, are
excluded. -/
def SemCount : WorkerPc → Nat → Nat → Prop
  | WorkerPc.waiting, sem, pending => sem = pending
  | WorkerPc.woken, sem, pending => sem + 1 = pending
  | WorkerPc.grabbed (some _) _, sem, pending => sem + 1 = pending
  | WorkerPc.grabbed none (some _), sem, pending => sem = pending
  | WorkerPc.grabbed none none, _, _ => False
  | WorkerPc.exited, _, _ => False

/-- Invariant of `event_queue_sem`: while no stop is requested the count
stands to the number of queued events and parked callback as `SemCount`
says. -/
def SemInv (s : Proto) : Prop :=
  s.mc.stop_requested = false → SemCount s.worker s.mc.event_queue_sem s.mc.pending

/-! ## The voxel world: the region of a section

From `builtin/voxelworld/voxelworld.cpp`.  The coordinates of a section are
`int16_t`; the arithmetic of `get_section_region` is done in `int` (32 bits)
after integer promotion and its results are stored as `int32_t`.  Signed
overflow is undefined in C++: an operation whose exact result does not fit
gives `none`. -/

namespace Voxelworld

/-- A vector of three integers (`pv::Vector3DInt16`, `pv::Vector3DInt32`). -/
structure V3 where
  x : Int
  y : Int
  z : Int
  deriving DecidableEq, Repr

/-- The values of `int16_t`. -/
def is_int16 (v : Int) : Prop := -32768 ≤ v ∧ v ≤ 32767

/-- The result of an operation on `int`: the exact value when it fits in 32
bits. -/
def checked_int (v : Int) : Option Int :=
  if -2147483648 ≤ v ∧ v ≤ 2147483647 then some v else none

/-- Member `m_chunk_size_voxels` with its initial value, which the module
never changes. -/
def m_chunk_size_voxels : V3 := ⟨16, 16, 16⟩

/-- Member `m_section_size_chunks` with its initial value, which the module
never changes. -/
def m_section_size_chunks : V3 := ⟨2, 2, 2⟩

/-- One axis of `get_section_region`: the coordinate of `p0` is
`section_p * section_size_chunks * chunk_size_voxels`, that of `p1` is the
coordinate of `p0` plus `section_size_chunks * chunk_size_voxels - 1`. -/
def section_region_axis (section_p section_size_chunks chunk_size_voxels : Int) :
    Option (Int × Int) :=
  (checked_int (section_p * section_size_chunks)).bind fun a =>
  (checked_int (a * chunk_size_voxels)).bind fun p0 =>
  (checked_int (section_size_chunks * chunk_size_voxels)).bind fun b =>
  (checked_int (b - 1)).bind fun c =>
  (checked_int (p0 + c)).bind fun p1 => some (p0, p1)

/-- Method `voxelworld::Module::get_section_region` for a module with the
given members: the corners `p0` and `p1`. -/
def get_section_region (section_size_chunks chunk_size_voxels section_p : V3) :
    Option (V3 × V3) :=
  (section_region_axis section_p.x section_size_chunks.x chunk_size_voxels.x).bind fun rx =>
  (section_region_axis section_p.y section_size_chunks.y chunk_size_voxels.y).bind fun ry =>
  (section_region_axis section_p.z section_size_chunks.z chunk_size_voxels.z).bind fun rz =>
  some (⟨rx.1, ry.1, rz.1⟩, ⟨rx.2, ry.2, rz.2⟩)

/-- Whether the point `p` lies in the region with lower corner `r.1` and upper
corner `r.2`, both corners included. -/
def in_region (r : V3 × V3) (p : V3) : Prop :=
  r.1.x ≤ p.x ∧ p.x ≤ r.2.x ∧ r.1.y ≤ p.y ∧ p.y ≤ r.2.y ∧ r.1.z ≤ p.z ∧ p.z ≤ r.2.z

end Voxelworld

/-! ## Rendering of socket addresses

From `impl/tcpsocket.cpp`.  The bytes of an address are `uchar`, given as
naturals; the stream `os` is the list of characters written so far. -/

namespace Tcpsocket

/-- Output of `os<<std::dec<<std::setfill('0')<<std::setw(0)<<v`: the decimal
digits of `v`, without padding. -/
def put_dec (v : Nat) : List Char := Nat.toDigits 10 v

/-- Output of `os<<std::hex<<std::setfill('0')<<std::setw(2)<<v`: the
hexadecimal digits of `v` in lower case, filled with `0` on the left up to two
characters. -/
def put_hex2 (v : Nat) : List Char :=
  List.replicate (2 - (Nat.toDigits 16 v).length) '0' ++ Nat.toDigits 16 v

/-- The loop of `address_bytes_to_string`, from index `i` with `os` written so
far; `fuel` bounds the number of iterations (the index grows in each). -/
def address_bytes_loop (ip : List Nat) : Nat → Nat → List Char → List Char
  | 0, _, os => os
  | fuel + 1, i, os =>
    if i < ip.length then
      if ip.length = 4 then
        let os1 := os ++ put_dec (ip.getD i 0 % 256)
        let os2 := if i < ip.length - 1 then os1 ++ ['.'] else os1
        address_bytes_loop ip fuel (i + 1) os2
      else
        let os1 := os ++ put_hex2 (ip.getD i 0 % 256)
        let os2 :=
          if i + 1 < ip.length then os1 ++ put_hex2 (ip.getD (i + 1) 0 % 256) else os1
        let os3 := if i + 1 < ip.length - 1 then os2 ++ [':'] else os2
        address_bytes_loop ip fuel (i + 1 + 1) os3
    else os

/-- Function `interface::address_bytes_to_string`. -/
def address_bytes_to_string (ip : List Nat) : String :=
  String.mk (address_bytes_loop ip ip.length 0 [])

/-- The number a list of decimal digits stands for. -/
def of_dec (l : List Char) : Nat := l.foldl (fun n c => 10 * n + (c.toNat - 48)) 0

/-- The number a list of lower-case hexadecimal digits stands for. -/
def of_hex (l : List Char) : Nat :=
  l.foldl (fun n c => 16 * n + (if c.toNat < 58 then c.toNat - 48 else c.toNat - 87)) 0

end Tcpsocket

/-! ## Calls in sequence, and example hosts -/

/-- A sequence of `execute_direct_cb` calls on one container, one after the
other: the results, and the container left behind. -/
def ModuleContainer.execute_direct_cbs :
    ModuleContainer → List (Callback × Option ModuleContainer × Interference) →
    List (Res (Option Exn)) × ModuleContainer
  | mc, [] => ([], mc)
  | mc, c :: rest =>
    ((mc.execute_direct_cb c.1 c.2.1 c.2.2).1 ::
        (execute_direct_cbs (mc.execute_direct_cb c.1 c.2.1 c.2.2).2 rest).1,
      (execute_direct_cbs (mc.execute_direct_cb c.1 c.2.1 c.2.2).2 rest).2)

/-- An environment for the examples: every build succeeds, no callback raises,
event names are numbered by their length. -/
def ex_env : HostEnv where
  t := fun name => name.length
  build := fun info =>
    some { addr := 100 + (info.name.toList.map Char.toNat).sum, m_module_name := info.name }
  init := fun _ => { id := 0 }
  on_unload := fun _ => { id := 1 }
  on_continue := fun _ => { id := 2 }

/-- Info of an example module with the given dependencies. -/
def ex_info (name : String) (deps : List String) : ModuleInfo :=
  { name := name, path := "mods/" ++ name,
    meta := { dependencies := deps.map (fun d => { module := d }) } }

/-- Host in which `B` was loaded, then `A`, where `A` declares a dependency on
`B` and `B` declares none. -/
def ex_host_AB : CState :=
  (CState.load_module ex_env
    (CState.load_module ex_env {} (ex_info "B" [])).2 (ex_info "A" ["B"])).2

/-- The container of the module named `name` in `st` (a null container with
address 0 when it is not loaded). -/
def ex_container (st : CState) (name : String) : ModuleContainer :=
  (smap_find st.m_modules name).getD { addr := 0, module := none, info := {} }

/-- A direct callback that does not raise. -/
def ex_cb : Callback := { id := 7 }

/-- The container `mc` at the moment its worker, asked to stop, has left the
loop of `run` and is inside the module destructor. -/
def ex_destructing (mc : ModuleContainer) : ModuleContainer :=
  match ModuleThread.w_wait mc.thread_request_stop with
  | some mc1 =>
    ModuleThread.w_begin_destruct
      (ModuleThread.w_stop (ModuleThread.w_grab mc1).2 (ModuleThread.w_grab mc1).1.1)
  | none => mc

/-- The example host at server teardown, with the worker of `A` inside the
destructor of its module. -/
def ex_host_teardown : CState :=
  { ex_host_AB with
    m_modules := smap_set ex_host_AB.m_modules "A" (ex_destructing (ex_container ex_host_AB "A")) }

/-- The example host after the module of `A` subscribed to event type 3. -/
def ex_host_sub : CState := (ex_host_AB.sub_event 64 (some 165) 3).getD ex_host_AB

/-- An environment whose build gives every module the name of its info with
`_impl` appended. -/
def ex_env_misnamed : HostEnv :=
  { ex_env with
    build := fun info => some { addr := 100, m_module_name := info.name ++ "_impl" } }

/-- Info of an example module without native code. -/
def ex_info_no_cpp (name : String) : ModuleInfo :=
  { name := name, path := "mods/" ++ name, meta := { disable_cpp := true } }

/-- A direct callback that raises. -/
def ex_cb_raising : Callback := { id := 9, raises := some (Exn.Exception "callback failed") }

/-- An example build environment: Linux, no configured skip, the hash of a
list of files is the concatenation of their bytes, the compiler succeeds and
writes the output file unless told to skip, the factory returns a module. -/
def ex_build_env : BuildEnv where
  win32 := false
  list_includes := fun _ _ _ => ["inc/a.h"]
  hash_files := fun fs files => String.join (files.map (fun f => (smap_find fs f).getD "?"))
  sha1_hex := fun h => h
  strip_file_name := fun p => p
  skip_compiling_modules := fun _ => false
  rccpp_build_path := "build"
  exe_path := "bin/server"
  compiler_build := fun call fs =>
    (true, if call.skip_compile then fs else smap_set fs call.out_path "object code")
  construct := fun name => some { addr := 7, m_module_name := name }

/-- Files of the example: the source of `A` and its include. -/
def ex_build_state : BuildState :=
  { fs := [("inc/a.h", "int a;"), ("mods/A/A.cpp", "void f();")] }

/-- The host in which `A` was loaded, unloaded and loaded again. -/
def ex_host_reloaded : CState :=
  (CState.load_module ex_env
    (CState.unload_module_u ex_env (CState.load_module ex_env {} (ex_info "A" [])).2 "A")
    (ex_info "A" [])).2

/-- The example environment with a compiler that fails every build. -/
def ex_env_build_fails : HostEnv := { ex_env with build := fun _ => none }

/-- The example host with a reload of `A` requested. -/
def ex_host_reload_A : CState := ex_host_AB.reload_module_name "A"

/-- The host in which `A` was loaded and unloaded, with a reload of `A`
requested. -/
def ex_host_reload_unloaded_A : CState :=
  (CState.unload_module_u ex_env
    (CState.load_module ex_env {} (ex_info "A" [])).2 "A").reload_module_name "A"

/-- The container of `B` of the example host with the event of type 3 in its
queue and the callback `ex_cb` parked in its slot. -/
def ex_container_both : ModuleContainer :=
  ((ex_container ex_host_AB "B").push_event { type := 3 }).edc_park ex_cb

/-- The host in which `C`, `B` and `A` were loaded, where `B` declares a
dependency on `A` and `A` one on `B`. -/
def ex_host_cycle : CState :=
  (CState.load_module ex_env
    (CState.load_module ex_env
      (CState.load_module ex_env {} (ex_info "C" [])).2 (ex_info "B" ["A"])).2
    (ex_info "A" ["B"])).2

/-- The host in which the module `L`, which has no native code, was loaded. -/
def ex_host_no_cpp : CState := (CState.load_module ex_env {} (ex_info_no_cpp "L")).2

/-! ## Shutdown state -/

/-- C4: for every nonzero code `c` and reason `r`, after `shutdown(c, r)` a
later `shutdown(0, r2)` leaves the host state unchanged, and
`is_shutdown_requested` still returns true with exit status `c` and reason
`r`. -/
theorem shutdown_nonzero_is_sticky (st : CState) (c : Int) (r r2 : String) (hc : c ≠ 0) :
    ((st.shutdown c r).shutdown 0 r2) = st.shutdown c r ∧
    ((st.shutdown c r).shutdown 0 r2).is_shutdown_requested = (true, some (c, r)) := by
  have h1 : st.shutdown c r =
      { st with m_shutdown_requested := true, m_shutdown_exit_status := c,
                m_shutdown_reason := r } := by
    simp [CState.shutdown, hc]
  rw [h1]
  simp [CState.shutdown, CState.is_shutdown_requested]

/-- Witness of C4 on the fresh host with code 1. -/
theorem shutdown_nonzero_is_sticky_witness :
    ((1 : Int) ≠ 0) ∧
    (((({} : CState).shutdown 1 "crash").shutdown 0 "bye") = ({} : CState).shutdown 1 "crash" ∧
     ((({} : CState).shutdown 1 "crash").shutdown 0 "bye").is_shutdown_requested =
       (true, some (1, "crash"))) :=
  ⟨by decide, shutdown_nonzero_is_sticky {} 1 "crash" "bye" (by decide)⟩

/-- C5, as stated, fails: after `shutdown(1, "first")` followed by
`shutdown(2, "second")` on a fresh host the recorded exit status and reason
are 2 and "second", not 1 and "first". -/
theorem shutdown_first_nonzero_does_not_win :
    ((({} : CState).shutdown 1 "first").shutdown 2 "second").is_shutdown_requested =
      (true, some (2, "second")) ∧
    ((({} : CState).shutdown 1 "first").shutdown 2 "second").is_shutdown_requested ≠
      (true, some (1, "first")) := by
  decide

/-- C5, amended: a `shutdown` with a nonzero code always records its code and
reason, whatever was recorded before (the last nonzero call wins; in
particular a recorded zero code is replaced by a later nonzero one), and a
`shutdown(0, ...)` after any `shutdown` changes nothing. -/
theorem shutdown_last_nonzero_wins (st : CState) (c1 c2 : Int) (r1 r2 : String)
    (hc2 : c2 ≠ 0) :
    ((st.shutdown c1 r1).shutdown c2 r2).is_shutdown_requested = (true, some (c2, r2)) ∧
    ((st.shutdown c1 r1).shutdown 0 r2) = st.shutdown c1 r1 := by
  constructor
  · simp [CState.shutdown, CState.is_shutdown_requested, hc2]
  · by_cases h : (st.m_shutdown_requested && c1 == 0) = true
    · have h0 : st.shutdown c1 r1 = st := by simp [CState.shutdown, h]
      have hreq : st.m_shutdown_requested = true := by
        simp only [Bool.and_eq_true] at h
        exact h.1
      rw [h0]
      simp [CState.shutdown, hreq]
    · have h0 : st.shutdown c1 r1 =
          { st with m_shutdown_requested := true, m_shutdown_exit_status := c1,
                    m_shutdown_reason := r1 } := by
        simp [CState.shutdown, h]
      rw [h0]
      simp [CState.shutdown]

/-- Witness of the amended C5: a recorded zero code replaced by a later 3. -/
theorem shutdown_last_nonzero_wins_witness :
    ((3 : Int) ≠ 0) ∧
    (((({} : CState).shutdown 0 "quit").shutdown 3 "failure").is_shutdown_requested =
        (true, some (3, "failure")) ∧
     ((({} : CState).shutdown 0 "quit").shutdown 0 "failure") = ({} : CState).shutdown 0 "quit") :=
  ⟨by decide, shutdown_last_nonzero_wins {} 0 3 "quit" "failure" (by decide)⟩

/-! ## Calls on a stopping container -/

/-- On a container whose thread has the stop flag set and whose
`direct_cb_free_sem` is positive, `execute_direct_cb` from another caller
raises `TargetModuleNotAvailable` and leaves the container as it was. -/
theorem execute_direct_cb_of_stopped (mc : ModuleContainer) (t : Thread) (cb : Callback)
    (caller_mc : Option ModuleContainer) (itf : Interference)
    (ht : mc.thread = some t) (hstop : t.stop_requested = true)
    (hfree : 0 < mc.direct_cb_free_sem) (hself : mc.is_this caller_mc = false) :
    mc.execute_direct_cb cb caller_mc itf =
      (Res.threw (Exn.TargetModuleNotAvailable (mc.stopping_message caller_mc)), mc) := by
  have hne : mc.direct_cb_free_sem ≠ 0 := Nat.pos_iff_ne_zero.mp hfree
  have hback : mc.direct_cb_free_sem - 1 + 1 = mc.direct_cb_free_sem := Nat.sub_add_cancel hfree
  simp [ModuleContainer.execute_direct_cb, hself, ModuleContainer.edc_acquire, hne,
    ModuleContainer.edc_check, ht, hstop, hback, ModuleContainer.stopping_message]
  cases mc
  simp_all

/-- Between `thread_request_stop` and `thread_join`, on a container that has a
worker thread: every `execute_direct_cb` from a caller other than the
container itself raises `TargetModuleNotAvailable` (it does not block), and
the container is left exactly as `thread_request_stop` left it: the callback
is not stored in the slot and `direct_cb_free_sem` keeps its count, so any
number of calls in a row fail the same way. -/
theorem stopped_container_refuses_direct_calls (mc : ModuleContainer) (t : Thread)
    (calls : List (Callback × Option ModuleContainer × Interference))
    (ht : mc.thread = some t)
    (hself : ∀ c ∈ calls, mc.is_this c.2.1 = false) :
    mc.thread_request_stop.execute_direct_cbs calls =
      (calls.map (fun c =>
          Res.threw (Exn.TargetModuleNotAvailable (mc.stopping_message c.2.1))),
        mc.thread_request_stop) := by
  induction calls with
  | nil => rfl
  | cons c rest ih =>
    have hrest : ∀ c ∈ rest, mc.is_this c.2.1 = false :=
      fun c hc => hself c (List.mem_cons_of_mem _ hc)
    have hc : mc.is_this c.2.1 = false := hself c (List.mem_cons_self _ _)
    have hone : mc.thread_request_stop.execute_direct_cb c.1 c.2.1 c.2.2 =
        (Res.threw (Exn.TargetModuleNotAvailable (mc.stopping_message c.2.1)),
          mc.thread_request_stop) := by
      have h := execute_direct_cb_of_stopped mc.thread_request_stop
        { t with stop_requested := true } c.1 c.2.1 c.2.2
        (by simp [ModuleContainer.thread_request_stop, ht]) rfl
        (by simp [ModuleContainer.thread_request_stop, ht])
        (by
          cases hcm : c.2.1 with
          | none => simp [ModuleContainer.is_this]
          | some x =>
            rw [hcm] at hc
            simpa [ModuleContainer.is_this, ModuleContainer.thread_request_stop, ht] using hc)
      rw [h]
      simp [ModuleContainer.stopping_message, ModuleContainer.thread_request_stop, ht]
    simp only [ModuleContainer.execute_direct_cbs, hone, ih hrest, List.map_cons]

/-- The container of `A` in the example host, stopped and not yet joined, then
called by `B` and by the driver thread: both calls are refused. -/
theorem stopped_container_refuses_direct_calls_witness :
    (ex_container ex_host_AB "A").thread = some {} ∧
    (ex_container ex_host_AB "A").thread_request_stop.execute_direct_cbs
        [(ex_cb, some (ex_container ex_host_AB "B"), Interference.nothing),
         (ex_cb, none, Interference.nothing)] =
      ([Res.threw (Exn.TargetModuleNotAvailable
          ((ex_container ex_host_AB "A").stopping_message (some (ex_container ex_host_AB "B")))),
        Res.threw (Exn.TargetModuleNotAvailable
          ((ex_container ex_host_AB "A").stopping_message none))],
        (ex_container ex_host_AB "A").thread_request_stop) :=
  ⟨by decide,
   stopped_container_refuses_direct_calls (ex_container ex_host_AB "A") {}
     [(ex_cb, some (ex_container ex_host_AB "B"), Interference.nothing),
      (ex_cb, none, Interference.nothing)]
     (by decide) (by decide)⟩

/-- C6 fails in the code once the stopped container has been joined.  On the
container of `A` in the example host (it has a worker thread),
`thread_request_stop` is followed by `thread_join`, as in `unload_module_u`
and in the server-wide stop; `thread_join` resets the `thread` pointer.  A
later `execute_direct_cb`, from `B` or from the driver thread, passes the wait
on `direct_cb_free_sem` and dereferences the null `thread` at the stop check,
instead of raising `TargetModuleNotAvailable` as it does before the join.  It
is the same with the last iteration of the worker in between, and for
`access_module` on the host after the server-wide `thread_request_stop`, the
exit of both workers and `thread_join`, which leaves the joined containers in
`m_modules`. -/
theorem direct_call_after_join_dereferences_null_thread :
    (ex_container ex_host_AB "A").thread = some {} ∧
    ((ex_container ex_host_AB "A").thread_request_stop.execute_direct_cb ex_cb none
        Interference.nothing).1 =
      Res.threw (Exn.TargetModuleNotAvailable
        "Target module [A] is stopping - called by [__unknown]") ∧
    (ex_container ex_host_AB "A").thread_request_stop.thread_join.thread = none ∧
    0 < (ex_container ex_host_AB "A").thread_request_stop.thread_join.direct_cb_free_sem ∧
    ((ex_container ex_host_AB "A").thread_request_stop.thread_join.execute_direct_cb ex_cb
        (some (ex_container ex_host_AB "B")) Interference.nothing).1 = Res.null_deref ∧
    ((ex_container ex_host_AB "A").thread_request_stop.thread_join.execute_direct_cb ex_cb
        none Interference.nothing).1 = Res.null_deref ∧
    (ModuleThread.run_iteration (ex_container ex_host_AB "A").thread_request_stop
        (fun _ => none)).map
      (fun it => (it.exited,
        (it.mc.thread_join.execute_direct_cb ex_cb none Interference.nothing).1)) =
      some (true, Res.null_deref) ∧
    (CState.worker_iterations (fun _ => none) ex_host_AB.thread_request_stop ["A", "B"]).map
      (fun s => ((smap_find s.thread_join.m_modules "A").map (fun c => c.thread),
        (s.thread_join.access_module 0 none "A" ex_cb Interference.nothing).1)) =
      some (some none, Res.null_deref) := by
  refine ⟨by decide, by decide, by decide, by decide, by decide, by decide, by decide,
    by decide⟩

/-! ## Access policy: direct dependencies -/

/-- When the target lists the caller among its dependencies the access check
raises the generic host exception, with any positive fuel. -/
theorem check_valid_access_u_of_listed (m_modules : List (String × ModuleContainer))
    (fuel : Nat) (target_mc caller_mc : ModuleContainer)
    (hdep : ∃ d ∈ target_mc.info.meta.dependencies, d.module = caller_mc.info.name) :
    ∃ msg, check_valid_access_u m_modules (fuel + 1) target_mc caller_mc =
      some (Except.error (Exn.Exception msg)) := by
  by_cases haddr : caller_mc.addr = target_mc.addr
  · exact ⟨_, by unfold check_valid_access_u; rw [if_pos haddr]⟩
  · have hany : target_mc.info.meta.dependencies.any
        (fun dep => dep.module == caller_mc.info.name) = true := by
      obtain ⟨d, hd, hname⟩ := hdep
      exact List.any_eq_true.mpr ⟨d, hd, by simp [hname]⟩
    have hsearch : is_dependency_u m_modules (fuel + 1) target_mc caller_mc = some true := by
      simp [is_dependency_u, hany]
    exact ⟨_, by unfold check_valid_access_u; rw [if_neg haddr, hsearch]⟩

/-- When the target lists the caller among its dependencies and the two are
different containers, the access check raises with the message that the
target depends on the caller, with any positive fuel. -/
theorem check_valid_access_u_of_listed_other (m_modules : List (String × ModuleContainer))
    (fuel : Nat) (target_mc caller_mc : ModuleContainer)
    (hdep : ∃ d ∈ target_mc.info.meta.dependencies, d.module = caller_mc.info.name)
    (haddr : caller_mc.addr ≠ target_mc.addr) :
    check_valid_access_u m_modules (fuel + 1) target_mc caller_mc =
      some (Except.error (Exn.Exception ("Cannot access \"" ++ target_mc.info.name ++
        "\" from \"" ++ caller_mc.info.name ++ "\": Target depends on caller - access must " ++
        "happen the other way around"))) := by
  have hany : target_mc.info.meta.dependencies.any
      (fun dep => dep.module == caller_mc.info.name) = true := by
    obtain ⟨d, hd, hname⟩ := hdep
    exact List.any_eq_true.mpr ⟨d, hd, by simp [hname]⟩
  have hsearch : is_dependency_u m_modules (fuel + 1) target_mc caller_mc = some true := by
    simp [is_dependency_u, hany]
  unfold check_valid_access_u
  rw [if_neg haddr, hsearch]

/-- C2, as stated, fails: in the example host `A` lists `B` as a dependency,
and `access_module("B", cb)` called from the worker of `A` is let through:
it returns true and `cb` has been run on `B`. -/
theorem access_to_own_dependency_is_allowed :
    (∃ d ∈ (ex_container ex_host_AB "A").info.meta.dependencies, d.module = "B") ∧
    (ex_host_AB.access_module 5 (some (ex_container ex_host_AB "A")) "B" ex_cb
        Interference.nothing).1 = Res.ok true ∧
    (ex_container (ex_host_AB.access_module 5 (some (ex_container ex_host_AB "A")) "B" ex_cb
        Interference.nothing).2 "B").trace =
      (ex_container ex_host_AB "B").trace ++ [Call.direct ex_cb] := by
  decide

/-- C2, amended (the dependency runs the other way): if the loaded target `B`
lists the caller `A` as a dependency, then `access_module("B", cb)` called
from the worker of `A` fails the access check before `execute_direct_cb` is
entered: the host state is unchanged (`cb` is neither parked nor run), and the
call raises the generic `Exception` of `check_valid_access_u` (with the
message that the target depends on the caller, when `A` and `B` are different
containers), unless `A` is running its module destructor, in which case the
exception is swallowed and the call returns true. -/
theorem access_from_own_dependency_is_rejected (st : CState) (fuel : Nat)
    (A B : ModuleContainer) (cb : Callback) (itf : Interference)
    (hB : smap_find st.m_modules B.info.name = some B)
    (hdep : ∃ d ∈ B.info.meta.dependencies, d.module = A.info.name) :
    (st.access_module (fuel + 1) (some A) B.info.name cb itf).2 = st ∧
    (A.executing_module_destructor = false →
      ∃ msg, (st.access_module (fuel + 1) (some A) B.info.name cb itf).1 =
        Res.threw (Exn.Exception msg)) ∧
    (A.executing_module_destructor = false → A.addr ≠ B.addr →
      (st.access_module (fuel + 1) (some A) B.info.name cb itf).1 =
        Res.threw (Exn.Exception ("Cannot access \"" ++ B.info.name ++ "\" from \"" ++
          A.info.name ++ "\": Target depends on caller - access must " ++
          "happen the other way around"))) ∧
    (A.executing_module_destructor = true →
      (st.access_module (fuel + 1) (some A) B.info.name cb itf).1 = Res.ok true) := by
  obtain ⟨msg, hmsg⟩ := check_valid_access_u_of_listed st.m_modules fuel B A hdep
  have htry : st.access_module_try (fuel + 1) (some A) B.info.name cb itf =
      (Res.threw (Exn.Exception msg), st) := by
    simp [CState.access_module_try, hB, hmsg]
  refine ⟨?_, ?_, ?_, ?_⟩
  · simp only [CState.access_module, htry]
    split <;> rfl
  · intro hd
    exact ⟨msg, by simp [CState.access_module, htry, CState.in_destructor, hd]⟩
  · intro hd haddr
    have hother := check_valid_access_u_of_listed_other st.m_modules fuel B A hdep haddr
    rw [hmsg] at hother
    have hm : msg = "Cannot access \"" ++ B.info.name ++ "\" from \"" ++
        A.info.name ++ "\": Target depends on caller - access must " ++
        "happen the other way around" := by
      simpa using hother
    rw [← hm]
    simp [CState.access_module, htry, CState.in_destructor, hd]
  · intro hd
    simp [CState.access_module, htry, CState.in_destructor, hd]

/-- Witness of the amended C2: in the example host `A` lists `B`, so `B`
(another container, not in its destructor) calling `A` is rejected. -/
theorem access_from_own_dependency_is_rejected_witness :
    (smap_find ex_host_AB.m_modules (ex_container ex_host_AB "A").info.name =
        some (ex_container ex_host_AB "A") ∧
      (∃ d ∈ (ex_container ex_host_AB "A").info.meta.dependencies,
        d.module = (ex_container ex_host_AB "B").info.name) ∧
      (ex_container ex_host_AB "B").executing_module_destructor = false ∧
      (ex_container ex_host_AB "B").addr ≠ (ex_container ex_host_AB "A").addr) ∧
    ((ex_host_AB.access_module (4 + 1) (some (ex_container ex_host_AB "B"))
        (ex_container ex_host_AB "A").info.name ex_cb Interference.nothing).2 = ex_host_AB ∧
     ((ex_container ex_host_AB "B").executing_module_destructor = false →
      ∃ msg, (ex_host_AB.access_module (4 + 1) (some (ex_container ex_host_AB "B"))
        (ex_container ex_host_AB "A").info.name ex_cb Interference.nothing).1 =
          Res.threw (Exn.Exception msg)) ∧
     ((ex_container ex_host_AB "B").executing_module_destructor = false →
      (ex_container ex_host_AB "B").addr ≠ (ex_container ex_host_AB "A").addr →
      (ex_host_AB.access_module (4 + 1) (some (ex_container ex_host_AB "B"))
        (ex_container ex_host_AB "A").info.name ex_cb Interference.nothing).1 =
          Res.threw (Exn.Exception ("Cannot access \"" ++
            (ex_container ex_host_AB "A").info.name ++ "\" from \"" ++
            (ex_container ex_host_AB "B").info.name ++
            "\": Target depends on caller - access must " ++
            "happen the other way around"))) ∧
     ((ex_container ex_host_AB "B").executing_module_destructor = true →
      (ex_host_AB.access_module (4 + 1) (some (ex_container ex_host_AB "B"))
        (ex_container ex_host_AB "A").info.name ex_cb Interference.nothing).1 = Res.ok true)) :=
  ⟨⟨by decide, by decide, by decide, by decide⟩,
   access_from_own_dependency_is_rejected ex_host_AB 4 (ex_container ex_host_AB "B")
     (ex_container ex_host_AB "A") ex_cb Interference.nothing (by decide) (by decide)⟩

/-! ## A callback discarded by a stopping worker -/

/-- C7 at the failing input: in the example host `A` calls `B`, and the stop
of `B` is requested once the callback is parked.  The worker of `B` discards
the callback (the trace of `B` is unchanged, the slot empty), and yet
`execute_direct_cb` returns with no exception and `access_module` returns
true, instead of raising `TargetModuleNotAvailable`.  The same run, action by
action: the caller acquires, passes the check and parks, the stop is
requested, the worker wakes, grabs and discards, the caller wakes and
releases. -/
theorem discarded_direct_cb_returns_as_success :
    ((ex_container ex_host_AB "B").execute_direct_cb ex_cb (some (ex_container ex_host_AB "A"))
        Interference.stop_request).1 = Res.ok none ∧
    ((ex_container ex_host_AB "B").execute_direct_cb ex_cb (some (ex_container ex_host_AB "A"))
        Interference.stop_request).2.trace = (ex_container ex_host_AB "B").trace ∧
    ((ex_container ex_host_AB "B").execute_direct_cb ex_cb (some (ex_container ex_host_AB "A"))
        Interference.stop_request).2.direct_cb = none ∧
    (ex_host_AB.access_module 5 (some (ex_container ex_host_AB "A")) "B" ex_cb
        Interference.stop_request).1 = Res.ok true ∧
    ((Proto.run (Proto.start 2 { addr := 166, m_module_name := "B" } (ex_info "B" []))
        [Action.acquire 0 ex_cb, Action.check 0, Action.park 0, Action.stop, Action.w_wait,
         Action.w_grab, Action.w_dispatch none, Action.wake 0, Action.release 0]).map
      (fun s => (s.mc.trace, s.mc.direct_cb_exception, s.callers 0, s.worker))) =
      some ([], none, CallerPc.idle, WorkerPc.exited) := by
  decide

/-! ## Access policy: the dependency search -/

/-- Unfolding of `is_dependency_u` with positive fuel. -/
theorem is_dependency_u_succ (m_modules : List (String × ModuleContainer)) (fuel : Nat)
    (a b : ModuleContainer) :
    is_dependency_u m_modules (fuel + 1) a b =
      if a.info.meta.dependencies.any (fun dep => dep.module == b.info.name) then some true
      else is_dependency_loop m_modules (fun c => is_dependency_u m_modules fuel c b)
        a.info.meta.dependencies := rfl

/-- The second loop answers the same when the descent answers the same
wherever it answered before. -/
theorem is_dependency_loop_mono (m_modules : List (String × ModuleContainer))
    (f g : ModuleContainer → Option Bool)
    (hfg : ∀ c r, f c = some r → g c = some r) (deps : List ModuleDependency) (r : Bool)
    (h : is_dependency_loop m_modules f deps = some r) :
    is_dependency_loop m_modules g deps = some r := by
  induction deps with
  | nil => simpa [is_dependency_loop] using h
  | cons d ds ih =>
    unfold is_dependency_loop at h ⊢
    cases hfind : smap_find m_modules d.module with
    | none =>
      rw [hfind] at h
      exact ih h
    | some c =>
      rw [hfind] at h
      simp only at h ⊢
      cases hf : f c with
      | none => rw [hf] at h; simp at h
      | some x =>
        rw [hf] at h
        rw [hfg c x hf]
        cases x with
        | true => simpa using h
        | false => exact ih h

/-- More fuel does not change an answer of the dependency search. -/
theorem is_dependency_u_mono (m_modules : List (String × ModuleContainer))
    (b : ModuleContainer) (f1 f2 : Nat) (hle : f1 ≤ f2) :
    ∀ (a : ModuleContainer) (r : Bool), is_dependency_u m_modules f1 a b = some r →
      is_dependency_u m_modules f2 a b = some r := by
  induction f1 generalizing f2 with
  | zero => intro a r h; simp [is_dependency_u] at h
  | succ n ih =>
    intro a r h
    obtain ⟨k, rfl⟩ : ∃ k, f2 = k + 1 := ⟨f2 - 1, by omega⟩
    rw [is_dependency_u_succ] at h ⊢
    split at h
    · rename_i hany
      rw [if_pos hany]
      exact h
    · rename_i hany
      rw [if_neg hany]
      exact is_dependency_loop_mono m_modules _ _ (ih k (by omega)) _ r h

/-- A key that the lookup finds is among the keys of the map. -/
theorem smap_find_mem_keys {α : Type} (m : List (String × α)) (k : String) (v : α)
    (h : smap_find m k = some v) : k ∈ m.map Prod.fst := by
  induction m with
  | nil => simp [smap_find] at h
  | cons p r ih =>
    obtain ⟨k0, v0⟩ := p
    unfold smap_find at h
    by_cases hk : k0 = k
    · simp [hk]
    · rw [if_neg hk] at h
      simp [ih h]

/-- Soundness of the second loop. -/
theorem is_dependency_loop_true (m_modules : List (String × ModuleContainer))
    (f : ModuleContainer → Option Bool) (deps : List ModuleDependency)
    (h : is_dependency_loop m_modules f deps = some true) :
    ∃ d ∈ deps, ∃ c, smap_find m_modules d.module = some c ∧ f c = some true := by
  induction deps with
  | nil => simp [is_dependency_loop] at h
  | cons d ds ih =>
    unfold is_dependency_loop at h
    cases hfind : smap_find m_modules d.module with
    | none =>
      rw [hfind] at h
      obtain ⟨d1, hd1, c, hc⟩ := ih h
      exact ⟨d1, List.mem_cons_of_mem _ hd1, c, hc⟩
    | some c =>
      rw [hfind] at h
      simp only at h
      cases hf : f c with
      | none => rw [hf] at h; simp at h
      | some x =>
        rw [hf] at h
        cases x with
        | true => exact ⟨d, List.mem_cons_self _ _, c, hfind, hf⟩
        | false =>
          obtain ⟨d1, hd1, c1, hc1⟩ := ih h
          exact ⟨d1, List.mem_cons_of_mem _ hd1, c1, hc1⟩

/-- Completeness of the second loop. -/
theorem is_dependency_loop_false (m_modules : List (String × ModuleContainer))
    (f : ModuleContainer → Option Bool) (deps : List ModuleDependency)
    (h : is_dependency_loop m_modules f deps = some false) :
    ∀ d ∈ deps, ∀ c, smap_find m_modules d.module = some c → f c = some false := by
  induction deps with
  | nil => intro d hd; simp at hd
  | cons d ds ih =>
    unfold is_dependency_loop at h
    intro d1 hd1 c1 hc1
    cases hfind : smap_find m_modules d.module with
    | none =>
      rw [hfind] at h
      rcases List.mem_cons.mp hd1 with heq | hmem
      · subst heq
        rw [hfind] at hc1
        simp at hc1
      · exact ih h d1 hmem c1 hc1
    | some c =>
      rw [hfind] at h
      simp only at h
      cases hf : f c with
      | none => rw [hf] at h; simp at h
      | some x =>
        rw [hf] at h
        cases x with
        | true => simp at h
        | false =>
          rcases List.mem_cons.mp hd1 with heq | hmem
          · subst heq
            rw [hfind] at hc1
            cases hc1
            exact hf
          · exact ih h d1 hmem c1 hc1

/-- Soundness of `is_dependency_u`: an answer `true` for the module loaded
under `k` means that the searched name is reachable from `k`. -/
theorem is_dependency_u_true (m_modules : List (String × ModuleContainer))
    (b : ModuleContainer) (fuel : Nat) :
    ∀ (k : String) (a : ModuleContainer), smap_find m_modules k = some a →
      is_dependency_u m_modules fuel a b = some true →
      DepReachable m_modules k b.info.name := by
  induction fuel with
  | zero => intro k a _ h; simp [is_dependency_u] at h
  | succ n ih =>
    intro k a hk h
    rw [is_dependency_u_succ] at h
    split at h
    · rename_i hany
      obtain ⟨d, hd, hname⟩ := List.any_eq_true.mp hany
      exact Relation.TransGen.single ⟨a, hk, d, hd, by simpa using hname⟩
    · obtain ⟨d, hd, c, hc, hrec⟩ := is_dependency_loop_true m_modules _ _ h
      exact Relation.TransGen.head ⟨a, hk, d, hd, rfl⟩ (ih d.module c hc hrec)

/-- Completeness of `is_dependency_u`: an answer `false` for the module
loaded under `k` means that the searched name is not reachable from `k`. -/
theorem is_dependency_u_false (m_modules : List (String × ModuleContainer))
    (b : ModuleContainer) (fuel : Nat) :
    ∀ (k : String) (a : ModuleContainer), smap_find m_modules k = some a →
      is_dependency_u m_modules fuel a b = some false →
      ¬ DepReachable m_modules k b.info.name := by
  induction fuel with
  | zero => intro k a _ h; simp [is_dependency_u] at h
  | succ n ih =>
    intro k a hk h hreach
    rw [is_dependency_u_succ] at h
    split at h
    · simp at h
    · rename_i hany
      have hall := is_dependency_loop_false m_modules _ _ h
      rcases Relation.TransGen.head'_iff.mp hreach with ⟨x, ⟨a1, ha1, d, hd, hdx⟩, hrest⟩
      rw [hk] at ha1
      cases ha1
      subst hdx
      rcases Relation.ReflTransGen.cases_head hrest with heq | ⟨y, ⟨c, hc, hedge⟩, hyb⟩
      · apply hany
        exact List.any_eq_true.mpr ⟨d, hd, by simp [heq]⟩
      · have hreach1 : DepReachable m_modules d.module b.info.name :=
          Relation.TransGen.head' ⟨c, hc, hedge⟩ hyb
        exact ih d.module c hc (hall d hd c hc) hreach1


/-- The second loop answers once every loaded dependency is answered with
some fuel. -/
theorem is_dependency_loop_answers (m_modules : List (String × ModuleContainer))
    (b : ModuleContainer) (deps : List ModuleDependency)
    (h : ∀ d ∈ deps, ∀ c, smap_find m_modules d.module = some c →
      ∃ f r, is_dependency_u m_modules f c b = some r) :
    ∃ f r, is_dependency_loop m_modules (fun c => is_dependency_u m_modules f c b) deps =
      some r := by
  induction deps with
  | nil => exact ⟨0, false, rfl⟩
  | cons d ds ih =>
    obtain ⟨f1, r1, h1⟩ := ih (fun d1 hd1 => h d1 (List.mem_cons_of_mem _ hd1))
    cases hfind : smap_find m_modules d.module with
    | none =>
      refine ⟨f1, r1, ?_⟩
      unfold is_dependency_loop
      rw [hfind]
      exact h1
    | some c =>
      obtain ⟨f2, r2, h2⟩ := h d (List.mem_cons_self _ _) c hfind
      have h2max : is_dependency_u m_modules (max f1 f2) c b = some r2 :=
        is_dependency_u_mono m_modules b f2 (max f1 f2) (le_max_right _ _) c r2 h2
      have h1max : is_dependency_loop m_modules
          (fun c => is_dependency_u m_modules (max f1 f2) c b) ds = some r1 :=
        is_dependency_loop_mono m_modules _ _
          (fun c r => is_dependency_u_mono m_modules b f1 (max f1 f2) (le_max_left _ _) c r)
          ds r1 h1
      cases r2 with
      | true =>
        refine ⟨max f1 f2, true, ?_⟩
        unfold is_dependency_loop
        rw [hfind]
        simp only [h2max]
      | false =>
        refine ⟨max f1 f2, r1, ?_⟩
        unfold is_dependency_loop
        rw [hfind]
        simp only [h2max]
        exact h1max

/-- Termination of `is_dependency_u` on an acyclic registry: for every loaded
module some fuel is enough for an answer. -/
theorem is_dependency_u_answers (m_modules : List (String × ModuleContainer))
    (b : ModuleContainer) (hacyc : Acyclic m_modules) :
    ∀ (k : String) (a : ModuleContainer), smap_find m_modules k = some a →
      ∃ f r, is_dependency_u m_modules f a b = some r := by
  have hfin : Finite { k : String // k ∈ m_modules.map Prod.fst } :=
    Set.finite_coe_iff.mpr (List.finite_toSet _)
  let R : { k : String // k ∈ m_modules.map Prod.fst } →
      { k : String // k ∈ m_modules.map Prod.fst } → Prop :=
    fun x y => DepReachable m_modules y.1 x.1
  have htrans : IsTrans _ R := ⟨fun x y z hxy hyz => Relation.TransGen.trans hyz hxy⟩
  have hirrefl : IsIrrefl _ R := ⟨fun x hx => hacyc x.1 hx⟩
  have hwf : WellFounded R := Finite.wellFounded_of_trans_of_irrefl R
  have key : ∀ x : { k : String // k ∈ m_modules.map Prod.fst },
      ∀ a, smap_find m_modules x.1 = some a →
        ∃ f r, is_dependency_u m_modules f a b = some r := by
    intro x
    induction x using hwf.induction with
    | _ x ih =>
      intro a ha
      by_cases hany : a.info.meta.dependencies.any (fun dep => dep.module == b.info.name) = true
      · exact ⟨1, true, by rw [is_dependency_u_succ, if_pos hany]⟩
      · obtain ⟨f, r, hloop⟩ := is_dependency_loop_answers m_modules b a.info.meta.dependencies
          (fun d hd c hc =>
            ih ⟨d.module, smap_find_mem_keys m_modules d.module c hc⟩
              (Relation.TransGen.single ⟨a, ha, d, hd, rfl⟩) c hc)
        exact ⟨f + 1, r, by rw [is_dependency_u_succ, if_neg hany]; exact hloop⟩
  intro k a hk
  exact key ⟨k, smap_find_mem_keys m_modules k a hk⟩ a hk

/-- C1: on a registry whose declared dependencies are acyclic, for loaded
containers `target_mc` and `caller_mc`, `check_valid_access_u` terminates
(every fuel from some bound on gives the same result); it raises when the
caller is the target or the name of the caller is reachable from the target
along declared dependencies through loaded modules, and returns normally
otherwise. -/
theorem check_valid_access_u_raises_iff (m_modules : List (String × ModuleContainer))
    (target_mc caller_mc : ModuleContainer)
    (hacyc : Acyclic m_modules)
    (ht : smap_find m_modules target_mc.info.name = some target_mc)
    (_hc : smap_find m_modules caller_mc.info.name = some caller_mc) :
    ∃ N, ∀ fuel, N ≤ fuel →
      ((caller_mc.addr = target_mc.addr ∨
          DepReachable m_modules target_mc.info.name caller_mc.info.name) →
        ∃ msg, check_valid_access_u m_modules fuel target_mc caller_mc =
          some (Except.error (Exn.Exception msg))) ∧
      (¬ (caller_mc.addr = target_mc.addr ∨
          DepReachable m_modules target_mc.info.name caller_mc.info.name) →
        check_valid_access_u m_modules fuel target_mc caller_mc = some (Except.ok ())) := by
  obtain ⟨f0, r0, h0⟩ :=
    is_dependency_u_answers m_modules caller_mc hacyc target_mc.info.name target_mc ht
  refine ⟨f0, fun fuel hfuel => ?_⟩
  have hf : is_dependency_u m_modules fuel target_mc caller_mc = some r0 :=
    is_dependency_u_mono m_modules caller_mc f0 fuel hfuel target_mc r0 h0
  by_cases haddr : caller_mc.addr = target_mc.addr
  · constructor
    · intro _
      exact ⟨_, by unfold check_valid_access_u; rw [if_pos haddr]⟩
    · intro hno
      exact absurd (Or.inl haddr) hno
  · cases r0 with
    | true =>
      constructor
      · intro _
        exact ⟨_, by unfold check_valid_access_u; rw [if_neg haddr, hf]⟩
      · intro hno
        exact absurd
          (Or.inr (is_dependency_u_true m_modules caller_mc fuel _ target_mc ht hf)) hno
    | false =>
      have hnot := is_dependency_u_false m_modules caller_mc fuel _ target_mc ht hf
      constructor
      · intro hyes
        rcases hyes with h1 | h2
        · exact absurd h1 haddr
        · exact absurd h2 hnot
      · intro _
        unfold check_valid_access_u
        rw [if_neg haddr, hf]


/-- A registry is acyclic when a rank decreases along every declared
dependency. -/
theorem acyclic_of_rank (m_modules : List (String × ModuleContainer)) (rank : String → Nat)
    (h : ∀ a b, DeclaredDep m_modules a b → rank b < rank a) : Acyclic m_modules := by
  have hgen : ∀ a b, DepReachable m_modules a b → rank b < rank a := by
    intro a b hab
    induction hab with
    | single hstep => exact h _ _ hstep
    | tail _ hstep ih => exact lt_trans (h _ _ hstep) ih
  intro a ha
  exact lt_irrefl _ (hgen a a ha)

/-- The example host is acyclic: `A` depends on `B`, and `B` on nothing. -/
theorem ex_host_AB_acyclic : Acyclic ex_host_AB.m_modules := by
  have hm : ex_host_AB.m_modules =
      [("A", ex_container ex_host_AB "A"), ("B", ex_container ex_host_AB "B")] := by decide
  have hA : (ex_container ex_host_AB "A").info.meta.dependencies = [{ module := "B" }] := by
    decide
  have hB : (ex_container ex_host_AB "B").info.meta.dependencies = [] := by decide
  apply acyclic_of_rank _ (fun s => if s = "A" then 1 else 0)
  rintro a b ⟨mc, hfind, d, hd, hdb⟩
  rw [hm] at hfind
  unfold smap_find at hfind
  by_cases h1 : "A" = a
  · rw [if_pos h1] at hfind
    cases hfind
    rw [hA] at hd
    simp only [List.mem_singleton] at hd
    subst hd
    subst hdb
    subst h1
    decide
  · rw [if_neg h1] at hfind
    unfold smap_find at hfind
    by_cases h2 : "B" = a
    · rw [if_pos h2] at hfind
      cases hfind
      rw [hB] at hd
      simp at hd
    · rw [if_neg h2] at hfind
      simp [smap_find] at hfind

/-- Witness of C1 on the example host, with target `A` and caller `B`. -/
theorem check_valid_access_u_raises_iff_witness :
    (Acyclic ex_host_AB.m_modules ∧
      smap_find ex_host_AB.m_modules (ex_container ex_host_AB "A").info.name =
        some (ex_container ex_host_AB "A") ∧
      smap_find ex_host_AB.m_modules (ex_container ex_host_AB "B").info.name =
        some (ex_container ex_host_AB "B")) ∧
    ∃ N, ∀ fuel, N ≤ fuel →
      (((ex_container ex_host_AB "B").addr = (ex_container ex_host_AB "A").addr ∨
          DepReachable ex_host_AB.m_modules (ex_container ex_host_AB "A").info.name
            (ex_container ex_host_AB "B").info.name) →
        ∃ msg, check_valid_access_u ex_host_AB.m_modules fuel (ex_container ex_host_AB "A")
          (ex_container ex_host_AB "B") = some (Except.error (Exn.Exception msg))) ∧
      (¬ ((ex_container ex_host_AB "B").addr = (ex_container ex_host_AB "A").addr ∨
          DepReachable ex_host_AB.m_modules (ex_container ex_host_AB "A").info.name
            (ex_container ex_host_AB "B").info.name) →
        check_valid_access_u ex_host_AB.m_modules fuel (ex_container ex_host_AB "A")
          (ex_container ex_host_AB "B") = some (Except.ok ())) :=
  ⟨⟨ex_host_AB_acyclic, by decide, by decide⟩,
   check_valid_access_u_raises_iff ex_host_AB.m_modules (ex_container ex_host_AB "A")
     (ex_container ex_host_AB "B") ex_host_AB_acyclic (by decide) (by decide)⟩

/-! ## Registry invariant -/

/-- Lookup after an assignment. -/
theorem smap_find_set {α : Type} (m : List (String × α)) (k : String) (v : α) (k1 : String) :
    smap_find (smap_set m k v) k1 = if k = k1 then some v else smap_find m k1 := by
  induction m with
  | nil => simp [smap_set, smap_find]
  | cons p r ih =>
    obtain ⟨k0, v0⟩ := p
    unfold smap_set
    by_cases h0 : k0 = k
    · rw [if_pos h0]
      subst h0
      by_cases h1 : k0 = k1 <;> simp [smap_find, h1]
    · rw [if_neg h0]
      by_cases hlt : str_lt k k0 = true
      · rw [if_pos hlt]
        by_cases h1 : k = k1 <;> simp [smap_find, h1]
      · rw [if_neg hlt]
        by_cases h1 : k = k1
        · subst h1
          simp [smap_find, h0, ih]
        · by_cases h2 : k0 = k1 <;> simp [smap_find, h1, h2, ih]

/-- Lookup after a removal. -/
theorem smap_find_erase {α : Type} (m : List (String × α)) (k k1 : String) :
    smap_find (smap_erase m k) k1 = if k = k1 then none else smap_find m k1 := by
  induction m with
  | nil => simp [smap_erase, smap_find]
  | cons p r ih =>
    obtain ⟨k0, v0⟩ := p
    unfold smap_erase at ih ⊢
    rw [List.filter_cons]
    by_cases h0 : k0 = k
    · subst h0
      by_cases h1 : k0 = k1
      · simpa [h1] using ih
      · simpa [smap_find, h1] using ih
    · by_cases h1 : k = k1
      · subst h1
        simpa [smap_find, h0] using ih
      · by_cases h2 : k0 = k1
        · subst h2
          simp [smap_find, h0, h1]
        · simpa [smap_find, h0, h2, h1] using ih

/-- Lookup in a map whose values went through a function. -/
theorem smap_find_map_values {α : Type} (f : α → α) (m : List (String × α)) (k : String) :
    smap_find (m.map (fun p => (p.1, f p.2))) k = (smap_find m k).map f := by
  induction m with
  | nil => rfl
  | cons p r ih =>
    obtain ⟨k0, v0⟩ := p
    rw [List.map_cons]
    by_cases h0 : k0 = k
    · simp [smap_find, h0]
    · simpa [smap_find, h0] using ih

/-- Lookup after a call through a pointer to the container at `addr`. -/
theorem smap_find_update_at (m : List (String × ModuleContainer)) (addr : Nat)
    (f : ModuleContainer → ModuleContainer) (k : String) :
    smap_find (CState.update_at m addr f) k =
      (smap_find m k).map (fun c => if c.addr = addr then f c else c) :=
  @smap_find_map_values ModuleContainer (fun c => if c.addr = addr then f c else c) m k

/-- Lookup after a call through each of a list of pointers. -/
theorem smap_find_update_all (f : ModuleContainer → ModuleContainer) (k : String) :
    ∀ (mcs : List ModuleContainer) (m : List (String × ModuleContainer)),
      smap_find (mcs.foldl (fun ms mc => CState.update_at ms mc.addr f) m) k =
        (smap_find m k).map (fun c =>
          mcs.foldl (fun c mc => if c.addr = mc.addr then f c else c) c) := by
  intro mcs
  induction mcs with
  | nil => intro m; simp
  | cons a rest ih =>
    intro m
    rw [List.foldl_cons, ih, smap_find_update_at]
    cases smap_find m k <;> simp

/-- The container found under a name after the stop request to all workers:
the former container, asked to stop a number of times. -/
theorem thread_request_stop_find (st : CState) (k : String) :
    smap_find st.thread_request_stop.m_modules k =
      (smap_find st.m_modules k).map (fun c =>
        st.get_modules_in_unload_order.foldl
          (fun c mc => if c.addr = mc.addr then c.thread_request_stop else c) c) :=
  smap_find_update_all ModuleContainer.thread_request_stop k _ _

/-- A property of containers that a stop request keeps is kept by any number
of stop requests through pointers. -/
theorem stop_all_keeps (P : ModuleContainer → Prop)
    (hP : ∀ c, P c → P c.thread_request_stop) :
    ∀ (mcs : List ModuleContainer) (c : ModuleContainer), P c →
      P (mcs.foldl (fun c mc => if c.addr = mc.addr then c.thread_request_stop else c) c) := by
  intro mcs
  induction mcs with
  | nil => intro c h; exact h
  | cons a rest ih =>
    intro c h
    rw [List.foldl_cons]
    apply ih
    split
    · exact hP c h
    · exact h

/-- Pushing an event to a container keeps the keys of the registry. -/
theorem smap_find_push_to (m : List (String × ModuleContainer)) (addr : Nat) (e : Event)
    (k : String) :
    (smap_find (CState.push_to m addr e) k).isSome = (smap_find m k).isSome := by
  induction m with
  | nil => rfl
  | cons p r ih =>
    obtain ⟨k0, v0⟩ := p
    unfold CState.push_to at ih ⊢
    rw [List.map_cons]
    by_cases h0 : k0 = k
    · simp [smap_find, h0]
    · simpa [smap_find, h0] using ih

/-- Pushing an event to a list of subscribers keeps the keys of the registry. -/
theorem smap_find_push_all (subs : List Nat) (e : Event) (k : String) :
    ∀ m : List (String × ModuleContainer),
      (smap_find (subs.foldl (fun ms addr => CState.push_to ms addr e) m) k).isSome =
        (smap_find m k).isSome := by
  induction subs with
  | nil => intro m; rfl
  | cons a rest ih =>
    intro m
    rw [List.foldl_cons, ih, smap_find_push_to]

/-- The relation `Grows` is reflexive. -/
theorem Grows.refl (st : CState) : Grows st st :=
  ⟨fun _ h => h, fun _ h => h, fun _ h => Or.inl h⟩

/-- The relation `Grows` is transitive. -/
theorem Grows.trans {a b c : CState} (hab : Grows a b) (hbc : Grows b c) : Grows a c := by
  refine ⟨fun n h => hbc.1 n (hab.1 n h), fun n h => hbc.2.1 n (hab.2.1 n h), fun n h => ?_⟩
  rcases hbc.2.2 n h with hb | hnew
  · rcases hab.2.2 n hb with ha | hnew
    · exact Or.inl ha
    · exact Or.inr ⟨hbc.1 n hnew.1, hbc.2.1 n hnew.2⟩
  · exact Or.inr hnew

/-- The invariant passes along `Grows`. -/
theorem RegistryInv.of_grows {st st1 : CState} (hinv : RegistryInv st) (hg : Grows st st1) :
    RegistryInv st1 := by
  intro n hn
  rcases hg.2.2 n hn with hold | hnew
  · exact ⟨hg.1 n (hinv n hold).1, hg.2.1 n (hinv n hold).2⟩
  · exact hnew

/-- A state that differs only in the containers of the loaded names, and
neither in `m_module_info` nor in `m_module_load_order`, is related by
`Grows`. -/
theorem Grows.of_same_keys {st st1 : CState}
    (hinfo : st1.m_module_info = st.m_module_info)
    (horder : st1.m_module_load_order = st.m_module_load_order)
    (hmods : ∀ n, (smap_find st1.m_modules n).isSome = true →
      (smap_find st.m_modules n).isSome = true) : Grows st st1 :=
  ⟨fun n h => by rw [hinfo]; exact h, fun n h => by rw [horder]; exact h,
   fun n h => Or.inl (hmods n h)⟩

/-- The stop request to all workers keeps the registry. -/
theorem grows_thread_request_stop (st : CState) : Grows st st.thread_request_stop := by
  refine Grows.of_same_keys rfl rfl (fun n hn => ?_)
  rw [thread_request_stop_find] at hn
  cases hf : smap_find st.m_modules n with
  | none => rw [hf] at hn; simp at hn
  | some c => rfl

/-- An asynchronous emission keeps the registry. -/
theorem grows_emit_event (st : CState) (e : Event) : Grows st (st.emit_event e) := by
  unfold CState.emit_event
  split
  · exact Grows.refl st
  · refine Grows.of_same_keys rfl rfl (fun n h => ?_)
    simpa [smap_find_push_all] using h

/-- Replacing the container of a loaded name keeps the registry. -/
theorem grows_put (st : CState) (name : String) (mc mc1 : ModuleContainer)
    (h : smap_find st.m_modules name = some mc) :
    Grows st { st with m_modules := smap_set st.m_modules name mc1 } := by
  refine Grows.of_same_keys rfl rfl (fun n hn => ?_)
  simp only [smap_find_set] at hn
  by_cases hk : name = n
  · subst hk
    simp [h]
  · simpa [hk] using hn


/-- The state `access_module` leaves is the one its `try` block leaves. -/
theorem access_module_snd (st : CState) (fuel : Nat) (caller_mc : Option ModuleContainer)
    (name : String) (cb : Callback) (itf : Interference) :
    (st.access_module fuel caller_mc name cb itf).2 =
      (st.access_module_try fuel caller_mc name cb itf).2 := by
  unfold CState.access_module
  rcases st.access_module_try fuel caller_mc name cb itf with ⟨r, s⟩
  cases r with
  | ok u => rfl
  | threw e =>
    simp only
    split <;> rfl
  | blocked => rfl
  | null_deref => rfl
  | no_fuel => rfl

/-- The `try` block of `access_module` changes at most the container of the
target, and only when the target is loaded and `execute_direct_cb` is
entered. -/
theorem access_module_try_state (st : CState) (fuel : Nat)
    (caller_mc : Option ModuleContainer) (name : String) (cb : Callback) (itf : Interference) :
    (st.access_module_try fuel caller_mc name cb itf).2 = st ∨
    ∃ mc, smap_find st.m_modules name = some mc ∧
      (st.access_module_try fuel caller_mc name cb itf).2 =
        { st with
          m_modules := smap_set st.m_modules name (mc.execute_direct_cb cb caller_mc itf).2 } := by
  unfold CState.access_module_try
  cases hfind : smap_find st.m_modules name with
  | none => exact Or.inl rfl
  | some mc =>
    simp only
    split
    · exact Or.inl rfl
    · exact Or.inl rfl
    · right
      refine ⟨mc, rfl, ?_⟩
      generalize mc.execute_direct_cb cb caller_mc itf = res
      obtain ⟨r, mc1⟩ := res
      cases r with
      | ok o => cases o <;> rfl
      | threw e => rfl
      | blocked => rfl
      | null_deref => rfl
      | no_fuel => rfl

/-- A direct call keeps the registry. -/
theorem grows_access_module (st : CState) (fuel : Nat) (caller_mc : Option ModuleContainer)
    (name : String) (cb : Callback) (itf : Interference) :
    Grows st (st.access_module fuel caller_mc name cb itf).2 := by
  rw [access_module_snd]
  rcases access_module_try_state st fuel caller_mc name cb itf with h | ⟨mc, hfind, h⟩
  · rw [h]
    exact Grows.refl st
  · rw [h]
    exact grows_put st name mc _ hfind

/-- Loading a module: the name enters `m_modules` together with its info
entry and its load-order entry. -/
theorem grows_load_step (st : CState) (name : String) (info : ModuleInfo)
    (mc : ModuleContainer) (n : Nat) :
    Grows st
      { st with
        m_module_info := smap_set st.m_module_info name info
        m_modules := smap_set st.m_modules name mc
        m_module_load_order := st.m_module_load_order ++ [name]
        next_addr := n } := by
  refine ⟨fun k h => ?_, fun k h => ?_, fun k h => ?_⟩
  · simp only [smap_find_set]
    by_cases hk : name = k <;> simp [hk, h]
  · simp [h]
  · simp only [smap_find_set] at h ⊢
    by_cases hk : name = k
    · right
      simp [hk]
    · left
      simpa [hk] using h

/-- Replacing the container stored under a name keeps what `Grows` looks at. -/
theorem grows_replace (st : CState) (name : String) (mc mc1 : ModuleContainer)
    (m : List (String × ModuleContainer)) (hm : st.m_modules = smap_set m name mc) :
    Grows st { st with m_modules := smap_set st.m_modules name mc1 } := by
  refine Grows.of_same_keys rfl rfl (fun k h => ?_)
  simp only [smap_find_set, hm] at h ⊢
  by_cases hk : name = k <;> simp [hk] at h ⊢
  exact h

/-- Method `load_module` keeps the registry. -/
theorem grows_load_module (env : HostEnv) (st : CState) (info : ModuleInfo) :
    Grows st (CState.load_module env st info).2 := by
  unfold CState.load_module
  split
  · exact Grows.refl st
  · simp only
    split
    · refine ⟨fun k h => ?_, fun k h => h, fun k h => Or.inl h⟩
      simp only [smap_find_set]
      by_cases hk : info.name = k <;> simp [hk, h]
    · split
      · exact Grows.trans (grows_load_step st info.name info _ _) (grows_emit_event _ _)
      · split
        · exact Grows.trans
            (Grows.trans (grows_load_step st info.name info _ _)
              (grows_replace _ info.name _ _ _ rfl))
            (grows_emit_event _ _)
        · exact Grows.trans (grows_load_step st info.name info _ _)
            (grows_replace _ info.name _ _ _ rfl)
        · exact Grows.trans (grows_load_step st info.name info _ _)
            (grows_replace _ info.name _ _ _ rfl)
        · exact Grows.trans (grows_load_step st info.name info _ _)
            (grows_replace _ info.name _ _ _ rfl)
        · exact Grows.trans (grows_load_step st info.name info _ _)
            (grows_replace _ info.name _ _ _ rfl)

/-- Method `load_module_direct_u` keeps the registry. -/
theorem grows_load_module_direct_u (env : HostEnv) (st : CState) (m : Option Module)
    (name : String) : Grows st (CState.load_module_direct_u env st m name).2 := by
  unfold CState.load_module_direct_u
  simp only
  exact Grows.trans (grows_load_step st name _ _ _) (grows_replace _ name _ _ _ rfl)

/-- Method `unload_module_u` keeps the registry. -/
theorem grows_unload_module_u (env : HostEnv) (st : CState) (name : String) :
    Grows st (CState.unload_module_u env st name) := by
  unfold CState.unload_module_u
  split
  · exact Grows.refl st
  · refine Grows.trans ?_ (grows_emit_event _ _)
    refine Grows.of_same_keys rfl rfl (fun k h => ?_)
    simp only [smap_find_erase] at h
    by_cases hk : name = k
    · simp [hk] at h
    · simpa [hk] using h


/-- The loop emitting `core:module_modified` keeps a preserved property. -/
theorem preserved_emit_modified {P : CState → Prop} (hP : Preserved P) (env : HostEnv)
    (names : List String) : ∀ st : CState, P st → P (CState.emit_modified env st names).2 := by
  induction names with
  | nil => intro st h; exact h
  | cons name rest ih =>
    intro st h
    unfold CState.emit_modified
    split
    · exact h
    · exact ih _ (hP.emit _ _ h)

/-- The loop sending `core:unload` keeps a preserved property. -/
theorem preserved_send_unloads {P : CState → Prop} (hP : Preserved P) (env : HostEnv)
    (names : List String) : ∀ st : CState, P st → P (CState.send_unloads env st names).2 := by
  induction names with
  | nil => intro st h; exact h
  | cons name rest ih =>
    intro st h
    have hcall := hP.access st 0 none name (env.on_unload name) Interference.nothing h
    unfold CState.send_unloads
    generalize st.access_module 0 none name (env.on_unload name) Interference.nothing = res
      at hcall ⊢
    obtain ⟨r, st1⟩ := res
    cases r with
    | ok u => exact ih st1 hcall
    | threw e => exact hcall
    | blocked => exact hcall
    | null_deref => exact hcall
    | no_fuel => exact hcall

/-- The loop unloading the scheduled modules keeps a preserved property. -/
theorem preserved_unload_all {P : CState → Prop} (hP : Preserved P) (env : HostEnv)
    (names : List String) :
    ∀ st : CState, P st →
      P (names.foldl (fun s name => CState.unload_module_u env s name) st) := by
  induction names with
  | nil => intro st h; exact h
  | cons name rest ih =>
    intro st h
    rw [List.foldl_cons]
    exact ih _ (hP.unload env st name h)

/-- The loop reloading the modules keeps a preserved property. -/
theorem preserved_do_reloads {P : CState → Prop} (hP : Preserved P) (env : HostEnv)
    (infos : List ModuleInfo) : ∀ st : CState, P st → P (CState.do_reloads env st infos).2 := by
  induction infos with
  | nil => intro st h; exact h
  | cons info rest ih =>
    intro st h
    have hload := hP.load env st info h
    unfold CState.do_reloads
    generalize CState.load_module env st info = res at hload ⊢
    obtain ⟨r, st1⟩ := res
    cases r with
    | ok u =>
      simp only
      have hcall := hP.access st1 0 none info.name (env.on_continue info.name)
        Interference.nothing hload
      generalize st1.access_module 0 none info.name (env.on_continue info.name)
        Interference.nothing = res2 at hcall ⊢
      obtain ⟨r2, st2⟩ := res2
      cases r2 with
      | ok u2 => exact ih st2 hcall
      | threw e => exact hcall
      | blocked => exact hcall
      | null_deref => exact hcall
      | no_fuel => exact hcall
    | threw e => exact hload
    | blocked => exact hload
    | null_deref => exact hload
    | no_fuel => exact hload

/-- Method `handle_unloads_and_reloads` keeps a preserved property. -/
theorem preserved_handle_unloads_and_reloads {P : CState → Prop} (hP : Preserved P)
    (env : HostEnv) (st : CState) (h : P st) :
    P (CState.handle_unloads_and_reloads env st).2 := by
  unfold CState.handle_unloads_and_reloads
  simp only
  have hsend := preserved_send_unloads hP env
    (st.m_unloads_requested ++ st.m_reloads_requested.map (fun i => i.name))
    { st with m_unloads_requested := [], m_reloads_requested := [] } (hP.clear_requests st h)
  generalize CState.send_unloads env
    { st with m_unloads_requested := [], m_reloads_requested := [] }
    (st.m_unloads_requested ++ st.m_reloads_requested.map (fun i => i.name)) = res at hsend ⊢
  obtain ⟨r, st2⟩ := res
  cases r with
  | ok u => exact preserved_do_reloads hP env _ _ (preserved_unload_all hP env _ st2 hsend)
  | threw e => exact hsend
  | blocked => exact hsend
  | null_deref => exact hsend
  | no_fuel => exact hsend

/-- Method `handle_events` keeps a preserved property. -/
theorem preserved_handle_events {P : CState → Prop} (hP : Preserved P) (env : HostEnv)
    (st : CState) (h : P st) : P (CState.handle_events env st).2 := by
  unfold CState.handle_events
  have hemit := preserved_emit_modified hP env st.m_modified_modules
    { st with m_modified_modules := [] } (hP.clear_modified st h)
  generalize CState.emit_modified env { st with m_modified_modules := [] }
    st.m_modified_modules = res at hemit ⊢
  obtain ⟨r, st1⟩ := res
  cases r with
  | ok u => exact preserved_handle_unloads_and_reloads hP env st1 hemit
  | threw e => exact hemit
  | blocked => exact hemit
  | null_deref => exact hemit
  | no_fuel => exact hemit

/-- Being related by `Grows` to a fixed earlier state is a preserved
property. -/
theorem preserved_grows (st0 : CState) : Preserved (Grows st0) where
  emit := fun st e h => Grows.trans h (grows_emit_event st e)
  access := fun st fuel caller_mc name cb itf h =>
    Grows.trans h (grows_access_module st fuel caller_mc name cb itf)
  unload := fun env st name h => Grows.trans h (grows_unload_module_u env st name)
  load := fun env st info h => Grows.trans h (grows_load_module env st info)
  clear_modified := fun _ h => Grows.trans h (Grows.of_same_keys rfl rfl (fun _ h1 => h1))
  clear_requests := fun _ h => Grows.trans h (Grows.of_same_keys rfl rfl (fun _ h1 => h1))

/-- Method `handle_events` keeps the registry. -/
theorem grows_handle_events (env : HostEnv) (st : CState) :
    Grows st (CState.handle_events env st).2 :=
  preserved_handle_events (preserved_grows st) env st (Grows.refl st)

/-- Method `sub_event`, when it returns, changes the subscriber lists only. -/
theorem sub_event_frame (type_bits : Nat) (st st1 : CState) (module : Option Nat) (type : Nat)
    (h : st.sub_event type_bits module type = some st1) :
    ∃ X, st1 = { st with m_event_subs := X } := by
  unfold CState.sub_event at h
  cases hfind : st.m_modules.find? (fun p => p.2.module.map (fun m => m.addr) == module) with
  | none =>
    rw [hfind] at h
    simp only [Option.some.injEq] at h
    exact ⟨st.m_event_subs, by rw [← h]⟩
  | some p =>
    rw [hfind] at h
    simp only at h
    split_ifs at h
    all_goals exact ⟨_, (Option.some.inj h).symm⟩

/-- Method `sub_event` changes neither the loaded modules nor the info and
load-order records. -/
theorem sub_event_registry (type_bits : Nat) (st st1 : CState) (module : Option Nat)
    (type : Nat) (h : st.sub_event type_bits module type = some st1) :
    st1.m_modules = st.m_modules ∧
    st1.m_module_info = st.m_module_info ∧
    st1.m_module_load_order = st.m_module_load_order := by
  obtain ⟨X, rfl⟩ := sub_event_frame type_bits st st1 module type h
  exact ⟨rfl, rfl, rfl⟩

/-- The shutdown request changes the shutdown fields only. -/
theorem shutdown_frame (st : CState) (x : Int) (r : String) :
    (st.shutdown x r).m_modules = st.m_modules ∧
    (st.shutdown x r).m_module_info = st.m_module_info ∧
    (st.shutdown x r).m_module_load_order = st.m_module_load_order ∧
    (st.shutdown x r).m_event_subs = st.m_event_subs ∧
    (st.shutdown x r).emitted = st.emitted := by
  unfold CState.shutdown
  split <;> exact ⟨rfl, rfl, rfl, rfl, rfl⟩

/-- What an iteration of a worker does to the host: the container of the name
is replaced by the one the iteration leaves; info, load order, subscriptions
and emission history stay. -/
theorem worker_iteration_spec (st st1 : CState) (name : String)
    (ev : Event → Option String) (h : st.worker_iteration name ev = some st1) :
    ∃ mc it, smap_find st.m_modules name = some mc ∧
      ModuleThread.run_iteration mc ev = some it ∧
      st1.m_modules = smap_set st.m_modules name it.mc ∧
      st1.m_module_info = st.m_module_info ∧
      st1.m_module_load_order = st.m_module_load_order ∧
      st1.m_event_subs = st.m_event_subs ∧
      st1.emitted = st.emitted := by
  unfold CState.worker_iteration at h
  cases hf : smap_find st.m_modules name with
  | none => simp [hf] at h
  | some mc =>
    simp only [hf] at h
    cases hr : ModuleThread.run_iteration mc ev with
    | none => simp [hr] at h
    | some it =>
      simp only [hr] at h
      refine ⟨mc, it, rfl, hr, ?_⟩
      cases hs : it.shutdown with
      | none =>
        simp only [hs, Option.some.injEq] at h
        subst h
        exact ⟨rfl, rfl, rfl, rfl, rfl⟩
      | some xr =>
        obtain ⟨x, r⟩ := xr
        simp only [hs, Option.some.injEq] at h
        subst h
        exact shutdown_frame _ x r

/-- An iteration of a worker keeps the registry. -/
theorem grows_worker_iteration (st st1 : CState) (name : String)
    (ev : Event → Option String) (h : st.worker_iteration name ev = some st1) :
    Grows st st1 := by
  obtain ⟨mc, it, hf, _, hm, hi, ho, _, _⟩ := worker_iteration_spec st st1 name ev h
  refine Grows.of_same_keys hi ho (fun n hn => ?_)
  rw [hm, smap_find_set] at hn
  by_cases hk : name = n
  · subst hk
    simp [hf]
  · simpa [hk] using hn

/-- C3, as stated, fails: after `load_module`, `unload_module_u` and
`load_module` again for the same module the host is reachable, the name is
loaded, and it occurs twice in `m_module_load_order`. -/
theorem reloaded_name_is_twice_in_load_order :
    HostReachable
      (CState.load_module ex_env
        (CState.unload_module_u ex_env (CState.load_module ex_env {} (ex_info "A" [])).2 "A")
        (ex_info "A" [])).2 ∧
    (smap_find (CState.load_module ex_env
        (CState.unload_module_u ex_env (CState.load_module ex_env {} (ex_info "A" [])).2 "A")
        (ex_info "A" [])).2.m_modules "A").isSome = true ∧
    (CState.load_module ex_env
        (CState.unload_module_u ex_env (CState.load_module ex_env {} (ex_info "A" [])).2 "A")
        (ex_info "A" [])).2.m_module_load_order = ["A", "A"] ∧
    (CState.load_module ex_env
        (CState.unload_module_u ex_env (CState.load_module ex_env {} (ex_info "A" [])).2 "A")
        (ex_info "A" [])).2.m_module_load_order.count "A" ≠ 1 :=
  ⟨HostReachable.load_module _ _ _
      (HostReachable.unload_module_u _ _ _
        (HostReachable.load_module _ _ _ HostReachable.empty)),
   by decide, by decide, by decide⟩

/-- In every reachable host state every loaded name has an info entry and a
load-order entry. -/
theorem reachable_registryInv (st : CState) (h : HostReachable st) : RegistryInv st := by
  induction h with
  | empty => intro n hn; simp [smap_find] at hn
  | load_module env st info _ ih => exact ih.of_grows (grows_load_module env st info)
  | load_module_direct_u env st m name _ ih =>
    exact ih.of_grows (grows_load_module_direct_u env st m name)
  | unload_module_u env st name _ ih => exact ih.of_grows (grows_unload_module_u env st name)
  | handle_events env st _ ih => exact ih.of_grows (grows_handle_events env st)
  | unload_module st name _ ih =>
    refine ih.of_grows ?_
    unfold CState.unload_module
    split
    · exact Grows.refl st
    · exact Grows.of_same_keys rfl rfl (fun _ h => h)
  | reload_module st info _ ih =>
    exact ih.of_grows (Grows.of_same_keys rfl rfl (fun _ h => h))
  | reload_module_name st name _ ih =>
    refine ih.of_grows ?_
    unfold CState.reload_module_name
    split
    · exact Grows.refl st
    · exact Grows.of_same_keys rfl rfl (fun _ h => h)
  | sub_event type_bits st st1 module type _ hs ih =>
    obtain ⟨h1, h2, h3⟩ := sub_event_registry type_bits st st1 module type hs
    exact ih.of_grows (Grows.of_same_keys h2 h3 (fun n h => by rw [h1] at h; exact h))
  | emit_event st event _ ih => exact ih.of_grows (grows_emit_event st event)
  | access_module st fuel caller_mc name cb itf _ ih =>
    exact ih.of_grows (grows_access_module st fuel caller_mc name cb itf)
  | shutdown st exit_status reason _ ih =>
    refine ih.of_grows ?_
    unfold CState.shutdown
    split
    · exact Grows.refl st
    · exact Grows.of_same_keys rfl rfl (fun _ h => h)
  | modified st name _ ih =>
    exact ih.of_grows (Grows.of_same_keys rfl rfl (fun _ h => h))
  | worker_iteration st st1 name ev _ hw ih =>
    exact ih.of_grows (grows_worker_iteration st st1 name ev hw)
  | thread_request_stop st _ ih => exact ih.of_grows (grows_thread_request_stop st)

/-- C3, amended: in every reachable host state every name in `m_modules` has
an entry in `m_module_info` and occurs at least once in
`m_module_load_order`. -/
theorem reachable_registry_invariant (st : CState) (h : HostReachable st) :
    ∀ name, (smap_find st.m_modules name).isSome = true →
      (smap_find st.m_module_info name).isSome = true ∧
      1 ≤ st.m_module_load_order.count name := by
  have hinv : RegistryInv st := reachable_registryInv st h
  intro name hname
  refine ⟨(hinv name hname).1, ?_⟩
  exact List.count_pos_iff.mpr (hinv name hname).2

/-- Witness of the amended C3 on the host where `A` was loaded, unloaded and
loaded again. -/
theorem reachable_registry_invariant_witness :
    HostReachable
      (CState.load_module ex_env
        (CState.unload_module_u ex_env (CState.load_module ex_env {} (ex_info "A" [])).2 "A")
        (ex_info "A" [])).2 ∧
    ∀ name, (smap_find (CState.load_module ex_env
        (CState.unload_module_u ex_env (CState.load_module ex_env {} (ex_info "A" [])).2 "A")
        (ex_info "A" [])).2.m_modules name).isSome = true →
      (smap_find (CState.load_module ex_env
        (CState.unload_module_u ex_env (CState.load_module ex_env {} (ex_info "A" [])).2 "A")
        (ex_info "A" [])).2.m_module_info name).isSome = true ∧
      1 ≤ (CState.load_module ex_env
        (CState.unload_module_u ex_env (CState.load_module ex_env {} (ex_info "A" [])).2 "A")
        (ex_info "A" [])).2.m_module_load_order.count name :=
  ⟨HostReachable.load_module _ _ _
      (HostReachable.unload_module_u _ _ _
        (HostReachable.load_module _ _ _ HostReachable.empty)),
   reachable_registry_invariant _
     (HostReachable.load_module _ _ _
       (HostReachable.unload_module_u _ _ _
         (HostReachable.load_module _ _ _ HostReachable.empty)))⟩

/-! ## The protocol: what each action does -/

namespace Proto

open ModuleContainer ModuleThread

/-- An enabled `acquire` finds the caller idle and the semaphore positive. -/
theorem step_acquire {s s1 : Proto} {i : Nat} {cb : Callback}
    (h : s.step (Action.acquire i cb) = some s1) :
    s.callers i = CallerPc.idle ∧ s.mc.direct_cb_free_sem ≠ 0 ∧
    s1 = { s with
      mc := { s.mc with direct_cb_free_sem := s.mc.direct_cb_free_sem - 1 }
      callers := Function.update s.callers i (CallerPc.acquired cb) } := by
  simp only [Proto.step] at h
  cases hc : s.callers i with
  | idle =>
    rw [hc] at h
    by_cases hf : s.mc.direct_cb_free_sem = 0
    · simp [edc_acquire, hf] at h
    · have ha : s.mc.edc_acquire =
          some { s.mc with direct_cb_free_sem := s.mc.direct_cb_free_sem - 1 } := by
        simp [edc_acquire, hf]
      rw [ha] at h
      simp only [Option.some.injEq] at h
      exact ⟨rfl, hf, h.symm⟩
  | _ => rw [hc] at h; simp at h

/-- An enabled `check` finds the caller past the semaphore and a thread to
query; it lets the caller pass when no stop is requested, and otherwise sends
it back with the semaphore posted. -/
theorem step_check {s s1 : Proto} {i : Nat} (h : s.step (Action.check i) = some s1) :
    ∃ cb, s.callers i = CallerPc.acquired cb ∧
      ((s.mc.stop_requested = false ∧
          s1 = { s with callers := Function.update s.callers i (CallerPc.passed cb) }) ∨
       (s.mc.stop_requested = true ∧
          s1 = { s with
            mc := { s.mc with direct_cb_free_sem := s.mc.direct_cb_free_sem + 1 }
            callers := Function.update s.callers i CallerPc.idle })) := by
  simp only [Proto.step] at h
  cases hc : s.callers i with
  | acquired cb =>
    rw [hc] at h
    refine ⟨cb, rfl, ?_⟩
    cases ht : s.mc.thread with
    | none =>
      have hk : s.mc.edc_check none = (Res.null_deref, s.mc) := by simp [edc_check, ht]
      rw [hk] at h
      simp at h
    | some t =>
      by_cases hstop : t.stop_requested = true
      · right
        have hk : s.mc.edc_check none =
            (Res.threw (Exn.TargetModuleNotAvailable (s.mc.stopping_message none)),
              { s.mc with direct_cb_free_sem := s.mc.direct_cb_free_sem + 1 }) := by
          simp [edc_check, ht, hstop]
        rw [hk] at h
        simp only [Option.some.injEq] at h
        exact ⟨by simp [ModuleContainer.stop_requested, ht, hstop], h.symm⟩
      · left
        have hk : s.mc.edc_check none = (Res.ok (), s.mc) := by simp [edc_check, ht, hstop]
        rw [hk] at h
        simp only [Option.some.injEq] at h
        exact ⟨by simpa [ModuleContainer.stop_requested, ht] using hstop, h.symm⟩
  | _ => rw [hc] at h; simp at h

/-- An enabled `park` finds the caller past the check. -/
theorem step_park {s s1 : Proto} {i : Nat} (h : s.step (Action.park i) = some s1) :
    ∃ cb, s.callers i = CallerPc.passed cb ∧
      s1 = { s with mc := s.mc.edc_park cb,
                    callers := Function.update s.callers i (CallerPc.parked cb) } := by
  simp only [Proto.step] at h
  cases hc : s.callers i with
  | passed cb =>
    rw [hc] at h
    simp only [Option.some.injEq] at h
    exact ⟨cb, rfl, h.symm⟩
  | _ => rw [hc] at h; simp at h

/-- An enabled `wake` finds the caller parked and `direct_cb_executed_sem`
positive. -/
theorem step_wake {s s1 : Proto} {i : Nat} (h : s.step (Action.wake i) = some s1) :
    ∃ cb, s.callers i = CallerPc.parked cb ∧ s.mc.direct_cb_executed_sem ≠ 0 ∧
      s1 = { s with
        mc := { s.mc with direct_cb_executed_sem := s.mc.direct_cb_executed_sem - 1 }
        callers := Function.update s.callers i CallerPc.finishing } := by
  simp only [Proto.step] at h
  cases hc : s.callers i with
  | parked cb =>
    rw [hc] at h
    by_cases hf : s.mc.direct_cb_executed_sem = 0
    · simp [edc_wait, hf] at h
    · have ha : s.mc.edc_wait =
          some { s.mc with direct_cb_executed_sem := s.mc.direct_cb_executed_sem - 1 } := by
        simp [edc_wait, hf]
      rw [ha] at h
      simp only [Option.some.injEq] at h
      exact ⟨cb, rfl, hf, h.symm⟩
  | _ => rw [hc] at h; simp at h

/-- An enabled `release` finds the caller past its wait. -/
theorem step_release {s s1 : Proto} {i : Nat} (h : s.step (Action.release i) = some s1) :
    s.callers i = CallerPc.finishing ∧
      s1 = { s with mc := s.mc.edc_release.2,
                    callers := Function.update s.callers i CallerPc.idle } := by
  simp only [Proto.step] at h
  cases hc : s.callers i with
  | finishing =>
    rw [hc] at h
    simp only [Option.some.injEq] at h
    exact ⟨rfl, h.symm⟩
  | _ => rw [hc] at h; simp at h

/-- An enabled `w_wait` finds the worker at its wait and `event_queue_sem`
positive. -/
theorem step_w_wait {s s1 : Proto} (h : s.step Action.w_wait = some s1) :
    s.worker = WorkerPc.waiting ∧ s.mc.event_queue_sem ≠ 0 ∧
      s1 = { s with mc := { s.mc with event_queue_sem := s.mc.event_queue_sem - 1 }
                    worker := WorkerPc.woken } := by
  simp only [Proto.step] at h
  cases hw : s.worker with
  | waiting =>
    rw [hw] at h
    by_cases hf : s.mc.event_queue_sem = 0
    · simp [w_wait, hf] at h
    · have ha : w_wait s.mc =
          some { s.mc with event_queue_sem := s.mc.event_queue_sem - 1 } := by
        simp [w_wait, hf]
      rw [ha] at h
      simp only [Option.some.injEq] at h
      exact ⟨rfl, hf, h.symm⟩
  | _ => rw [hw] at h; simp at h

/-- An enabled `w_grab` finds the worker past its wait. -/
theorem step_w_grab {s s1 : Proto} (h : s.step Action.w_grab = some s1) :
    s.worker = WorkerPc.woken ∧
      s1 = { s with mc := (w_grab s.mc).2,
                    worker := WorkerPc.grabbed (w_grab s.mc).1.1 (w_grab s.mc).1.2 } := by
  simp only [Proto.step] at h
  cases hw : s.worker with
  | woken =>
    rw [hw] at h
    simp only [Option.some.injEq] at h
    exact ⟨rfl, h.symm⟩
  | _ => rw [hw] at h; simp at h

/-- An enabled `w_dispatch` finds the worker past the grab; with a stop
requested it leaves the loop, otherwise it handles what it grabbed. -/
theorem step_w_dispatch {s s1 : Proto} {what : Option String}
    (h : s.step (Action.w_dispatch what) = some s1) :
    ∃ direct_cb event, s.worker = WorkerPc.grabbed direct_cb event ∧
      ((s.mc.stop_requested = true ∧
          s1 = { s with mc := w_end_destruct (w_begin_destruct (w_stop s.mc direct_cb)),
                        worker := WorkerPc.exited }) ∨
       (s.mc.stop_requested = false ∧
          ((∃ cb, direct_cb = some cb ∧
              s1 = { s with mc := handle_direct_cb s.mc cb, worker := WorkerPc.waiting }) ∨
           (∃ e, direct_cb = none ∧ event = some e ∧
              s1 = { s with mc := (handle_event s.mc e what).1, worker := WorkerPc.waiting }) ∨
           (direct_cb = none ∧ event = none ∧ s1 = { s with worker := WorkerPc.waiting })))) := by
  simp only [Proto.step] at h
  cases hw : s.worker with
  | grabbed direct_cb event =>
    rw [hw] at h
    refine ⟨direct_cb, event, rfl, ?_⟩
    by_cases hstop : s.mc.stop_requested = true
    · left
      simp only [hstop, if_true, Option.some.injEq] at h
      exact ⟨hstop, h.symm⟩
    · right
      have hstop1 : s.mc.stop_requested = false := by simpa using hstop
      refine ⟨hstop1, ?_⟩
      simp only [hstop1, Bool.false_eq_true, if_false] at h
      cases direct_cb with
      | some cb =>
        simp only [Option.some.injEq] at h
        exact Or.inl ⟨cb, rfl, h.symm⟩
      | none =>
        cases event with
        | some e =>
          simp only [Option.some.injEq] at h
          exact Or.inr (Or.inl ⟨e, rfl, rfl, h.symm⟩)
        | none =>
          simp only [Option.some.injEq] at h
          exact Or.inr (Or.inr ⟨rfl, rfl, h.symm⟩)
  | _ => rw [hw] at h; simp at h

end Proto


/-! ## The protocol: at most one direct callback in flight -/

namespace Proto

open ModuleContainer ModuleThread

/-- A caller that is idle or only past the semaphore is not in flight. -/
theorem in_flight_update_out {callers : Nat → CallerPc} {i : Nat} {pc : CallerPc}
    (hpc : in_flight pc = false)
    (h : ∀ a b, in_flight (callers a) = true → in_flight (callers b) = true → a = b) :
    ∀ a b, in_flight (Function.update callers i pc a) = true →
      in_flight (Function.update callers i pc b) = true → a = b := by
  intro a b ha hb
  by_cases hai : a = i
  · subst hai
    rw [Function.update_same, hpc] at ha
    cases ha
  · by_cases hbi : b = i
    · subst hbi
      rw [Function.update_same, hpc] at hb
      cases hb
    · rw [Function.update_noteq hai] at ha
      rw [Function.update_noteq hbi] at hb
      exact h a b ha hb

/-- A caller in flight that moves on is still the only one in flight. -/
theorem in_flight_update_in {callers : Nat → CallerPc} {i : Nat} {pc : CallerPc}
    (hold : in_flight (callers i) = true)
    (h : ∀ a b, in_flight (callers a) = true → in_flight (callers b) = true → a = b) :
    ∀ a b, in_flight (Function.update callers i pc a) = true →
      in_flight (Function.update callers i pc b) = true → a = b := by
  intro a b ha hb
  have hai : a = i := by
    by_contra hne
    rw [Function.update_noteq hne] at ha
    exact hne (h a i ha hold)
  have hbi : b = i := by
    by_contra hne
    rw [Function.update_noteq hne] at hb
    exact hne (h b i hb hold)
  rw [hai, hbi]

/-- A parked caller stays parked when another caller, not parked, moves. -/
theorem parked_update {callers : Nat → CallerPc} (i : Nat) (pc : CallerPc)
    (hnot : ∀ cb, callers i ≠ CallerPc.parked cb) {cb : Callback}
    (h : ∃ j, callers j = CallerPc.parked cb) :
    ∃ j, Function.update callers i pc j = CallerPc.parked cb := by
  obtain ⟨j, hj⟩ := h
  have hji : j ≠ i := by
    intro heq
    subst heq
    exact hnot cb hj
  exact ⟨j, by rw [Function.update_noteq hji]; exact hj⟩

/-- The start state satisfies the protocol invariant. -/
theorem protoInv_start (addr : Nat) (m : Module) (info : ModuleInfo) :
    ProtoInv (start addr m info) := by
  refine ⟨?_, ?_, ?_, ?_, ?_, ?_⟩
  · intro i j hi
    simp [start, in_flight] at hi
  · intro _
    left
    exact ⟨rfl, fun _ => rfl⟩
  · intro cb h
    simp [start, ModuleContainer.create] at h
  · intro cb ev h
    simp [start] at h
  · simp [start, ModuleContainer.create]
  · intro h
    simp [start, ModuleContainer.create] at h

/-- Every action keeps the protocol invariant. -/
theorem protoInv_step {s s1 : Proto} {a : Action} (hinv : ProtoInv s)
    (h : s.step a = some s1) : ProtoInv s1 := by
  cases a with
  | push e =>
    simp only [Proto.step, Option.some.injEq] at h
    subst h
    exact ⟨hinv.one_in_flight, hinv.holders, hinv.slot_owner, hinv.grabbed_slot,
      hinv.executed_le, hinv.executed_owner⟩
  | stop =>
    simp only [Proto.step, Option.some.injEq] at h
    subst h
    cases ht : s.mc.thread with
    | none =>
      have hsame : s.mc.thread_request_stop = s.mc := by simp [thread_request_stop, ht]
      simp only [hsame]
      exact hinv
    | some t =>
      have hstop : s.mc.thread_request_stop =
          { s.mc with
            thread := some { t with stop_requested := true }
            direct_cb_free_sem := s.mc.direct_cb_free_sem + 1
            event_queue_sem := s.mc.event_queue_sem + 1 } := by
        simp [thread_request_stop, ht]
      simp only [hstop]
      refine ⟨hinv.one_in_flight, ?_, hinv.slot_owner, hinv.grabbed_slot, hinv.executed_le,
        hinv.executed_owner⟩
      intro hno
      simp [ModuleContainer.stop_requested] at hno
  | acquire i cb =>
    obtain ⟨hidle, hfree, rfl⟩ := step_acquire h
    refine ⟨?_, ?_, ?_, ?_, hinv.executed_le, ?_⟩
    · exact in_flight_update_out rfl hinv.one_in_flight
    · intro hno
      rcases hinv.holders hno with ⟨h1, hall⟩ | ⟨h0, _⟩
      · right
        refine ⟨by simp [h1], i, by simp, fun j hj => ?_⟩
        simp only [Function.update_noteq hj]
        exact hall j
      · exact absurd h0 hfree
    · intro cb1 hslot
      exact parked_update i _ (by simp [hidle]) (hinv.slot_owner cb1 hslot)
    · exact hinv.grabbed_slot
    · intro hpos
      obtain ⟨hnone, j, cb1, hj⟩ := hinv.executed_owner hpos
      obtain ⟨j1, hj1⟩ := parked_update i _ (by simp [hidle]) ⟨j, hj⟩
      exact ⟨hnone, j1, cb1, hj1⟩
  | check i =>
    obtain ⟨cb, hacq, ⟨hno, rfl⟩ | ⟨hyes, rfl⟩⟩ := step_check h
    · refine ⟨?_, ?_, ?_, hinv.grabbed_slot, hinv.executed_le, ?_⟩
      · intro a b ha hb
        have hothers : ∀ j, j ≠ i → s.callers j = CallerPc.idle := by
          rcases hinv.holders hno with ⟨_, hall⟩ | ⟨_, i0, hi0, hrest⟩
          · intro j _; exact hall j
          · have : i = i0 := by
              by_contra hne
              have := hrest i hne
              rw [hacq] at this
              cases this
            subst this
            exact hrest
        have hai : a = i := by
          by_contra hne
          simp only [Function.update_noteq hne, hothers a hne, in_flight] at ha
          cases ha
        have hbi : b = i := by
          by_contra hne
          simp only [Function.update_noteq hne, hothers b hne, in_flight] at hb
          cases hb
        rw [hai, hbi]
      · intro hno1
        rcases hinv.holders hno with ⟨_, hall⟩ | ⟨h0, i0, hi0, hrest⟩
        · have := hall i
          rw [hacq] at this
          cases this
        · right
          have : i = i0 := by
            by_contra hne
            have := hrest i hne
            rw [hacq] at this
            cases this
          subst this
          refine ⟨h0, i, by simp, fun j hj => ?_⟩
          simp only [Function.update_noteq hj]
          exact hrest j hj
      · intro cb1 hslot
        exact parked_update i _ (by simp [hacq]) (hinv.slot_owner cb1 hslot)
      · intro hpos
        obtain ⟨hnone, j, cb1, hj⟩ := hinv.executed_owner hpos
        obtain ⟨j1, hj1⟩ := parked_update i _ (by simp [hacq]) ⟨j, hj⟩
        exact ⟨hnone, j1, cb1, hj1⟩
    · refine ⟨?_, ?_, ?_, hinv.grabbed_slot, hinv.executed_le, ?_⟩
      · exact in_flight_update_out rfl hinv.one_in_flight
      · intro hno
        have : s.mc.stop_requested = false := hno
        rw [hyes] at this
        cases this
      · intro cb1 hslot
        exact parked_update i _ (by simp [hacq]) (hinv.slot_owner cb1 hslot)
      · intro hpos
        obtain ⟨hnone, j, cb1, hj⟩ := hinv.executed_owner hpos
        obtain ⟨j1, hj1⟩ := parked_update i _ (by simp [hacq]) ⟨j, hj⟩
        exact ⟨hnone, j1, cb1, hj1⟩
  | park i =>
    obtain ⟨cb, hpassed, rfl⟩ := step_park h
    have hfl : in_flight (s.callers i) = true := by rw [hpassed]; rfl
    have hnoparked : ∀ j cb1, s.callers j ≠ CallerPc.parked cb1 := by
      intro j cb1 hj
      have hji : j = i := hinv.one_in_flight j i (by rw [hj]; rfl) hfl
      subst hji
      rw [hpassed] at hj
      cases hj
    have hslot0 : s.mc.direct_cb = none := by
      cases hs : s.mc.direct_cb with
      | none => rfl
      | some cb1 =>
        obtain ⟨j, hj⟩ := hinv.slot_owner cb1 hs
        exact absurd hj (hnoparked j cb1)
    have hexec0 : s.mc.direct_cb_executed_sem = 0 := by
      by_contra hne
      obtain ⟨_, j, cb1, hj⟩ := hinv.executed_owner (Nat.pos_of_ne_zero hne)
      exact hnoparked j cb1 hj
    refine ⟨?_, ?_, ?_, ?_, hinv.executed_le, ?_⟩
    · exact in_flight_update_in hfl hinv.one_in_flight
    · intro hno
      rcases hinv.holders hno with ⟨_, hall⟩ | ⟨h0, i0, hi0, hrest⟩
      · have := hall i
        rw [hpassed] at this
        cases this
      · right
        have : i = i0 := by
          by_contra hne
          have := hrest i hne
          rw [hpassed] at this
          cases this
        subst this
        refine ⟨h0, i, by simp, fun j hj => ?_⟩
        simp only [Function.update_noteq hj]
        exact hrest j hj
    · intro cb1 hslot
      simp only [edc_park, Option.some.injEq] at hslot
      subst hslot
      exact ⟨i, by simp⟩
    · intro cb1 ev hw
      have := hinv.grabbed_slot cb1 ev hw
      rw [hslot0] at this
      cases this
    · intro hpos
      have : 0 < s.mc.direct_cb_executed_sem := hpos
      omega
  | wake i =>
    obtain ⟨cb, hparked, hpos, rfl⟩ := step_wake h
    have hfl : in_flight (s.callers i) = true := by rw [hparked]; rfl
    obtain ⟨hslot0, _⟩ := hinv.executed_owner (Nat.pos_of_ne_zero hpos)
    have hle := hinv.executed_le
    refine ⟨?_, ?_, ?_, ?_, ?_, ?_⟩
    · exact in_flight_update_in hfl hinv.one_in_flight
    · intro hno
      rcases hinv.holders hno with ⟨_, hall⟩ | ⟨h0, i0, hi0, hrest⟩
      · have := hall i
        rw [hparked] at this
        cases this
      · right
        have : i = i0 := by
          by_contra hne
          have := hrest i hne
          rw [hparked] at this
          cases this
        subst this
        refine ⟨h0, i, by simp, fun j hj => ?_⟩
        simp only [Function.update_noteq hj]
        exact hrest j hj
    · intro cb1 hslot
      have : s.mc.direct_cb = some cb1 := hslot
      rw [hslot0] at this
      cases this
    · exact hinv.grabbed_slot
    · show s.mc.direct_cb_executed_sem - 1 ≤ 1
      omega
    · intro hpos1
      have : 0 < s.mc.direct_cb_executed_sem - 1 := hpos1
      omega
  | release i =>
    obtain ⟨hfin, rfl⟩ := step_release h
    refine ⟨?_, ?_, ?_, hinv.grabbed_slot, hinv.executed_le, ?_⟩
    · exact in_flight_update_out rfl hinv.one_in_flight
    · intro hno
      rcases hinv.holders hno with ⟨_, hall⟩ | ⟨h0, i0, hi0, hrest⟩
      · have := hall i
        rw [hfin] at this
        cases this
      · left
        have : i = i0 := by
          by_contra hne
          have := hrest i hne
          rw [hfin] at this
          cases this
        subst this
        refine ⟨by simp [edc_release, h0], fun j => ?_⟩
        by_cases hj : j = i
        · subst hj
          simp
        · simp only [Function.update_noteq hj]
          exact hrest j hj
    · intro cb1 hslot
      exact parked_update i _ (by simp [hfin]) (hinv.slot_owner cb1 hslot)
    · intro hpos
      obtain ⟨hnone, j, cb1, hj⟩ := hinv.executed_owner hpos
      obtain ⟨j1, hj1⟩ := parked_update i _ (by simp [hfin]) ⟨j, hj⟩
      exact ⟨hnone, j1, cb1, hj1⟩
  | w_wait =>
    obtain ⟨hw, _, rfl⟩ := step_w_wait h
    refine ⟨hinv.one_in_flight, hinv.holders, hinv.slot_owner, ?_, hinv.executed_le,
      hinv.executed_owner⟩
    intro cb ev hg
    cases hg
  | w_grab =>
    obtain ⟨hw, rfl⟩ := step_w_grab h
    cases hs : s.mc.direct_cb with
    | some cb0 =>
      have hg : w_grab s.mc = ((some cb0, none), s.mc) := by simp [w_grab, hs]
      simp only [hg]
      refine ⟨hinv.one_in_flight, hinv.holders, hinv.slot_owner, ?_, hinv.executed_le,
        hinv.executed_owner⟩
      intro cb ev hgr
      simp only [WorkerPc.grabbed.injEq, Option.some.injEq] at hgr
      rw [← hgr.1]
      exact hs
    | none =>
      cases hq : s.mc.event_queue with
      | nil =>
        have hg : w_grab s.mc = ((none, none), s.mc) := by simp [w_grab, hs, hq]
        simp only [hg]
        refine ⟨hinv.one_in_flight, hinv.holders, hinv.slot_owner, ?_, hinv.executed_le,
          hinv.executed_owner⟩
        intro cb ev hgr
        simp at hgr
      | cons e rest =>
        have hg : w_grab s.mc = ((none, some e), { s.mc with event_queue := rest }) := by
          simp [w_grab, hs, hq]
        simp only [hg]
        refine ⟨hinv.one_in_flight, hinv.holders, hinv.slot_owner, ?_, hinv.executed_le,
          hinv.executed_owner⟩
        intro cb ev hgr
        simp at hgr
  | w_dispatch what =>
    obtain ⟨direct_cb, event, hw, hcase⟩ := step_w_dispatch h
    have hpost : ∀ cb, direct_cb = some cb →
        s.mc.direct_cb_executed_sem = 0 ∧ ∃ j, s.callers j = CallerPc.parked cb := by
      intro cb hcb
      subst hcb
      have hslot := hinv.grabbed_slot cb event hw
      refine ⟨?_, hinv.slot_owner cb hslot⟩
      by_contra hne
      obtain ⟨hnone, _⟩ := hinv.executed_owner (Nat.pos_of_ne_zero hne)
      rw [hslot] at hnone
      cases hnone
    rcases hcase with ⟨hyes, rfl⟩ | ⟨hno, hrest⟩
    · cases direct_cb with
      | none =>
        refine ⟨hinv.one_in_flight, ?_, hinv.slot_owner, ?_, hinv.executed_le,
          hinv.executed_owner⟩
        · intro hno
          have : s.mc.stop_requested = false := hno
          rw [hyes] at this
          cases this
        · intro cb ev hg
          cases hg
      | some cb =>
        obtain ⟨hzero, j, hj⟩ := hpost cb rfl
        refine ⟨hinv.one_in_flight, ?_, ?_, ?_, ?_, ?_⟩
        · intro hno
          have : s.mc.stop_requested = false := hno
          rw [hyes] at this
          cases this
        · intro cb1 hslot
          simp [w_end_destruct, w_begin_destruct, w_stop] at hslot
        · intro cb1 ev hg
          cases hg
        · show s.mc.direct_cb_executed_sem + 1 ≤ 1
          omega
        · intro _
          exact ⟨rfl, j, cb, hj⟩
    · rcases hrest with ⟨cb, hcb, rfl⟩ | ⟨e, hcb, hev, rfl⟩ | ⟨hcb, hev, rfl⟩
      · obtain ⟨hzero, j, hj⟩ := hpost cb hcb
        cases hm : s.mc.module with
        | none =>
          have hh : handle_direct_cb s.mc cb =
              { s.mc with
                direct_cb := none
                direct_cb_exception := none
                direct_cb_executed_sem := s.mc.direct_cb_executed_sem + 1 } := by
            simp [handle_direct_cb, hm]
          simp only [hh]
          refine ⟨hinv.one_in_flight, hinv.holders, ?_, ?_, ?_, ?_⟩
          · intro cb1 hslot
            cases hslot
          · intro cb1 ev hg
            cases hg
          · show s.mc.direct_cb_executed_sem + 1 ≤ 1
            omega
          · intro _
            exact ⟨rfl, j, cb, hj⟩
        | some m =>
          have hh : handle_direct_cb s.mc cb =
              { s.mc with
                trace := s.mc.trace ++ [Call.direct cb]
                direct_cb := none
                direct_cb_exception := cb.raises
                direct_cb_executed_sem := s.mc.direct_cb_executed_sem + 1 } := by
            simp [handle_direct_cb, hm]
          simp only [hh]
          refine ⟨hinv.one_in_flight, hinv.holders, ?_, ?_, ?_, ?_⟩
          · intro cb1 hslot
            cases hslot
          · intro cb1 ev hg
            cases hg
          · show s.mc.direct_cb_executed_sem + 1 ≤ 1
            omega
          · intro _
            exact ⟨rfl, j, cb, hj⟩
      · have hsame : ∀ x : ModuleContainer × Option (Int × String),
            x = handle_event s.mc e what →
            x.1.direct_cb = s.mc.direct_cb ∧
            x.1.direct_cb_executed_sem = s.mc.direct_cb_executed_sem ∧
            x.1.direct_cb_free_sem = s.mc.direct_cb_free_sem ∧
            x.1.stop_requested = s.mc.stop_requested := by
          intro x hx
          subst hx
          unfold handle_event
          cases s.mc.module <;> exact ⟨rfl, rfl, rfl, rfl⟩
        obtain ⟨h1, h2, h3, h4⟩ := hsame _ rfl
        refine ⟨hinv.one_in_flight, ?_, ?_, ?_, ?_, ?_⟩
        · intro hno1
          have := hinv.holders (by rw [← h4]; exact hno1)
          simpa only [h3] using this
        · intro cb1 hslot
          exact hinv.slot_owner cb1 (by rw [← h1]; exact hslot)
        · intro cb1 ev hg
          cases hg
        · show (handle_event s.mc e what).1.direct_cb_executed_sem ≤ 1
          rw [h2]
          exact hinv.executed_le
        · intro hpos
          have := hinv.executed_owner (by rw [← h2]; exact hpos)
          exact ⟨by rw [h1]; exact this.1, this.2⟩
      · refine ⟨hinv.one_in_flight, hinv.holders, hinv.slot_owner, ?_, hinv.executed_le,
          hinv.executed_owner⟩
        intro cb1 ev hg
        cases hg

/-- The protocol invariant holds after any sequence of actions. -/
theorem protoInv_run (acts : List Action) :
    ∀ s s1 : Proto, ProtoInv s → run s acts = some s1 → ProtoInv s1 := by
  induction acts with
  | nil =>
    intro s s1 hinv h
    simp only [run, Option.some.injEq] at h
    subst h
    exact hinv
  | cons a rest ih =>
    intro s s1 hinv h
    simp only [run] at h
    cases hstep : s.step a with
    | none => rw [hstep] at h; cases h
    | some s2 =>
      rw [hstep] at h
      exact ih s2 s1 (protoInv_step hinv hstep) h

end Proto


/-- C9: in every state of the direct-call protocol of a container reached
from its start by any sequence of actions (callers acquiring
`direct_cb_free_sem`, passing or failing the stop check, parking, waking and
releasing; the worker waiting, grabbing and completing or discarding;
`push_event`; `thread_request_stop`, which posts `direct_cb_free_sem` an extra
time), at most one caller is between the stop check it passed and its release
of `direct_cb_free_sem`, and a callback that is parked in the slot or held by
the worker is the callback of a parked caller, hence of that one caller. -/
theorem at_most_one_direct_cb_in_flight (addr : Nat) (m : Module) (info : ModuleInfo)
    (acts : List Action) (s : Proto)
    (h : Proto.run (Proto.start addr m info) acts = some s) :
    (∀ i j, Proto.in_flight (s.callers i) = true → Proto.in_flight (s.callers j) = true →
      i = j) ∧
    (∀ cb, s.mc.direct_cb = some cb → ∃ i, s.callers i = CallerPc.parked cb) ∧
    (∀ cb ev, s.worker = WorkerPc.grabbed (some cb) ev →
      ∃ i, s.callers i = CallerPc.parked cb) := by
  have hinv := Proto.protoInv_run acts _ s (Proto.protoInv_start addr m info) h
  exact ⟨hinv.one_in_flight, hinv.slot_owner,
    fun cb ev hw => hinv.slot_owner cb (hinv.grabbed_slot cb ev hw)⟩

/-- Witness of C9: caller 0 parks its callback, the stop is requested, and
caller 1 gets through the semaphore that the stop posted. -/
theorem at_most_one_direct_cb_in_flight_witness :
    ∃ s, Proto.run (Proto.start 2 { addr := 166, m_module_name := "B" } (ex_info "B" []))
        [Action.acquire 0 ex_cb, Action.check 0, Action.park 0, Action.stop,
         Action.acquire 1 { id := 8 }, Action.w_wait, Action.w_grab] = some s ∧
      ((∀ i j, Proto.in_flight (s.callers i) = true → Proto.in_flight (s.callers j) = true →
        i = j) ∧
      (∀ cb, s.mc.direct_cb = some cb → ∃ i, s.callers i = CallerPc.parked cb) ∧
      (∀ cb ev, s.worker = WorkerPc.grabbed (some cb) ev →
        ∃ i, s.callers i = CallerPc.parked cb)) :=
  ⟨_, rfl, at_most_one_direct_cb_in_flight 2 { addr := 166, m_module_name := "B" }
    (ex_info "B" [])
    [Action.acquire 0 ex_cb, Action.check 0, Action.park 0, Action.stop,
     Action.acquire 1 { id := 8 }, Action.w_wait, Action.w_grab] _ rfl⟩

/-! ## The protocol: events are handled in the order pushed -/

namespace Proto

open ModuleContainer ModuleThread

/-- Calls of direct callbacks do not show among the handled events. -/
theorem handled_append_direct (tr : List Call) (cb : Callback) :
    handled (tr ++ [Call.direct cb]) = handled tr := by
  induction tr with
  | nil => rfl
  | cons c rest ih => cases c <;> simp [handled, ih]

/-- A handled event goes to the end of the handled events. -/
theorem handled_append_event (tr : List Call) (e : Event) :
    handled (tr ++ [Call.event e]) = handled tr ++ [e] := by
  induction tr with
  | nil => rfl
  | cons c rest ih => cases c <;> simp [handled, ih]

/-- The event invariant passes to a state with the same worker position, the
same events pushed, and a container with the same module, trace and queue
that is stopping if it was. -/
theorem eventInv_frame {s s1 : Proto} (hinv : EventInv s) (hw : s1.worker = s.worker)
    (hp : s1.pushed = s.pushed) (hm : s1.mc.module = s.mc.module)
    (ht : s1.mc.trace = s.mc.trace) (hq : s1.mc.event_queue = s.mc.event_queue)
    (hs : s.mc.stop_requested = true → s1.mc.stop_requested = true) : EventInv s1 := by
  refine ⟨?_, ?_, ?_, ?_⟩
  · intro hne
    rw [hw] at hne
    rw [hw, hp, hm, ht, hq]
    exact hinv.live hne
  · intro cb ev hg
    rw [hw] at hg
    exact hinv.grabbed_one cb ev hg
  · intro hex
    rw [hw] at hex
    exact hs (hinv.exited_stop hex)
  · rw [hp, ht]
    exact hinv.handled_prefix

/-- The start state satisfies the event invariant. -/
theorem eventInv_start (addr : Nat) (m : Module) (info : ModuleInfo) :
    EventInv (start addr m info) := by
  refine ⟨?_, ?_, ?_, ?_⟩
  · intro _
    exact ⟨rfl, rfl⟩
  · intro cb ev h
    simp [start] at h
  · intro h
    simp [start] at h
  · exact List.prefix_refl _

/-- Every action keeps the event invariant. -/
theorem eventInv_step {s s1 : Proto} {a : Action} (hinv : EventInv s)
    (h : s.step a = some s1) : EventInv s1 := by
  cases a with
  | push e =>
    simp only [Proto.step, Option.some.injEq] at h
    subst h
    refine ⟨?_, hinv.grabbed_one, hinv.exited_stop, ?_⟩
    · intro hne
      obtain ⟨hm, hp⟩ := hinv.live hne
      refine ⟨hm, ?_⟩
      show s.pushed ++ [e] = handled s.mc.trace ++ in_hand s.worker ++ (s.mc.event_queue ++ [e])
      rw [hp]
      simp
    · exact hinv.handled_prefix.trans (List.prefix_append _ _)
  | stop =>
    simp only [Proto.step, Option.some.injEq] at h
    subst h
    cases ht : s.mc.thread with
    | none =>
      have hsame : s.mc.thread_request_stop = s.mc := by simp [thread_request_stop, ht]
      simp only [hsame]
      exact hinv
    | some t =>
      have hstop : s.mc.thread_request_stop =
          { s.mc with
            thread := some { t with stop_requested := true }
            direct_cb_free_sem := s.mc.direct_cb_free_sem + 1
            event_queue_sem := s.mc.event_queue_sem + 1 } := by
        simp [thread_request_stop, ht]
      simp only [hstop]
      exact eventInv_frame hinv rfl rfl rfl rfl rfl (fun _ => rfl)
  | acquire i cb =>
    obtain ⟨_, _, rfl⟩ := step_acquire h
    exact eventInv_frame hinv rfl rfl rfl rfl rfl (fun hs => hs)
  | check i =>
    obtain ⟨cb, _, ⟨_, rfl⟩ | ⟨_, rfl⟩⟩ := step_check h
    · exact eventInv_frame hinv rfl rfl rfl rfl rfl (fun hs => hs)
    · exact eventInv_frame hinv rfl rfl rfl rfl rfl (fun hs => hs)
  | park i =>
    obtain ⟨cb, _, rfl⟩ := step_park h
    exact eventInv_frame hinv rfl rfl rfl rfl rfl (fun hs => hs)
  | wake i =>
    obtain ⟨cb, _, _, rfl⟩ := step_wake h
    exact eventInv_frame hinv rfl rfl rfl rfl rfl (fun hs => hs)
  | release i =>
    obtain ⟨_, rfl⟩ := step_release h
    exact eventInv_frame hinv rfl rfl rfl rfl rfl (fun hs => hs)
  | w_wait =>
    obtain ⟨hw, _, rfl⟩ := step_w_wait h
    refine ⟨?_, ?_, ?_, hinv.handled_prefix⟩
    · intro _
      have := hinv.live (by rw [hw]; simp)
      rw [hw] at this
      exact this
    · intro cb ev hg
      cases hg
    · intro hex
      cases hex
  | w_grab =>
    obtain ⟨hw, rfl⟩ := step_w_grab h
    have hlive := hinv.live (by rw [hw]; simp)
    rw [hw] at hlive
    obtain ⟨hm, hp⟩ := hlive
    cases hs : s.mc.direct_cb with
    | some cb0 =>
      have hg : w_grab s.mc = ((some cb0, none), s.mc) := by simp [w_grab, hs]
      simp only [hg]
      refine ⟨fun _ => ⟨hm, hp⟩, ?_, ?_, hinv.handled_prefix⟩
      · intro cb ev hgr
        simp only [WorkerPc.grabbed.injEq] at hgr
        exact hgr.2.symm
      · intro hex
        cases hex
    | none =>
      cases hq : s.mc.event_queue with
      | nil =>
        have hg : w_grab s.mc = ((none, none), s.mc) := by simp [w_grab, hs, hq]
        simp only [hg]
        refine ⟨fun _ => ⟨hm, hp⟩, ?_, ?_, hinv.handled_prefix⟩
        · intro cb ev hgr
          simp at hgr
        · intro hex
          cases hex
      | cons e rest =>
        have hg : w_grab s.mc = ((none, some e), { s.mc with event_queue := rest }) := by
          simp [w_grab, hs, hq]
        simp only [hg]
        refine ⟨fun _ => ⟨hm, ?_⟩, ?_, ?_, hinv.handled_prefix⟩
        · show s.pushed = handled s.mc.trace ++ [e] ++ rest
          rw [hp, hq]
          simp [in_hand]
        · intro cb ev hgr
          simp at hgr
        · intro hex
          cases hex
  | w_dispatch what =>
    obtain ⟨direct_cb, event, hw, hcase⟩ := step_w_dispatch h
    have hlive := hinv.live (by rw [hw]; simp)
    rw [hw] at hlive
    obtain ⟨hm, hp⟩ := hlive
    rcases hcase with ⟨hyes, rfl⟩ | ⟨hno, hrest⟩
    · refine ⟨?_, ?_, ?_, ?_⟩
      · intro hne
        exact absurd rfl hne
      · intro cb ev hg
        cases hg
      · intro _
        have hsame : (w_end_destruct (w_begin_destruct (w_stop s.mc direct_cb))).stop_requested =
            s.mc.stop_requested := by
          cases direct_cb <;> rfl
        show (w_end_destruct (w_begin_destruct (w_stop s.mc direct_cb))).stop_requested = true
        rw [hsame]
        exact hyes
      · have hsame : (w_end_destruct (w_begin_destruct (w_stop s.mc direct_cb))).trace =
            s.mc.trace := by
          cases direct_cb <;> rfl
        show handled (w_end_destruct (w_begin_destruct (w_stop s.mc direct_cb))).trace <+: s.pushed
        rw [hsame]
        exact hinv.handled_prefix
    · obtain ⟨m, hm1⟩ := Option.isSome_iff_exists.mp hm
      rcases hrest with ⟨cb, hcb, rfl⟩ | ⟨e, hcb, hev, rfl⟩ | ⟨hcb, hev, rfl⟩
      · have hnone : event = none := hinv.grabbed_one cb event (by rw [hw, hcb])
        subst hcb
        subst hnone
        have hh : handle_direct_cb s.mc cb =
            { s.mc with
              trace := s.mc.trace ++ [Call.direct cb]
              direct_cb := none
              direct_cb_exception := cb.raises
              direct_cb_executed_sem := s.mc.direct_cb_executed_sem + 1 } := by
          simp [handle_direct_cb, hm1]
        simp only [hh]
        refine ⟨?_, ?_, ?_, ?_⟩
        · intro _
          refine ⟨hm, ?_⟩
          show s.pushed = handled (s.mc.trace ++ [Call.direct cb]) ++ [] ++ s.mc.event_queue
          rw [handled_append_direct, hp]
          simp [in_hand]
        · intro cb1 ev hg
          cases hg
        · intro hex
          cases hex
        · show handled (s.mc.trace ++ [Call.direct cb]) <+: s.pushed
          rw [handled_append_direct]
          exact hinv.handled_prefix
      · subst hcb
        subst hev
        have hh : (handle_event s.mc e what).1 =
            { s.mc with trace := s.mc.trace ++ [Call.event e] } := by
          simp [handle_event, hm1]
        simp only [hh]
        have hnew : s.pushed = handled (s.mc.trace ++ [Call.event e]) ++ [] ++ s.mc.event_queue := by
          rw [handled_append_event, hp]
          simp [in_hand]
        refine ⟨?_, ?_, ?_, ?_⟩
        · intro _
          exact ⟨hm, hnew⟩
        · intro cb1 ev hg
          cases hg
        · intro hex
          cases hex
        · show handled (s.mc.trace ++ [Call.event e]) <+: s.pushed
          rw [hnew]
          simp
      · subst hcb
        subst hev
        refine ⟨?_, ?_, ?_, hinv.handled_prefix⟩
        · intro _
          exact ⟨hm, by simpa [in_hand] using hp⟩
        · intro cb1 ev hg
          cases hg
        · intro hex
          cases hex

/-- The event invariant holds after any sequence of actions. -/
theorem eventInv_run (acts : List Action) :
    ∀ s s1 : Proto, EventInv s → run s acts = some s1 → EventInv s1 := by
  induction acts with
  | nil =>
    intro s s1 hinv h
    simp only [run, Option.some.injEq] at h
    subst h
    exact hinv
  | cons a rest ih =>
    intro s s1 hinv h
    simp only [run] at h
    cases hstep : s.step a with
    | none => rw [hstep] at h; cases h
    | some s2 =>
      rw [hstep] at h
      exact ih s2 s1 (eventInv_step hinv hstep) h

end Proto

/-- C10: for every container and every interleaving of `push_event` calls
with the steps of the worker and of direct callers, the events passed to
`module->event` are a prefix of the events pushed; and as long as no stop was
requested the events pushed are exactly, in order, those passed to
`module->event`, then the one the worker holds, then those still queued (no
event is skipped, duplicated or reordered). -/
theorem events_are_handled_in_push_order (addr : Nat) (m : Module) (info : ModuleInfo)
    (acts : List Action) (s : Proto)
    (h : Proto.run (Proto.start addr m info) acts = some s) :
    Proto.handled s.mc.trace <+: s.pushed ∧
    (s.mc.stop_requested = false →
      s.pushed = Proto.handled s.mc.trace ++ Proto.in_hand s.worker ++ s.mc.event_queue) := by
  have hinv := Proto.eventInv_run acts _ s (Proto.eventInv_start addr m info) h
  refine ⟨hinv.handled_prefix, fun hno => ?_⟩
  have hne : s.worker ≠ WorkerPc.exited := by
    intro hex
    have := hinv.exited_stop hex
    rw [hno] at this
    cases this
  exact (hinv.live hne).2

/-- Witness of C10: three events are pushed while the worker handles the
first and grabs the second. -/
theorem events_are_handled_in_push_order_witness :
    ∃ s, Proto.run (Proto.start 2 { addr := 166, m_module_name := "B" } (ex_info "B" []))
        [Action.push { type := 1 }, Action.push { type := 2 }, Action.w_wait, Action.w_grab,
         Action.push { type := 3 }, Action.w_dispatch none, Action.w_wait, Action.w_grab] =
        some s ∧
      (Proto.handled s.mc.trace <+: s.pushed ∧
       (s.mc.stop_requested = false →
        s.pushed = Proto.handled s.mc.trace ++ Proto.in_hand s.worker ++ s.mc.event_queue)) :=
  ⟨_, rfl, events_are_handled_in_push_order 2 { addr := 166, m_module_name := "B" }
    (ex_info "B" [])
    [Action.push { type := 1 }, Action.push { type := 2 }, Action.w_wait, Action.w_grab,
     Action.push { type := 3 }, Action.w_dispatch none, Action.w_wait, Action.w_grab] _ rfl⟩

/-! ## Well-formed containers in reachable hosts -/

/-- One iteration of the worker keeps the thread of the container, and keeps
its module unless a stop was requested. -/
theorem run_iteration_thread_module (mc : ModuleContainer) (ev : Event → Option String)
    (it : ModuleThread.Iteration) (h : ModuleThread.run_iteration mc ev = some it) :
    it.mc.thread = mc.thread ∧
    (it.mc.module = mc.module ∨ ∃ t, mc.thread = some t ∧ t.stop_requested = true) := by
  unfold ModuleThread.run_iteration at h
  cases ht : mc.thread with
  | none => simp [ht] at h
  | some t =>
    simp only [ht] at h
    by_cases hq : mc.event_queue_sem = 0
    · simp [ModuleThread.w_wait, hq] at h
    · by_cases hstop : t.stop_requested = true
      · refine ⟨?_, Or.inr ⟨t, rfl, hstop⟩⟩
        simp only [ModuleThread.w_wait, hq, if_false, hstop, if_true, Option.some.injEq] at h
        subst h
        cases hs : mc.direct_cb <;> cases hq2 : mc.event_queue <;>
          simp [ModuleThread.w_grab, hs, hq2, ModuleThread.w_stop, ModuleThread.w_begin_destruct,
            ModuleThread.w_end_destruct, ht]
      · simp only [ModuleThread.w_wait, hq, if_false, hstop] at h
        cases hs : mc.direct_cb <;> cases hq2 : mc.event_queue <;> cases hm : mc.module <;>
          simp [ModuleThread.w_grab, hs, hq2, ModuleThread.handle_direct_cb,
            ModuleThread.handle_event, hm] at h <;> subst h <;> simp [ht, hm]


/-- A call of `execute_direct_cb` keeps thread and module of the target, or
leaves the target with a stop requested. -/
theorem execute_direct_cb_thread_module (mc : ModuleContainer) (cb : Callback)
    (caller_mc : Option ModuleContainer) (itf : Interference) :
    ((mc.execute_direct_cb cb caller_mc itf).2.thread = mc.thread ∧
      (mc.execute_direct_cb cb caller_mc itf).2.module = mc.module) ∨
    ∃ t, (mc.execute_direct_cb cb caller_mc itf).2.thread = some t ∧ t.stop_requested = true := by
  unfold ModuleContainer.execute_direct_cb
  by_cases hself : mc.is_this caller_mc = true
  · simp [hself]
  · rw [if_neg hself]
    by_cases hfree : mc.direct_cb_free_sem = 0
    · simp [ModuleContainer.edc_acquire, hfree]
    · obtain ⟨mc1, hacq, hth, hmod⟩ : ∃ mc1, mc.edc_acquire = some mc1 ∧
          mc1.thread = mc.thread ∧ mc1.module = mc.module :=
        ⟨{ mc with direct_cb_free_sem := mc.direct_cb_free_sem - 1 },
          by simp [ModuleContainer.edc_acquire, hfree], rfl, rfl⟩
      rw [hacq]
      simp only
      cases ht : mc.thread with
      | none =>
        have hchk : mc1.edc_check caller_mc = (Res.null_deref, mc1) := by
          simp [ModuleContainer.edc_check, hth, ht]
        rw [hchk]
        exact Or.inl ⟨by rw [hth, ht], hmod⟩
      | some t =>
        by_cases hstop : t.stop_requested = true
        · left
          simp [ModuleContainer.edc_check, hth, ht, hstop, hmod]
        · have hchk : mc1.edc_check caller_mc = (Res.ok (), mc1) := by
            simp [ModuleContainer.edc_check, hth, ht, hstop]
          rw [hchk]
          simp only
          generalize hmc3 : itf.apply (mc1.edc_park cb) = mc3
          have h3 : mc3.module = mc.module ∧
              (mc3.thread = some t ∨ ∃ t3, mc3.thread = some t3 ∧ t3.stop_requested = true) := by
            subst hmc3
            cases itf with
            | nothing => exact ⟨hmod, Or.inl (by rw [← ht, ← hth]; rfl)⟩
            | stop_request =>
              have hth1 : mc1.thread = some t := by rw [hth, ht]
              simp [Interference.apply, ModuleContainer.thread_request_stop, hth1,
                ModuleContainer.edc_park, hmod]
          have hfin : ∀ r : ModuleContainer, r.thread = mc3.thread →
              (r.module = mc3.module ∨ ∃ t3, mc3.thread = some t3 ∧ t3.stop_requested = true) →
              (r.thread = some t ∧ r.module = mc.module) ∨
                ∃ t, r.thread = some t ∧ t.stop_requested = true := by
            intro r hrt hrm
            rcases h3.2 with hsame | ⟨t3, ht3, hs3⟩
            · rcases hrm with hm | ⟨t4, ht4, hs4⟩
              · exact Or.inl ⟨by rw [hrt, hsame], by rw [hm, h3.1]⟩
              · exact Or.inr ⟨t4, by rw [hrt, ht4], hs4⟩
            · exact Or.inr ⟨t3, by rw [hrt, ht3], hs3⟩
          cases hrun : ModuleThread.run_iteration mc3 (fun _ => none) with
          | none => exact hfin mc3 rfl (Or.inl rfl)
          | some it =>
            obtain ⟨hit1, hit2⟩ := run_iteration_thread_module mc3 _ it hrun
            simp only
            by_cases hex : it.mc.direct_cb_executed_sem = 0
            · simp only [ModuleContainer.edc_wait, hex, if_true]
              exact hfin it.mc hit1 hit2
            · simp only [ModuleContainer.edc_wait, hex, if_false, ModuleContainer.edc_release]
              exact hfin _ hit1 hit2

/-- A call of `execute_direct_cb` leaves a well-formed container well formed. -/
theorem execute_direct_cb_keeps_ok (mc : ModuleContainer) (cb : Callback)
    (caller_mc : Option ModuleContainer) (itf : Interference) (hok : ContainerOk mc) :
    ContainerOk (mc.execute_direct_cb cb caller_mc itf).2 := by
  intro t ht hno
  rcases execute_direct_cb_thread_module mc cb caller_mc itf with ⟨h1, h2⟩ | ⟨t1, h1, h2⟩
  · rw [h2]
    exact hok t (by rw [← h1]; exact ht) hno
  · rw [h1] at ht
    cases ht
    rw [h2] at hno
    cases hno


/-- Assigning a well-formed container keeps the registry well formed. -/
theorem modsOk_set (m : List (String × ModuleContainer)) (name : String)
    (mc : ModuleContainer) (h : ModsOk m) (hmc : ContainerOk mc) :
    ModsOk (smap_set m name mc) := by
  intro k c hk
  rw [smap_find_set] at hk
  by_cases hn : name = k
  · rw [if_pos hn] at hk
    cases hk
    exact hmc
  · rw [if_neg hn] at hk
    exact h k c hk

/-- Removing a name keeps the registry well formed. -/
theorem modsOk_erase (m : List (String × ModuleContainer)) (name : String) (h : ModsOk m) :
    ModsOk (smap_erase m name) := by
  intro k c hk
  rw [smap_find_erase] at hk
  by_cases hn : name = k
  · rw [if_pos hn] at hk
    cases hk
  · rw [if_neg hn] at hk
    exact h k c hk

/-- Pushing an event to subscribers keeps the registry well formed. -/
theorem modsOk_push_all (subs : List Nat) (e : Event) :
    ∀ m : List (String × ModuleContainer), ModsOk m →
      ModsOk (subs.foldl (fun ms addr => CState.push_to ms addr e) m) := by
  induction subs with
  | nil => intro m h; exact h
  | cons a rest ih =>
    intro m h
    rw [List.foldl_cons]
    apply ih
    intro k c hk
    have hk3 : smap_find (CState.push_to m a e) k =
        (smap_find m k).map (fun c => if c.addr = a then c.push_event e else c) :=
      @smap_find_map_values ModuleContainer
        (fun c => if c.addr = a then c.push_event e else c) m k
    rw [hk3] at hk
    cases hf : smap_find m k with
    | none => rw [hf] at hk; cases hk
    | some c0 =>
      rw [hf] at hk
      simp only [Option.map_some', Option.some.injEq] at hk
      subst hk
      have h0 := h k c0 hf
      by_cases ha : c0.addr = a
      · rw [if_pos ha]
        exact h0
      · rw [if_neg ha]
        exact h0

/-- An emission keeps the containers well formed. -/
theorem allOk_emit_event (st : CState) (e : Event) (h : AllOk st) : AllOk (st.emit_event e) := by
  unfold CState.emit_event
  split
  · exact h
  · exact modsOk_push_all _ e st.m_modules h

/-- Method `init_and_start_thread` leaves a well-formed container well formed. -/
theorem init_and_start_thread_keeps_ok (mc : ModuleContainer) (init : Callback)
    (hok : ContainerOk mc) : ContainerOk (mc.init_and_start_thread init).2 := by
  unfold ModuleContainer.init_and_start_thread
  cases hm : mc.module with
  | none => exact hok
  | some m =>
    simp only
    split
    · exact hok
    · split
      · exact hok
      · have hstart : ContainerOk { mc with module := some m, thread := some {} } := by
          intro t _ _
          rfl
        have hres := execute_direct_cb_keeps_ok { mc with module := some m, thread := some {} }
          init none Interference.nothing hstart
        generalize ModuleContainer.execute_direct_cb
          { mc with module := some m, thread := some {} } init none
          Interference.nothing = res at hres ⊢
        obtain ⟨r, mc1⟩ := res
        cases r with
        | ok o => cases o <;> exact hres
        | threw e => exact hres
        | blocked => exact hres
        | null_deref => exact hres
        | no_fuel => exact hres

/-- A direct call keeps the containers well formed. -/
theorem allOk_access_module (st : CState) (fuel : Nat) (caller_mc : Option ModuleContainer)
    (name : String) (cb : Callback) (itf : Interference) (h : AllOk st) :
    AllOk (st.access_module fuel caller_mc name cb itf).2 := by
  rw [access_module_snd]
  rcases access_module_try_state st fuel caller_mc name cb itf with hs | ⟨mc, hfind, hs⟩
  · rw [hs]
    exact h
  · rw [hs]
    exact modsOk_set _ name _ h (execute_direct_cb_keeps_ok mc cb caller_mc itf (h name mc hfind))

/-- A fresh container is well formed. -/
theorem containerOk_create (addr : Nat) (m : Option Module) (info : ModuleInfo) :
    ContainerOk (ModuleContainer.create addr m info) := by
  intro t ht _
  simp [ModuleContainer.create] at ht

/-- The container left by `init_and_start_thread` is well formed. -/
theorem containerOk_of_init {mc mc1 : ModuleContainer} {init : Callback} {r : Res Unit}
    (hok : ContainerOk mc) (h : mc.init_and_start_thread init = (r, mc1)) : ContainerOk mc1 := by
  have := init_and_start_thread_keeps_ok mc init hok
  rw [h] at this
  exact this

/-- Method `load_module` keeps the containers well formed. -/
theorem allOk_load_module (env : HostEnv) (st : CState) (info : ModuleInfo) (h : AllOk st) :
    AllOk (CState.load_module env st info).2 := by
  unfold CState.load_module
  split
  · exact h
  · simp only
    split
    · exact h
    · split
      · exact allOk_emit_event _ _ (modsOk_set _ _ _ h (containerOk_create _ _ _))
      · split
        · rename_i heq
          exact allOk_emit_event _ _ (modsOk_set _ _ _
            (modsOk_set _ _ _ h (containerOk_create _ _ _))
            (containerOk_of_init (containerOk_create _ _ _) heq))
        · rename_i heq
          exact modsOk_set _ _ _ (modsOk_set _ _ _ h (containerOk_create _ _ _))
            (containerOk_of_init (containerOk_create _ _ _) heq)
        · rename_i heq
          exact modsOk_set _ _ _ (modsOk_set _ _ _ h (containerOk_create _ _ _))
            (containerOk_of_init (containerOk_create _ _ _) heq)
        · rename_i heq
          exact modsOk_set _ _ _ (modsOk_set _ _ _ h (containerOk_create _ _ _))
            (containerOk_of_init (containerOk_create _ _ _) heq)
        · rename_i heq
          exact modsOk_set _ _ _ (modsOk_set _ _ _ h (containerOk_create _ _ _))
            (containerOk_of_init (containerOk_create _ _ _) heq)

/-- Method `load_module_direct_u` keeps the containers well formed. -/
theorem allOk_load_module_direct_u (env : HostEnv) (st : CState) (m : Option Module)
    (name : String) (h : AllOk st) : AllOk (CState.load_module_direct_u env st m name).2 := by
  unfold CState.load_module_direct_u
  exact modsOk_set _ _ _ (modsOk_set _ _ _ h (containerOk_create _ _ _))
    (init_and_start_thread_keeps_ok _ _ (containerOk_create _ _ _))

/-- Method `unload_module_u` keeps the containers well formed. -/
theorem allOk_unload_module_u (env : HostEnv) (st : CState) (name : String) (h : AllOk st) :
    AllOk (CState.unload_module_u env st name) := by
  unfold CState.unload_module_u
  split
  · exact h
  · exact allOk_emit_event _ _ (modsOk_erase _ _ h)


/-- An iteration of a worker keeps the containers well formed. -/
theorem allOk_worker_iteration (st st1 : CState) (name : String)
    (ev : Event → Option String) (h : st.worker_iteration name ev = some st1)
    (hok : AllOk st) : AllOk st1 := by
  obtain ⟨mc, it, hf, hr, hm, _⟩ := worker_iteration_spec st st1 name ev h
  unfold AllOk
  rw [hm]
  refine modsOk_set _ _ _ hok ?_
  obtain ⟨hth, hmod⟩ := run_iteration_thread_module mc ev it hr
  intro t ht hs
  rw [hth] at ht
  rcases hmod with hmod | ⟨t1, ht1, hs1⟩
  · rw [hmod]
    exact hok name mc hf t ht hs
  · rw [ht1] at ht
    cases ht
    rw [hs1] at hs
    cases hs

/-- A stop request keeps a container well formed. -/
theorem containerOk_thread_request_stop (c : ModuleContainer) (h : ContainerOk c) :
    ContainerOk c.thread_request_stop := by
  unfold ModuleContainer.thread_request_stop
  cases ht : c.thread with
  | none =>
    simp only
    exact h
  | some t =>
    intro t1 ht1 hs1
    simp only [Option.some.injEq] at ht1
    subst ht1
    simp at hs1

/-- The stop request to all workers keeps the containers well formed. -/
theorem allOk_thread_request_stop (st : CState) (h : AllOk st) :
    AllOk st.thread_request_stop := by
  intro k c hk
  rw [thread_request_stop_find] at hk
  cases hf : smap_find st.m_modules k with
  | none => rw [hf] at hk; cases hk
  | some c0 =>
    rw [hf] at hk
    simp only [Option.map_some', Option.some.injEq] at hk
    subst hk
    exact stop_all_keeps ContainerOk containerOk_thread_request_stop _ c0 (h k c0 hf)

/-- Being well formed is a preserved property. -/
theorem preserved_allOk : Preserved AllOk where
  emit := allOk_emit_event
  access := fun st fuel caller_mc name cb itf h =>
    allOk_access_module st fuel caller_mc name cb itf h
  unload := allOk_unload_module_u
  load := allOk_load_module
  clear_modified := fun _ h => h
  clear_requests := fun _ h => h

/-- In every reachable host state every loaded container is well formed: a
worker that runs and is not asked to stop has a module. -/
theorem reachable_containers_ok (st : CState) (h : HostReachable st) : AllOk st := by
  induction h with
  | empty => intro k c hk; simp [smap_find] at hk
  | load_module env st info _ ih => exact allOk_load_module env st info ih
  | load_module_direct_u env st m name _ ih => exact allOk_load_module_direct_u env st m name ih
  | unload_module_u env st name _ ih => exact allOk_unload_module_u env st name ih
  | handle_events env st _ ih => exact preserved_handle_events preserved_allOk env st ih
  | unload_module st name _ ih =>
    unfold CState.unload_module
    split
    · exact ih
    · exact ih
  | reload_module st info _ ih => exact ih
  | reload_module_name st name _ ih =>
    unfold CState.reload_module_name
    split
    · exact ih
    · exact ih
  | sub_event type_bits st st1 module type _ hs ih =>
    unfold AllOk
    rw [(sub_event_registry type_bits st st1 module type hs).1]
    exact ih
  | emit_event st event _ ih => exact allOk_emit_event st event ih
  | access_module st fuel caller_mc name cb itf _ ih =>
    exact allOk_access_module st fuel caller_mc name cb itf ih
  | shutdown st exit_status reason _ ih =>
    unfold CState.shutdown
    split
    · exact ih
    · exact ih
  | modified st name _ ih => exact ih
  | worker_iteration st st1 name ev _ hw ih => exact allOk_worker_iteration st st1 name ev hw ih
  | thread_request_stop st _ ih => exact allOk_thread_request_stop st ih

/-! ## What a normal return of `access_module` means -/

/-- When `execute_direct_cb`, with nothing interfering, returns on a
well-formed container, the worker has called the callback: the trace has
grown by exactly that call, and the exception handed back is the one the
callback raised. -/
theorem execute_direct_cb_ok_trace (mc mc1 : ModuleContainer) (cb : Callback)
    (caller_mc : Option ModuleContainer) (r : Option Exn)
    (hok : ContainerOk mc)
    (h : mc.execute_direct_cb cb caller_mc Interference.nothing = (Res.ok r, mc1)) :
    mc1.trace = mc.trace ++ [Call.direct cb] ∧ r = cb.raises := by
  unfold ModuleContainer.execute_direct_cb at h
  by_cases hself : mc.is_this caller_mc = true
  · simp [hself] at h
  · by_cases hfree : mc.direct_cb_free_sem = 0
    · simp [hself, ModuleContainer.edc_acquire, hfree] at h
    · cases ht : mc.thread with
      | none => simp [hself, ModuleContainer.edc_acquire, hfree, ModuleContainer.edc_check, ht] at h
      | some t =>
        by_cases hstop : t.stop_requested = true
        · simp [hself, ModuleContainer.edc_acquire, hfree, ModuleContainer.edc_check, ht, hstop] at h
        · obtain ⟨m, hm1⟩ := Option.isSome_iff_exists.mp (hok t ht (by simpa using hstop))
          simp [hself, ModuleContainer.edc_acquire, hfree, ModuleContainer.edc_check, ht, hstop,
            Interference.apply, ModuleContainer.edc_park, ModuleThread.run_iteration,
            ModuleThread.w_wait, ModuleThread.w_grab, ModuleThread.handle_direct_cb, hm1,
            ModuleContainer.edc_wait, ModuleContainer.edc_release] at h
          obtain ⟨hr, hmc⟩ := h
          subst hmc
          exact ⟨rfl, hr.symm⟩

/-- C8, as stated, fails: at server teardown the worker of `A` is inside its
module destructor and calls `access_module("C", cb)` for a module `C` that is
not loaded; the call returns true and the host state is unchanged, so `cb`
was not run on any module and nothing was raised. -/
theorem destructor_caller_gets_true_without_call :
    (ex_container ex_host_teardown "A").executing_module_destructor = true ∧
    smap_find ex_host_teardown.m_modules "C" = none ∧
    ex_host_teardown.access_module 5 (some (ex_container ex_host_teardown "A")) "C" ex_cb
        Interference.nothing = (Res.ok true, ex_host_teardown) := by
  decide

/-- C8, amended: in every reachable host state, for a caller that is not
running its module destructor and with no stop requested on the target while
the callback is parked, whenever `access_module(name, cb)` returns true the
target is loaded, only its container has changed, and `cb` has been run
exactly once on it by its worker (the trace of the target has grown by
exactly that call) without raising.  Hence for such a caller a call whose
`cb` was not run does not return true. -/
theorem access_module_true_means_called_once (st st1 : CState) (fuel : Nat)
    (caller_mc : Option ModuleContainer) (name : String) (cb : Callback)
    (hreach : HostReachable st)
    (hd : CState.in_destructor caller_mc = false)
    (h : st.access_module fuel caller_mc name cb Interference.nothing = (Res.ok true, st1)) :
    ∃ mc mc1, smap_find st.m_modules name = some mc ∧
      st1 = { st with m_modules := smap_set st.m_modules name mc1 } ∧
      mc1.trace = mc.trace ++ [Call.direct cb] ∧ cb.raises = none := by
  unfold CState.access_module at h
  have htry : st.access_module_try fuel caller_mc name cb Interference.nothing =
      (Res.ok (), st1) := by
    rcases hres : st.access_module_try fuel caller_mc name cb Interference.nothing with ⟨r, s⟩
    rw [hres] at h
    cases r with
    | ok u => simp at h; rw [h]
    | threw e => simp [hd] at h
    | blocked => simp at h
    | null_deref => simp at h
    | no_fuel => simp at h
  unfold CState.access_module_try at htry
  cases hfind : smap_find st.m_modules name with
  | none => simp [hfind] at htry
  | some mc =>
    rw [hfind] at htry
    simp only at htry
    split at htry
    · simp at htry
    · simp at htry
    · rcases hex : mc.execute_direct_cb cb caller_mc Interference.nothing with ⟨r, mc1⟩
      rw [hex] at htry
      cases r with
      | ok o =>
        cases o with
        | some e => simp at htry
        | none =>
          simp at htry
          obtain ⟨htr, hr⟩ := execute_direct_cb_ok_trace mc mc1 cb caller_mc none
            (reachable_containers_ok st hreach name mc hfind) hex
          exact ⟨mc, mc1, rfl, htry.symm, htr, hr.symm⟩
      | threw e => simp at htry
      | blocked => simp at htry
      | null_deref => simp at htry
      | no_fuel => simp at htry

/-- Witness of the amended C8: `A` calls its dependency `B`. -/
theorem access_module_true_means_called_once_witness :
    (HostReachable ex_host_AB ∧
     CState.in_destructor (some (ex_container ex_host_AB "A")) = false ∧
     ex_host_AB.access_module 5 (some (ex_container ex_host_AB "A")) "B" ex_cb
        Interference.nothing =
       (Res.ok true, (ex_host_AB.access_module 5 (some (ex_container ex_host_AB "A")) "B" ex_cb
        Interference.nothing).2)) ∧
    ∃ mc mc1, smap_find ex_host_AB.m_modules "B" = some mc ∧
      (ex_host_AB.access_module 5 (some (ex_container ex_host_AB "A")) "B" ex_cb
        Interference.nothing).2 =
        { ex_host_AB with m_modules := smap_set ex_host_AB.m_modules "B" mc1 } ∧
      mc1.trace = mc.trace ++ [Call.direct ex_cb] ∧ ex_cb.raises = none :=
  ⟨⟨HostReachable.load_module _ _ _ (HostReachable.load_module _ _ _ HostReachable.empty),
    by decide, by decide⟩,
   access_module_true_means_called_once ex_host_AB _ 5 (some (ex_container ex_host_AB "A")) "B"
     ex_cb (HostReachable.load_module _ _ _ (HostReachable.load_module _ _ _ HostReachable.empty))
     (by decide) (by decide)⟩

/-! ## Subscriptions -/

/-- The resize step of `sub_event` adds empty lists only. -/
theorem sub_event_resize_mem (l : List (List Nat)) (n : Nat) (x : List Nat)
    (hx : x ∈ (if l.length ≤ n then l ++ List.replicate (n - l.length) [] else l)) :
    x ∈ l ∨ x = [] := by
  split at hx
  · rw [List.mem_append] at hx
    rcases hx with hx | hx
    · exact Or.inl hx
    · exact Or.inr (List.eq_of_mem_replicate hx)
  · exact Or.inl hx

/-- What `sub_event` does for a known module when it returns: only the
subscriber lists change; afterwards the list of `type` exists and holds the
container. -/
theorem sub_event_some (type_bits : Nat) (st st1 : CState) (module : Option Nat) (type : Nat)
    (p : String × ModuleContainer)
    (hfind : st.m_modules.find? (fun p => p.2.module.map (fun m => m.addr) == module) = some p)
    (hs : st.sub_event type_bits module type = some st1) :
    ∃ X, st1 = { st with m_event_subs := X } ∧ type < X.length ∧
      p.2.addr ∈ X.getD type [] ∧
      ((∀ l, l ∈ st.m_event_subs → l.Nodup) → ∀ l, l ∈ X → l.Nodup) := by
  unfold CState.sub_event at hs
  rw [hfind] at hs
  simp only at hs
  have hmem := sub_event_resize_mem st.m_event_subs ((type + 1) % 2 ^ type_bits)
  generalize (if st.m_event_subs.length ≤ (type + 1) % 2 ^ type_bits then
    st.m_event_subs ++
      List.replicate ((type + 1) % 2 ^ type_bits - st.m_event_subs.length) []
    else st.m_event_subs) = subs at hs hmem
  have hnd : (∀ l, l ∈ st.m_event_subs → l.Nodup) → ∀ l, l ∈ subs → l.Nodup := by
    intro h l hl
    rcases hmem l hl with h1 | h1
    · exact h l h1
    · rw [h1]; exact List.nodup_nil
  by_cases hout : subs.length ≤ type
  · rw [if_pos hout] at hs
    cases hs
  · rw [if_neg hout] at hs
    have hlen : type < subs.length := by omega
    by_cases hany : (subs.getD type []).any (fun a => a == p.2.addr) = true
    · rw [if_pos hany, Option.some.injEq] at hs
      refine ⟨subs, hs.symm, hlen, ?_, hnd⟩
      simpa using hany
    · rw [if_neg hany, Option.some.injEq] at hs
      refine ⟨subs.set type (subs.getD type [] ++ [p.2.addr]), hs.symm, ?_, ?_, ?_⟩
      · simpa using hlen
      · simp [List.getD_eq_getElem?_getD, List.getElem?_set, hlen]
      · intro h l hl
        rcases List.mem_or_eq_of_mem_set hl with h1 | h1
        · exact hnd h l h1
        · rw [h1]
          have hno : p.2.addr ∉ subs.getD type [] := by simpa using hany
          refine List.Nodup.append ?_ (List.nodup_singleton _) ?_
          · rw [List.getD_eq_getElem?_getD, List.getElem?_eq_getElem hlen]
            exact hnd h _ (List.getElem_mem _)
          · simpa using hno

/-- An emission keeps the subscriber lists. -/
theorem emit_event_subs (st : CState) (e : Event) :
    (st.emit_event e).m_event_subs = st.m_event_subs := by
  unfold CState.emit_event
  split <;> rfl

/-- A direct call keeps the subscriber lists. -/
theorem access_module_subs (st : CState) (fuel : Nat) (caller_mc : Option ModuleContainer)
    (name : String) (cb : Callback) (itf : Interference) :
    (st.access_module fuel caller_mc name cb itf).2.m_event_subs = st.m_event_subs := by
  rw [access_module_snd]
  rcases access_module_try_state st fuel caller_mc name cb itf with h | ⟨mc, _, h⟩ <;> rw [h]

/-- Method `load_module` keeps the subscriber lists. -/
theorem load_module_subs (env : HostEnv) (st : CState) (info : ModuleInfo) :
    (CState.load_module env st info).2.m_event_subs = st.m_event_subs := by
  unfold CState.load_module
  split
  · rfl
  · simp only
    split
    · rfl
    · split
      · exact emit_event_subs _ _
      · split
        · exact emit_event_subs _ _
        all_goals rfl

/-- Method `load_module_direct_u` keeps the subscriber lists. -/
theorem load_module_direct_u_subs (env : HostEnv) (st : CState) (m : Option Module)
    (name : String) :
    (CState.load_module_direct_u env st m name).2.m_event_subs = st.m_event_subs := rfl

/-- Method `unload_module_u` removes the container of the name from every
subscriber list and keeps the rest in order. -/
theorem unload_module_u_subs (env : HostEnv) (st : CState) (name : String)
    (mc : ModuleContainer) (h : smap_find st.m_modules name = some mc) :
    (CState.unload_module_u env st name).m_event_subs =
      st.m_event_subs.map (fun sublist => sublist.filter (fun a => a != mc.addr)) := by
  unfold CState.unload_module_u
  rw [h]
  exact emit_event_subs _ _

/-- Having no double subscription is a preserved property. -/
theorem preserved_subsNodup : Preserved SubsNodup where
  emit := fun st e h => by unfold SubsNodup; rw [emit_event_subs]; exact h
  access := fun st fuel caller_mc name cb itf h => by
    unfold SubsNodup; rw [access_module_subs]; exact h
  unload := fun env st name h => by
    cases hf : smap_find st.m_modules name with
    | none =>
      have : CState.unload_module_u env st name = st := by
        unfold CState.unload_module_u; rw [hf]
      rw [this]; exact h
    | some mc =>
      unfold SubsNodup
      rw [unload_module_u_subs env st name mc hf]
      intro l hl
      rw [List.mem_map] at hl
      obtain ⟨l0, hl0, rfl⟩ := hl
      exact (h l0 hl0).filter _
  load := fun env st info h => by unfold SubsNodup; rw [load_module_subs]; exact h
  clear_modified := fun _ h => h
  clear_requests := fun _ h => h

/-- In every reachable host state no subscriber list holds a container
twice. -/
theorem reachable_subsNodup (st : CState) (h : HostReachable st) : SubsNodup st := by
  induction h with
  | empty => intro l hl; simp at hl
  | load_module env st info _ ih => exact preserved_subsNodup.load env st info ih
  | load_module_direct_u env st m name _ ih => exact ih
  | unload_module_u env st name _ ih => exact preserved_subsNodup.unload env st name ih
  | handle_events env st _ ih => exact preserved_handle_events preserved_subsNodup env st ih
  | unload_module st name _ ih =>
    unfold CState.unload_module
    split
    · exact ih
    · exact ih
  | reload_module st info _ ih => exact ih
  | reload_module_name st name _ ih =>
    unfold CState.reload_module_name
    split
    · exact ih
    · exact ih
  | sub_event type_bits st st1 module type _ hs ih =>
    cases hfind : st.m_modules.find? (fun p => p.2.module.map (fun m => m.addr) == module) with
    | none =>
      have h : st1 = st := by
        unfold CState.sub_event at hs
        rw [hfind] at hs
        exact (Option.some.inj hs).symm
      rw [h]
      exact ih
    | some p =>
      obtain ⟨X, hX, _, _, hnd⟩ := sub_event_some type_bits st st1 module type p hfind hs
      rw [hX]
      exact hnd ih
  | emit_event st event _ ih => exact preserved_subsNodup.emit st event ih
  | access_module st fuel caller_mc name cb itf _ ih =>
    exact preserved_subsNodup.access st fuel caller_mc name cb itf ih
  | shutdown st exit_status reason _ ih =>
    unfold CState.shutdown
    split
    · exact ih
    · exact ih
  | modified st name _ ih => exact ih
  | worker_iteration st st1 name ev _ hw ih =>
    obtain ⟨_, _, _, _, _, _, _, hs, _⟩ := worker_iteration_spec st st1 name ev hw
    unfold SubsNodup
    rw [hs]
    exact ih
  | thread_request_stop st _ ih => exact ih

/-- A successful lookup returns an entry of the map. -/
theorem smap_find_mem {α : Type} (m : List (String × α)) (k : String) (v : α)
    (h : smap_find m k = some v) : (k, v) ∈ m := by
  induction m with
  | nil => simp [smap_find] at h
  | cons p r ih =>
    obtain ⟨k0, v0⟩ := p
    by_cases h0 : k0 = k
    · simp [smap_find, h0] at h
      simp [h0, h]
    · simp [smap_find, h0] at h
      exact List.mem_cons_of_mem _ (ih h)

/-- The container found under a name after an event was pushed to a list of
subscribers. -/
theorem smap_find_push_all_value (e : Event) (k : String) :
    ∀ (subs : List Nat) (m : List (String × ModuleContainer)),
      smap_find (subs.foldl (fun ms addr => CState.push_to ms addr e) m) k =
        (smap_find m k).map (fun c =>
          subs.foldl (fun c a => if c.addr = a then c.push_event e else c) c) := by
  intro subs
  induction subs with
  | nil => intro m; simp
  | cons a rest ih =>
    intro m
    rw [List.foldl_cons, ih]
    have hk3 : smap_find (CState.push_to m a e) k =
        (smap_find m k).map (fun c => if c.addr = a then c.push_event e else c) :=
      @smap_find_map_values ModuleContainer
        (fun c => if c.addr = a then c.push_event e else c) m k
    rw [hk3]
    cases smap_find m k <;> simp

/-- Pushing to a list of addresses that does not hold the address of the
container leaves it alone. -/
theorem push_all_not_mem (e : Event) :
    ∀ (subs : List Nat) (c : ModuleContainer), c.addr ∉ subs →
      subs.foldl (fun c a => if c.addr = a then c.push_event e else c) c = c := by
  intro subs
  induction subs with
  | nil => intro c _; rfl
  | cons a rest ih =>
    intro c hc
    rw [List.foldl_cons]
    have h1 : c.addr ≠ a := fun h => hc (by simp [h])
    rw [if_neg h1]
    exact ih c (fun h => hc (List.mem_cons_of_mem _ h))

/-- Pushing to a list of addresses that holds the address of the container
once pushes the event once. -/
theorem push_all_mem (e : Event) :
    ∀ (subs : List Nat) (c : ModuleContainer), subs.Nodup → c.addr ∈ subs →
      subs.foldl (fun c a => if c.addr = a then c.push_event e else c) c = c.push_event e := by
  intro subs
  induction subs with
  | nil => intro c _ hc; simp at hc
  | cons a rest ih =>
    intro c hnd hc
    rw [List.foldl_cons]
    rw [List.nodup_cons] at hnd
    by_cases h1 : c.addr = a
    · rw [if_pos h1]
      exact push_all_not_mem e rest _ (by
        show (c.push_event e).addr ∉ rest
        have : (c.push_event e).addr = c.addr := rfl
        rw [this, h1]; exact hnd.1)
    · rw [if_neg h1]
      refine ih c hnd.2 ?_
      rcases List.mem_cons.mp hc with h | h
      · exact absurd h h1
      · exact h

/-- What an asynchronous emission does to a loaded container: with no double
subscription, a subscriber of the type gets the event pushed once, any other
container is left alone. -/
theorem emit_event_container (st : CState) (e : Event) (hnd : SubsNodup st) (k : String)
    (c : ModuleContainer) (hk : smap_find st.m_modules k = some c) :
    smap_find (st.emit_event e).m_modules k =
      some (if c.addr ∈ st.m_event_subs.getD e.type [] then c.push_event e else c) := by
  unfold CState.emit_event
  by_cases hlen : st.m_event_subs.length ≤ e.type
  · rw [if_pos hlen]
    have : st.m_event_subs.getD e.type [] = [] := by
      rw [List.getD_eq_getElem?_getD, List.getElem?_eq_none hlen]; rfl
    rw [this]
    simpa using hk
  · rw [if_neg hlen]
    show smap_find ((st.m_event_subs.getD e.type []).foldl
      (fun ms addr => CState.push_to ms addr e) st.m_modules) k = _
    rw [smap_find_push_all_value, hk]
    have hnd1 : (st.m_event_subs.getD e.type []).Nodup := by
      rw [List.getD_eq_getElem?_getD, List.getElem?_eq_getElem (by omega)]
      exact hnd _ (List.getElem_mem _)
    by_cases hm : c.addr ∈ st.m_event_subs.getD e.type []
    · rw [if_pos hm]
      simp only [Option.map_some']
      rw [push_all_mem e _ c hnd1 hm]
    · rw [if_neg hm]
      simp only [Option.map_some']
      rw [push_all_not_mem e _ c hm]

/-- One iteration of a running worker with an empty slot and one queued
event: the event is popped and handed to the module. -/
theorem run_iteration_one_event (c : ModuleContainer) (e : Event) (ev : Event → Option String)
    (t : Thread) (m : Module) (ht : c.thread = some t) (hs : t.stop_requested = false)
    (hm : c.module = some m) (hcb : c.direct_cb = none) (hq : c.event_queue = [e])
    (hsem : c.event_queue_sem ≠ 0) :
    ∃ it, ModuleThread.run_iteration c ev = some it ∧
      it.mc.event_queue = [] ∧ it.mc.trace = c.trace ++ [Call.event e] ∧
      it.shutdown = (ev e).map (fun w => (1, "M[" ++ c.info.name ++ "]->event() failed: " ++ w)) := by
  refine ⟨_, by
    simp [ModuleThread.run_iteration, ht, ModuleThread.w_wait, hs, hsem,
      ModuleThread.w_grab, hcb, hq, ModuleThread.handle_event, hm]
    rfl, ?_, ?_, ?_⟩
  all_goals simp [ModuleThread.handle_event, hm]

/-- An iteration of the worker of a loaded container, seen from the host: the
container is replaced by the one the iteration leaves, the others stay. -/
theorem worker_iteration_at (st : CState) (k : String) (ev : Event → Option String)
    (c : ModuleContainer) (it : ModuleThread.Iteration)
    (hf : smap_find st.m_modules k = some c) (hr : ModuleThread.run_iteration c ev = some it) :
    ∃ st1, st.worker_iteration k ev = some st1 ∧
      smap_find st1.m_modules k = some it.mc ∧
      ∀ k1, k1 ≠ k → smap_find st1.m_modules k1 = smap_find st.m_modules k1 := by
  have hex : ∃ st1, st.worker_iteration k ev = some st1 := by
    unfold CState.worker_iteration
    rw [hf]
    simp only [hr]
    cases it.shutdown with
    | none => exact ⟨_, rfl⟩
    | some xr => exact ⟨_, rfl⟩
  obtain ⟨st1, h1⟩ := hex
  obtain ⟨c1, it1, hf1, hr1, hm, _⟩ := worker_iteration_spec st st1 k ev h1
  rw [hf] at hf1
  cases hf1
  rw [hr] at hr1
  cases hr1
  refine ⟨st1, h1, ?_, fun k1 hk1 => ?_⟩
  · rw [hm, smap_find_set, if_pos rfl]
  · rw [hm, smap_find_set, if_neg (fun h => hk1 h.symm)]

/-- One iteration on each of the named containers, each of which runs, has an
empty slot and the event `e` alone in its queue: every iteration takes place,
the named containers end with an empty queue and one more call, the event
`e`; the other containers are not touched. -/
theorem worker_iterations_one_event (ev : Event → Option String) (e : Event) :
    ∀ (names : List String) (st : CState), names.Nodup →
      (∀ k, k ∈ names → ∃ c t m, smap_find st.m_modules k = some c ∧ c.thread = some t ∧
        t.stop_requested = false ∧ c.module = some m ∧ c.direct_cb = none ∧
        c.event_queue = [e] ∧ c.event_queue_sem ≠ 0) →
      ∃ st2, CState.worker_iterations ev st names = some st2 ∧
        (∀ k, k ∉ names → smap_find st2.m_modules k = smap_find st.m_modules k) ∧
        (∀ k, k ∈ names → ∀ c, smap_find st.m_modules k = some c →
          ∃ c2, smap_find st2.m_modules k = some c2 ∧ c2.event_queue = [] ∧
            c2.trace = c.trace ++ [Call.event e]) := by
  intro names
  induction names with
  | nil =>
    intro st _ _
    exact ⟨st, rfl, fun _ _ => rfl, fun k hk => by simp at hk⟩
  | cons k0 rest ih =>
    intro st hnd hready
    rw [List.nodup_cons] at hnd
    obtain ⟨c0, t0, m0, hf0, ht0, hs0, hm0, hcb0, hq0, hsem0⟩ :=
      hready k0 (List.mem_cons_self _ _)
    obtain ⟨it, hit, hitq, hitt, _⟩ :=
      run_iteration_one_event c0 e ev t0 m0 ht0 hs0 hm0 hcb0 hq0 hsem0
    obtain ⟨st1, hw, hk0, hothers⟩ := worker_iteration_at st k0 ev c0 it hf0 hit
    have hne : ∀ k, k ∈ rest → k ≠ k0 := fun k hk h => hnd.1 (h ▸ hk)
    obtain ⟨st2, hrun, hout, hin⟩ := ih st1 hnd.2 (fun k hk => by
      rw [hothers k (hne k hk)]
      exact hready k (List.mem_cons_of_mem _ hk))
    refine ⟨st2, ?_, ?_, ?_⟩
    · show (match st.worker_iteration k0 ev with
        | none => none
        | some st1 => CState.worker_iterations ev st1 rest) = some st2
      rw [hw]
      exact hrun
    · intro k hk
      rw [List.mem_cons, not_or] at hk
      rw [hout k hk.2, hothers k hk.1]
    · intro k hk c hc
      by_cases hkk : k = k0
      · subst hkk
        rw [hf0] at hc
        cases hc
        exact ⟨it.mc, by rw [hout k hnd.1, hk0], hitq, hitt⟩
      · have hkr : k ∈ rest := by
          rcases List.mem_cons.mp hk with h | h
          · exact absurd h hkk
          · exact h
        exact hin k hkr c (by rw [hothers k hkk]; exact hc)

/-- C11: in a reachable host in which every subscriber of `e.type` runs a
worker that is not asked to stop and has an empty event queue and an empty
direct-callback slot, an asynchronous `emit_event(e)` followed by one worker
iteration on each subscriber (`names` lists them, each once) goes through;
afterwards every subscriber has an empty queue and its module has received
exactly one more call, `event(e)`, and every other container is as it was. -/
theorem emit_event_then_one_iteration_each (st : CState) (e : Event)
    (ev : Event → Option String) (names : List String)
    (hr : HostReachable st) (hnames : names.Nodup)
    (hsubs : ∀ k, k ∈ names ↔
      ∃ c, smap_find st.m_modules k = some c ∧ c.addr ∈ st.m_event_subs.getD e.type [])
    (hquiet : ∀ k c, smap_find st.m_modules k = some c →
      c.addr ∈ st.m_event_subs.getD e.type [] →
      c.event_queue = [] ∧ c.direct_cb = none ∧
      ∃ t, c.thread = some t ∧ t.stop_requested = false) :
    ∃ st2, CState.worker_iterations ev (st.emit_event e) names = some st2 ∧
      ∀ k c, smap_find st.m_modules k = some c →
        ∃ c2, smap_find st2.m_modules k = some c2 ∧
          (c.addr ∈ st.m_event_subs.getD e.type [] →
            c2.event_queue = [] ∧ c2.trace = c.trace ++ [Call.event e]) ∧
          (c.addr ∉ st.m_event_subs.getD e.type [] → c2 = c) := by
  have hnd := reachable_subsNodup st hr
  have hok := reachable_containers_ok st hr
  obtain ⟨st2, hrun, hout, hin⟩ := worker_iterations_one_event ev e names (st.emit_event e)
    hnames (fun k hk => by
      obtain ⟨c, hc, hmem⟩ := (hsubs k).mp hk
      obtain ⟨hq, hcb, t, ht, hs⟩ := hquiet k c hc hmem
      have hmod := hok k c hc t ht hs
      obtain ⟨m, hm⟩ := Option.isSome_iff_exists.mp hmod
      refine ⟨c.push_event e, t, m, ?_, ht, hs, hm, hcb, ?_, ?_⟩
      · rw [emit_event_container st e hnd k c hc, if_pos hmem]
      · show c.event_queue ++ [e] = [e]
        rw [hq]; rfl
      · show c.event_queue_sem + 1 ≠ 0
        omega)
  refine ⟨st2, hrun, fun k c hc => ?_⟩
  by_cases hmem : c.addr ∈ st.m_event_subs.getD e.type []
  · have hk : k ∈ names := (hsubs k).mpr ⟨c, hc, hmem⟩
    obtain ⟨c2, hc2, hq2, ht2⟩ := hin k hk (c.push_event e)
      (by rw [emit_event_container st e hnd k c hc, if_pos hmem])
    exact ⟨c2, hc2, fun _ => ⟨hq2, ht2⟩, fun h => absurd hmem h⟩
  · have hk : k ∉ names := fun h => by
      obtain ⟨c1, hc1, hmem1⟩ := (hsubs k).mp h
      rw [hc] at hc1
      cases hc1
      exact hmem hmem1
    refine ⟨c, ?_, fun h => absurd h hmem, fun _ => rfl⟩
    rw [hout k hk, emit_event_container st e hnd k c hc, if_neg hmem]

/-- Witness of C11 on the example host in which `A` is the one subscriber of
event type 3: after the emission and one iteration of the worker of `A`, the
module of `A` got the event and `B` is as it was. -/
theorem emit_event_then_one_iteration_each_witness :
    HostReachable ex_host_sub ∧
    ∃ st2, CState.worker_iterations (fun _ => none) (ex_host_sub.emit_event { type := 3 })
        ["A"] = some st2 ∧
      ∀ k c, smap_find ex_host_sub.m_modules k = some c →
        ∃ c2, smap_find st2.m_modules k = some c2 ∧
          (c.addr ∈ ex_host_sub.m_event_subs.getD 3 [] →
            c2.event_queue = [] ∧ c2.trace = c.trace ++ [Call.event { type := 3 }]) ∧
          (c.addr ∉ ex_host_sub.m_event_subs.getD 3 [] → c2 = c) :=
  have hreach : HostReachable ex_host_sub :=
    HostReachable.sub_event 64 ex_host_AB ex_host_sub (some 165) 3
      (HostReachable.load_module _ _ _ (HostReachable.load_module _ _ _ HostReachable.empty))
      (by decide)
  have hall : ∀ p, p ∈ ex_host_sub.m_modules → p.2.addr ∈ ex_host_sub.m_event_subs.getD 3 [] →
      p.1 ∈ ["A"] ∧ p.2.event_queue = [] ∧ p.2.direct_cb = none ∧
      p.2.thread = some { stop_requested := false } := by decide
  ⟨hreach,
   emit_event_then_one_iteration_each ex_host_sub { type := 3 } (fun _ => none) ["A"] hreach
     (by decide)
     (fun k => ⟨fun hk => by
        rw [List.mem_singleton] at hk
        subst hk
        exact ⟨ex_container ex_host_sub "A", by decide, by decide⟩,
      fun ⟨c, hc, hmem⟩ => (hall (k, c) (smap_find_mem _ k c hc) hmem).1⟩)
     (fun k c hc hmem =>
       ⟨(hall (k, c) (smap_find_mem _ k c hc) hmem).2.1,
        (hall (k, c) (smap_find_mem _ k c hc) hmem).2.2.1,
        _, (hall (k, c) (smap_find_mem _ k c hc) hmem).2.2.2, rfl⟩)⟩

/-! ## Loading a module -/

/-- A direct call on a container whose worker runs and is not asked to stop,
with the semaphore free and nothing interfering: the worker calls the callback
on the module, the caller gets what the callback raised, and the container is
as before but for the call in its trace and an empty slot. -/
theorem execute_direct_cb_runs (mc : ModuleContainer) (cb : Callback)
    (caller_mc : Option ModuleContainer) (t : Thread) (m : Module)
    (hself : mc.is_this caller_mc = false) (hfree : mc.direct_cb_free_sem ≠ 0)
    (ht : mc.thread = some t) (hs : t.stop_requested = false) (hm : mc.module = some m) :
    mc.execute_direct_cb cb caller_mc Interference.nothing =
      (Res.ok cb.raises,
        { mc with
          direct_cb := none
          direct_cb_exception := none
          trace := mc.trace ++ [Call.direct cb] }) := by
  obtain ⟨a, mo, inf, th, dcb, dex, q, qs, xs, fs, dd, tr⟩ := mc
  simp only at hfree ht hm
  subst ht hm
  have h1 : fs - 1 + 1 = fs := by omega
  simp [ModuleContainer.execute_direct_cb, hself, ModuleContainer.edc_acquire, hfree,
    ModuleContainer.edc_check, hs, ModuleContainer.edc_park, Interference.apply,
    ModuleThread.run_iteration, ModuleThread.w_wait, ModuleThread.w_grab,
    ModuleThread.handle_direct_cb, ModuleContainer.edc_wait, ModuleContainer.edc_release, h1]

/-- Method `init_and_start_thread` on a fresh container with a module whose
name is the one of the info: the outcome is what `init` raises. -/
theorem init_and_start_thread_fresh (addr : Nat) (m : Module) (info : ModuleInfo)
    (init : Callback) (hname : m.m_module_name = info.name) :
    ∃ mc1, (ModuleContainer.create addr (some m) info).init_and_start_thread init =
      ((match init.raises with
        | some e => Res.threw e
        | none => Res.ok ()), mc1) := by
  unfold ModuleContainer.init_and_start_thread
  have hk := execute_direct_cb_runs
    { ModuleContainer.create addr (some m) info with thread := some {} } init none {} m
    rfl (by simp [ModuleContainer.create]) rfl rfl rfl
  simp only [ModuleContainer.create] at hk ⊢
  simp only [hname, ne_eq, not_true_eq_false, if_false, Option.isSome_none, Bool.false_eq_true]
  rw [hk]
  cases init.raises with
  | none => exact ⟨_, rfl⟩
  | some e => exact ⟨_, rfl⟩

/-- Method `init_and_start_thread` on a container whose module has another
name than the info raises before anything is started. -/
theorem init_and_start_thread_mismatch (addr : Nat) (m : Module) (info : ModuleInfo)
    (init : Callback) (hname : info.name ≠ m.m_module_name) :
    ∃ msg, (ModuleContainer.create addr (some m) info).init_and_start_thread init =
      (Res.threw (Exn.Exception msg), ModuleContainer.create addr (some m) info) := by
  unfold ModuleContainer.init_and_start_thread
  simp only [ModuleContainer.create] at hname ⊢
  rw [if_pos hname]
  exact ⟨_, rfl⟩

/-- An emission keeps the keys of the registry. -/
theorem emit_event_keys (st : CState) (e : Event) (k : String) :
    (smap_find (st.emit_event e).m_modules k).isSome = (smap_find st.m_modules k).isSome := by
  unfold CState.emit_event
  split
  · rfl
  · exact smap_find_push_all _ e k _

/-- An emission changes the queues of containers and the emission history
only. -/
theorem emit_event_frame (st : CState) (e : Event) :
    (st.emit_event e).m_module_info = st.m_module_info ∧
    (st.emit_event e).m_module_load_order = st.m_module_load_order ∧
    (st.emit_event e).emitted = st.emitted ++ [e] := by
  unfold CState.emit_event
  split <;> exact ⟨rfl, rfl, rfl⟩

/-- Method `load_module` for a name that is loaded. -/
theorem load_module_of_loaded (env : HostEnv) (st : CState) (info : ModuleInfo)
    (h : (smap_find st.m_modules info.name).isSome = true) :
    CState.load_module env st info = (Res.ok false, st) := by
  unfold CState.load_module
  rw [if_pos h]

/-- Method `load_module` when the build gives no module. -/
theorem load_module_of_build_failed (env : HostEnv) (st : CState) (info : ModuleInfo)
    (h : (smap_find st.m_modules info.name).isSome = false)
    (hcpp : info.meta.disable_cpp = false) (hb : env.build info = none) :
    CState.load_module env st info =
      (Res.ok false, { st with m_module_info := smap_set st.m_module_info info.name info }) := by
  unfold CState.load_module
  simp [h, hcpp, hb]

/-- Method `load_module` for a module without native code. -/
theorem load_module_of_disable_cpp (env : HostEnv) (st : CState) (info : ModuleInfo)
    (h : (smap_find st.m_modules info.name).isSome = false)
    (hcpp : info.meta.disable_cpp = true) :
    CState.load_module env st info =
      (Res.ok true,
        CState.emit_event
          { st with
            m_module_info := smap_set st.m_module_info info.name info
            m_modules := smap_set st.m_modules info.name
              (ModuleContainer.create st.next_addr none info)
            m_module_load_order := st.m_module_load_order ++ [info.name]
            next_addr := st.next_addr + 1 }
          { type := env.t "core:module_loaded", p := Payload.ModuleLoadedEvent info.name }) := by
  unfold CState.load_module
  simp [h, hcpp]

/-- Method `load_module` for a module that was built: the outcome follows
`init_and_start_thread`. -/
theorem load_module_of_built (env : HostEnv) (st : CState) (info : ModuleInfo) (m : Module)
    (h : (smap_find st.m_modules info.name).isSome = false)
    (hcpp : info.meta.disable_cpp = false) (hb : env.build info = some m) :
    (((ModuleContainer.create st.next_addr (some m) info).init_and_start_thread
        (env.init info.name)).1 = Res.ok () ∧
      CState.load_module env st info =
        (Res.ok true,
          CState.emit_event
            { st with
              m_module_info := smap_set st.m_module_info info.name info
              m_modules := smap_set (smap_set st.m_modules info.name
                (ModuleContainer.create st.next_addr (some m) info)) info.name
                ((ModuleContainer.create st.next_addr (some m) info).init_and_start_thread
                  (env.init info.name)).2
              m_module_load_order := st.m_module_load_order ++ [info.name]
              next_addr := st.next_addr + 1 }
            { type := env.t "core:module_loaded", p := Payload.ModuleLoadedEvent info.name })) ∨
    (((ModuleContainer.create st.next_addr (some m) info).init_and_start_thread
        (env.init info.name)).1 ≠ Res.ok () ∧
      (∀ b, (CState.load_module env st info).1 ≠ Res.ok b) ∧
      (CState.load_module env st info).2 =
        { st with
          m_module_info := smap_set st.m_module_info info.name info
          m_modules := smap_set (smap_set st.m_modules info.name
            (ModuleContainer.create st.next_addr (some m) info)) info.name
            ((ModuleContainer.create st.next_addr (some m) info).init_and_start_thread
              (env.init info.name)).2
          m_module_load_order := st.m_module_load_order ++ [info.name]
          next_addr := st.next_addr + 1 }) := by
  unfold CState.load_module
  simp only [h, Bool.false_eq_true, if_false, hcpp, hb, Bool.not_false, Option.isNone_some,
    Bool.and_false]
  generalize (ModuleContainer.create st.next_addr (some m) info).init_and_start_thread
    (env.init info.name) = res
  obtain ⟨r, mc1⟩ := res
  cases r with
  | ok u => exact Or.inl ⟨rfl, rfl⟩
  | threw e => exact Or.inr ⟨by simp, by simp, rfl⟩
  | blocked => exact Or.inr ⟨by simp, by simp, rfl⟩
  | null_deref => exact Or.inr ⟨by simp, by simp, rfl⟩
  | no_fuel => exact Or.inr ⟨by simp, by simp, rfl⟩

/-- C13, as stated, fails: the name is not loaded, native build is enabled,
the build gives a module and `init` would not raise, yet `load_module` does not
return true: the module carries another name than the info, so
`init_and_start_thread` raises, with the container already in `m_modules`
and no event emitted. -/
theorem load_module_raises_on_name_mismatch :
    (smap_find ({} : CState).m_modules (ex_info "A" []).name).isSome = false ∧
    (ex_info "A" []).meta.disable_cpp = false ∧
    (ex_env_misnamed.build (ex_info "A" [])).isSome = true ∧
    (ex_env_misnamed.init "A").raises = none ∧
    (CState.load_module ex_env_misnamed {} (ex_info "A" [])).1 =
      Res.threw (Exn.Exception ("init_and_start_thread(): Module name does not" ++
        " match: info.name=\"A\", module->m_module_name=\"A_impl\"")) ∧
    (CState.load_module ex_env_misnamed {} (ex_info "A" [])).1 ≠ Res.ok true ∧
    (smap_find (CState.load_module ex_env_misnamed {} (ex_info "A" [])).2.m_modules "A").isSome
      = true ∧
    (CState.load_module ex_env_misnamed {} (ex_info "A" [])).2.emitted = [] := by
  decide

/-- C13, amended: `load_module(info)` returns false exactly when the name is
loaded or native build is enabled and the build gives no module, and then
`m_modules`, `m_module_load_order` and the emitted events are unchanged; for a
name that is not loaded, when native build is disabled, or the built module
carries the name of the info and `init` does not raise, it returns true with
the name in `m_modules`, the info in `m_module_info`, the name appended to
`m_module_load_order` and `core:module_loaded` emitted last. -/
theorem load_module_false_iff_and_true_effects (env : HostEnv) (st : CState)
    (info : ModuleInfo) :
    ((CState.load_module env st info).1 = Res.ok false ↔
      ((smap_find st.m_modules info.name).isSome = true ∨
        (info.meta.disable_cpp = false ∧ env.build info = none))) ∧
    ((CState.load_module env st info).1 = Res.ok false →
      (CState.load_module env st info).2.m_modules = st.m_modules ∧
      (CState.load_module env st info).2.m_module_load_order = st.m_module_load_order ∧
      (CState.load_module env st info).2.emitted = st.emitted) ∧
    ((smap_find st.m_modules info.name).isSome = false →
      (info.meta.disable_cpp = true ∨
        (∃ m, env.build info = some m ∧ m.m_module_name = info.name ∧
          (env.init info.name).raises = none)) →
      (CState.load_module env st info).1 = Res.ok true ∧
      (smap_find (CState.load_module env st info).2.m_modules info.name).isSome = true ∧
      smap_find (CState.load_module env st info).2.m_module_info info.name = some info ∧
      (CState.load_module env st info).2.m_module_load_order =
        st.m_module_load_order ++ [info.name] ∧
      (CState.load_module env st info).2.emitted =
        st.emitted ++
          [{ type := env.t "core:module_loaded", p := Payload.ModuleLoadedEvent info.name }]) := by
  have hiff : (CState.load_module env st info).1 = Res.ok false ↔
      ((smap_find st.m_modules info.name).isSome = true ∨
        (info.meta.disable_cpp = false ∧ env.build info = none)) := by
    by_cases hl : (smap_find st.m_modules info.name).isSome = true
    · rw [load_module_of_loaded env st info hl]
      exact ⟨fun _ => Or.inl hl, fun _ => rfl⟩
    · have hl1 : (smap_find st.m_modules info.name).isSome = false := by simpa using hl
      cases hcpp : info.meta.disable_cpp with
      | true =>
        rw [load_module_of_disable_cpp env st info hl1 hcpp]
        simp [hl1]
      | false =>
        cases hb : env.build info with
        | none =>
          rw [load_module_of_build_failed env st info hl1 hcpp hb]
          simp
        | some m =>
          rcases load_module_of_built env st info m hl1 hcpp hb with ⟨_, h⟩ | ⟨_, h, _⟩
          · rw [h]
            simp [hl1]
          · constructor
            · intro h1
              exact absurd h1 (h false)
            · intro h1
              rcases h1 with h1 | ⟨_, h1⟩
              · exact absurd h1 hl
              · cases h1
  refine ⟨hiff, fun hfalse => ?_, fun hl1 hcase => ?_⟩
  · rcases hiff.mp hfalse with hl | ⟨hcpp, hb⟩
    · rw [load_module_of_loaded env st info hl]
      exact ⟨rfl, rfl, rfl⟩
    · by_cases hl : (smap_find st.m_modules info.name).isSome = true
      · rw [load_module_of_loaded env st info hl]
        exact ⟨rfl, rfl, rfl⟩
      · rw [load_module_of_build_failed env st info (by simpa using hl) hcpp hb]
        exact ⟨rfl, rfl, rfl⟩
  · have hfinal : ∀ (mc : ModuleContainer) (ms : List (String × ModuleContainer)),
        (smap_find ms info.name).isSome = true →
        (smap_find (CState.emit_event
            { st with
              m_module_info := smap_set st.m_module_info info.name info
              m_modules := ms
              m_module_load_order := st.m_module_load_order ++ [info.name]
              next_addr := st.next_addr + 1 }
            { type := env.t "core:module_loaded",
              p := Payload.ModuleLoadedEvent info.name }).m_modules info.name).isSome = true ∧
        smap_find (CState.emit_event
            { st with
              m_module_info := smap_set st.m_module_info info.name info
              m_modules := ms
              m_module_load_order := st.m_module_load_order ++ [info.name]
              next_addr := st.next_addr + 1 }
            { type := env.t "core:module_loaded",
              p := Payload.ModuleLoadedEvent info.name }).m_module_info info.name = some info ∧
        (CState.emit_event
            { st with
              m_module_info := smap_set st.m_module_info info.name info
              m_modules := ms
              m_module_load_order := st.m_module_load_order ++ [info.name]
              next_addr := st.next_addr + 1 }
            { type := env.t "core:module_loaded",
              p := Payload.ModuleLoadedEvent info.name }).m_module_load_order =
          st.m_module_load_order ++ [info.name] ∧
        (CState.emit_event
            { st with
              m_module_info := smap_set st.m_module_info info.name info
              m_modules := ms
              m_module_load_order := st.m_module_load_order ++ [info.name]
              next_addr := st.next_addr + 1 }
            { type := env.t "core:module_loaded",
              p := Payload.ModuleLoadedEvent info.name }).emitted =
          st.emitted ++
            [{ type := env.t "core:module_loaded",
               p := Payload.ModuleLoadedEvent info.name }] := by
      intro mc ms hms
      obtain ⟨h1, h2, h3⟩ := emit_event_frame
        { st with
          m_module_info := smap_set st.m_module_info info.name info
          m_modules := ms
          m_module_load_order := st.m_module_load_order ++ [info.name]
          next_addr := st.next_addr + 1 }
        { type := env.t "core:module_loaded", p := Payload.ModuleLoadedEvent info.name }
      refine ⟨?_, ?_, h2, h3⟩
      · rw [emit_event_keys]
        exact hms
      · rw [h1]
        simp [smap_find_set]
    rcases hcase with hcpp | ⟨m, hb, hname, hinit⟩
    · rw [load_module_of_disable_cpp env st info hl1 hcpp]
      exact ⟨rfl, hfinal (ModuleContainer.create st.next_addr none info) _
        (by simp [smap_find_set])⟩
    · cases hcpp : info.meta.disable_cpp with
      | true =>
        rw [load_module_of_disable_cpp env st info hl1 hcpp]
        exact ⟨rfl, hfinal (ModuleContainer.create st.next_addr none info) _
          (by simp [smap_find_set])⟩
      | false =>
        obtain ⟨mc1, hfresh⟩ := init_and_start_thread_fresh st.next_addr m info
          (env.init info.name) hname
        rw [hinit] at hfresh
        rcases load_module_of_built env st info m hl1 hcpp hb with ⟨_, h⟩ | ⟨h, _⟩
        · rw [h]
          exact ⟨rfl, hfinal mc1 _ (by simp [smap_find_set])⟩
        · rw [hfresh] at h
          exact absurd rfl h

/-- Witness of the amended C13: loading `A` into the empty host succeeds (third
part), and a second load is refused and changes nothing (second part). -/
theorem load_module_false_iff_and_true_effects_witness :
    ((CState.load_module ex_env {} (ex_info "A" [])).1 = Res.ok true ∧
      (CState.load_module ex_env {} (ex_info "A" [])).2.m_module_load_order = ["A"] ∧
      (CState.load_module ex_env {} (ex_info "A" [])).2.emitted =
        [{ type := 18, p := Payload.ModuleLoadedEvent "A" }]) ∧
    ((CState.load_module ex_env (CState.load_module ex_env {} (ex_info "A" [])).2
        (ex_info "A" [])).2.m_modules =
      (CState.load_module ex_env {} (ex_info "A" [])).2.m_modules) :=
  ⟨⟨((load_module_false_iff_and_true_effects ex_env {} (ex_info "A" [])).2.2 (by decide)
        (Or.inr ⟨_, rfl, by decide, by decide⟩)).1,
    ((load_module_false_iff_and_true_effects ex_env {} (ex_info "A" [])).2.2 (by decide)
        (Or.inr ⟨_, rfl, by decide, by decide⟩)).2.2.2.1,
    ((load_module_false_iff_and_true_effects ex_env {} (ex_info "A" [])).2.2 (by decide)
        (Or.inr ⟨_, rfl, by decide, by decide⟩)).2.2.2.2⟩,
   ((load_module_false_iff_and_true_effects ex_env
      (CState.load_module ex_env {} (ex_info "A" [])).2 (ex_info "A" [])).2.1 (by decide)).1⟩

/-! ## Loading a hardcoded module -/

/-- C14, as stated, fails on both counts.  On the empty host
`load_module_direct_u` for the module the build of `A` yields emits nothing,
where `load_module` emits `core:module_loaded`; and on the host where `A` is
loaded `load_module` refuses, where `load_module_direct_u` goes through,
replaces the container and appends the name to `m_module_load_order` again. -/
theorem load_module_direct_u_neither_refuses_nor_emits :
    ex_env.build { name := "A", path := "" } = some { addr := 165, m_module_name := "A" } ∧
    (CState.load_module_direct_u ex_env {} (some { addr := 165, m_module_name := "A" }) "A").1 =
      Res.ok () ∧
    (CState.load_module_direct_u ex_env {}
      (some { addr := 165, m_module_name := "A" }) "A").2.emitted = [] ∧
    (CState.load_module ex_env {} { name := "A", path := "" }).1 = Res.ok true ∧
    (CState.load_module ex_env {} { name := "A", path := "" }).2.emitted =
      [{ type := 18, p := Payload.ModuleLoadedEvent "A" }] ∧
    (CState.load_module ex_env (CState.load_module ex_env {} { name := "A", path := "" }).2
      { name := "A", path := "" }).1 = Res.ok false ∧
    (CState.load_module_direct_u ex_env
      (CState.load_module ex_env {} { name := "A", path := "" }).2
      (some { addr := 165, m_module_name := "A" }) "A").1 = Res.ok () ∧
    (CState.load_module_direct_u ex_env
      (CState.load_module ex_env {} { name := "A", path := "" }).2
      (some { addr := 165, m_module_name := "A" }) "A").2.m_module_load_order = ["A", "A"] ∧
    (smap_find (CState.load_module_direct_u ex_env
      (CState.load_module ex_env {} { name := "A", path := "" }).2
      (some { addr := 165, m_module_name := "A" }) "A").2.m_modules "A").map (fun c => c.addr) =
      some 2 ∧
    (smap_find (CState.load_module ex_env {} { name := "A", path := "" }).2.m_modules "A").map
      (fun c => c.addr) = some 1 := by
  decide

/-- C14, amended: for a name that is not loaded and a module instance `m`
that the build of the info `{name, path = ""}` yields, `load_module_direct_u`
emits nothing, and `load_module` on that info differs from it by the
emission only: when `load_module_direct_u` returns, `load_module` returns true
in the state `load_module_direct_u` leaves with `core:module_loaded` emitted on
top; when it raises, `load_module` raises the same and leaves the same state. -/
theorem load_module_direct_u_is_load_module_without_event (env : HostEnv) (st : CState)
    (m : Module) (name : String)
    (hl : (smap_find st.m_modules name).isSome = false)
    (hb : env.build { name := name, path := "" } = some m) :
    (CState.load_module_direct_u env st (some m) name).2.emitted = st.emitted ∧
    ((CState.load_module_direct_u env st (some m) name).1 = Res.ok () →
      CState.load_module env st { name := name, path := "" } =
        (Res.ok true,
          CState.emit_event (CState.load_module_direct_u env st (some m) name).2
            { type := env.t "core:module_loaded", p := Payload.ModuleLoadedEvent name })) ∧
    (∀ e, (CState.load_module_direct_u env st (some m) name).1 = Res.threw e →
      CState.load_module env st { name := name, path := "" } =
        (Res.threw e, (CState.load_module_direct_u env st (some m) name).2)) := by
  have hdir : CState.load_module_direct_u env st (some m) name =
      (((ModuleContainer.create st.next_addr (some m) { name := name, path := "" }
          ).init_and_start_thread (env.init name)).1,
        { st with
          m_module_info := smap_set st.m_module_info name { name := name, path := "" }
          m_modules := smap_set (smap_set st.m_modules name
            (ModuleContainer.create st.next_addr (some m) { name := name, path := "" })) name
            ((ModuleContainer.create st.next_addr (some m) { name := name, path := "" }
              ).init_and_start_thread (env.init name)).2
          m_module_load_order := st.m_module_load_order ++ [name]
          next_addr := st.next_addr + 1 }) := rfl
  refine ⟨rfl, fun hok => ?_, fun e he => ?_⟩
  · rcases load_module_of_built env st { name := name, path := "" } m hl rfl hb with
      ⟨_, h⟩ | ⟨h, _⟩
    · rw [h, hdir]
    · rw [hdir] at hok
      exact absurd hok h
  · rw [hdir] at he ⊢
    simp only at he ⊢
    unfold CState.load_module
    simp only [hl, Bool.false_eq_true, if_false, hb, Bool.not_false, Option.isNone_some,
      Bool.and_false]
    generalize (ModuleContainer.create st.next_addr (some m) { name := name, path := "" }
      ).init_and_start_thread (env.init name) = res at he ⊢
    obtain ⟨r, mc1⟩ := res
    simp only at he
    subst he
    rfl

/-- Witness of the amended C14 on the empty host and the module of `A`. -/
theorem load_module_direct_u_is_load_module_without_event_witness :
    (CState.load_module_direct_u ex_env {}
      (some { addr := 165, m_module_name := "A" }) "A").2.emitted = [] ∧
    CState.load_module ex_env {} { name := "A", path := "" } =
      (Res.ok true,
        CState.emit_event (CState.load_module_direct_u ex_env {}
          (some { addr := 165, m_module_name := "A" }) "A").2
          { type := 18, p := Payload.ModuleLoadedEvent "A" }) :=
  ⟨(load_module_direct_u_is_load_module_without_event ex_env {}
      { addr := 165, m_module_name := "A" } "A" (by decide) (by decide)).1,
   (load_module_direct_u_is_load_module_without_event ex_env {}
      { addr := 165, m_module_name := "A" } "A" (by decide) (by decide)).2.1 (by decide)⟩

/-! ## Reload requests -/

/-- The loop of `reload_module(info)` on a list with one entry per name: the
names stay as they are when the name of `info` is among them, else it is
appended; the entries are `info` and the old entries of other names. -/
theorem update_reload_spec (info : ModuleInfo) :
    ∀ R : List ModuleInfo, (R.map (fun j => j.name)).Nodup →
      (CState.update_reload R info).map (fun j => j.name) =
        (if info.name ∈ R.map (fun j => j.name) then R.map (fun j => j.name)
         else R.map (fun j => j.name) ++ [info.name]) ∧
      ∀ x, x ∈ CState.update_reload R info ↔ (x = info ∨ (x ∈ R ∧ x.name ≠ info.name)) := by
  intro R
  induction R with
  | nil =>
    intro _
    simp [CState.update_reload]
  | cons i0 rest ih =>
    intro hnd
    rw [List.map_cons, List.nodup_cons] at hnd
    obtain ⟨ih1, ih2⟩ := ih hnd.2
    by_cases h0 : i0.name = info.name
    · have hno : ∀ x, x ∈ rest → x.name ≠ info.name := by
        intro x hx hxn
        apply hnd.1
        rw [h0, ← hxn]
        exact List.mem_map_of_mem _ hx
      constructor
      · simp [CState.update_reload, h0]
      · intro x
        simp only [CState.update_reload, h0, if_true, List.mem_cons]
        constructor
        · rintro (h | h)
          · exact Or.inl h
          · exact Or.inr ⟨Or.inr h, hno x h⟩
        · rintro (h | ⟨h | h, hne⟩)
          · exact Or.inl h
          · subst h
            exact absurd h0 hne
          · exact Or.inr h
    · constructor
      · simp only [CState.update_reload, h0, if_false, List.map_cons, ih1, List.mem_cons]
        have h1 : ¬ info.name = i0.name := fun h => h0 h.symm
        by_cases hm : info.name ∈ rest.map (fun j => j.name)
        · simp [hm]
        · simp [hm, h1]
      · intro x
        simp only [CState.update_reload, h0, if_false, List.mem_cons, ih2]
        constructor
        · rintro (h | h | ⟨h, hne⟩)
          · subst h
            exact Or.inr ⟨Or.inl rfl, h0⟩
          · exact Or.inl h
          · exact Or.inr ⟨Or.inr h, hne⟩
        · rintro (h | ⟨h | h, hne⟩)
          · exact Or.inr (Or.inl h)
          · exact Or.inl h
          · exact Or.inr (Or.inr ⟨h, hne⟩)

/-- A sequence of `reload_module(info)` calls runs the loop on the request
list once per call. -/
theorem reload_modules_requests (infos : List ModuleInfo) :
    ∀ st : CState, (infos.foldl CState.reload_module st).m_reloads_requested =
      infos.foldl CState.update_reload st.m_reloads_requested := by
  induction infos with
  | nil => intro st; rfl
  | cons i rest ih =>
    intro st
    rw [List.foldl_cons, List.foldl_cons, ih]
    rfl

/-- The request list after a sequence of requests, from the empty list. -/
theorem update_reloads_spec (infos : List ModuleInfo) :
    ((infos.foldl CState.update_reload []).map (fun j => j.name)).Nodup ∧
    (∀ n, n ∈ (infos.foldl CState.update_reload []).map (fun j => j.name) ↔
      n ∈ infos.map (fun j => j.name)) ∧
    (∀ i, i ∈ infos.foldl CState.update_reload [] →
      infos.reverse.find? (fun j => j.name = i.name) = some i) ∧
    ((infos.foldl CState.update_reload []).map (fun j => j.name)).Pairwise
      (fun a b => (infos.map (fun j => j.name)).indexOf a <
        (infos.map (fun j => j.name)).indexOf b) := by
  induction infos using List.reverseRecOn with
  | nil => simp
  | append_singleton infos i ih =>
    obtain ⟨hnd, hnames, hlatest, hpos⟩ := ih
    rw [List.foldl_append, List.foldl_cons, List.foldl_nil]
    obtain ⟨hmap, hmem⟩ := update_reload_spec i _ hnd
    have hidx : ∀ a, a ∈ infos.map (fun j => j.name) →
        ((infos ++ [i]).map (fun j => j.name)).indexOf a =
          (infos.map (fun j => j.name)).indexOf a := by
      intro a ha
      rw [List.map_append, List.indexOf_append_of_mem ha]
    have hpos1 : ((infos.foldl CState.update_reload []).map (fun j => j.name)).Pairwise
        (fun a b => ((infos ++ [i]).map (fun j => j.name)).indexOf a <
          ((infos ++ [i]).map (fun j => j.name)).indexOf b) := by
      refine List.Pairwise.imp_of_mem ?_ hpos
      intro a b ha hb hab
      rw [hidx a ((hnames a).mp ha), hidx b ((hnames b).mp hb)]
      exact hab
    refine ⟨?_, ?_, ?_, ?_⟩
    · rw [hmap]
      split
      · exact hnd
      · rename_i hno
        rw [List.nodup_append]
        refine ⟨hnd, List.nodup_singleton _, ?_⟩
        intro a ha hb
        rw [List.mem_singleton] at hb
        subst hb
        exact hno ha
    · intro n
      rw [hmap, List.map_append, List.mem_append, List.map_singleton, List.mem_singleton]
      split
      · rename_i hin
        rw [hnames]
        constructor
        · exact Or.inl
        · rintro (h | h)
          · exact h
          · rw [h]
            exact (hnames _).mp hin
      · rw [List.mem_append, List.mem_singleton, hnames]
    · intro x hx
      rw [List.reverse_append, List.reverse_singleton, List.singleton_append, List.find?_cons]
      rcases (hmem x).mp hx with h | ⟨h, hne⟩
      · subst h
        simp
      · have hne1 : decide (i.name = x.name) = false := by
          simpa using fun h => hne h.symm
        rw [hne1]
        exact hlatest x h
    · rw [hmap]
      split
      · exact hpos1
      · rename_i hno
        rw [List.pairwise_append]
        refine ⟨hpos1, List.pairwise_singleton _ _, ?_⟩
        intro a ha b hb
        rw [List.mem_singleton] at hb
        subst hb
        have ha1 := (hnames a).mp ha
        have hb1 : i.name ∉ infos.map (fun j => j.name) :=
          fun h => hno ((hnames i.name).mpr h)
        rw [hidx a ha1, List.map_append, List.indexOf_append_of_not_mem hb1]
        have := List.indexOf_lt_length.mpr ha1
        simp only [List.length_map] at this ⊢
        omega

/-- A sequence of `reload_module(name)` calls is the sequence of
`reload_module(info)` calls for the stored infos of the names that have one. -/
theorem reload_module_names_as_infos (names : List String) :
    ∀ st : CState, names.foldl CState.reload_module_name st =
      (names.filterMap (smap_find st.m_module_info)).foldl CState.reload_module st := by
  induction names with
  | nil => intro st; rfl
  | cons n rest ih =>
    intro st
    rw [List.foldl_cons, List.filterMap_cons, ih]
    unfold CState.reload_module_name
    cases smap_find st.m_module_info n with
    | none => rfl
    | some info => rfl

/-- C15: after any sequence of `reload_module(info)` calls made on a host
whose request list was empty (as the driver tick leaves it), the list
`m_reloads_requested` has one entry per requested name and no other, the entry
of a name is the info of the most recent call for that name, and the entries
stand in the order of the first requests of their names. -/
theorem reload_requests_keep_latest_info (st : CState) (infos : List ModuleInfo)
    (h0 : st.m_reloads_requested = []) :
    (((infos.foldl CState.reload_module st).m_reloads_requested).map (fun j => j.name)).Nodup ∧
    (∀ n, n ∈ ((infos.foldl CState.reload_module st).m_reloads_requested).map (fun j => j.name) ↔
      n ∈ infos.map (fun j => j.name)) ∧
    (∀ i, i ∈ (infos.foldl CState.reload_module st).m_reloads_requested →
      infos.reverse.find? (fun j => j.name = i.name) = some i) ∧
    (((infos.foldl CState.reload_module st).m_reloads_requested).map (fun j => j.name)).Pairwise
      (fun a b => (infos.map (fun j => j.name)).indexOf a <
        (infos.map (fun j => j.name)).indexOf b) := by
  rw [reload_modules_requests, h0]
  exact update_reloads_spec infos

/-- Witness of C15: requests for `A`, `B` and again `A` (now with a
dependency on `B`) leave the later info of `A` in the first place and the
info of `B` in the second. -/
theorem reload_requests_keep_latest_info_witness :
    ([ex_info "A" [], ex_info "B" [], ex_info "A" ["B"]].foldl CState.reload_module
      {}).m_reloads_requested = [ex_info "A" ["B"], ex_info "B" []] ∧
    ((([ex_info "A" [], ex_info "B" [], ex_info "A" ["B"]].foldl CState.reload_module
      {}).m_reloads_requested).map (fun j => j.name)).Nodup ∧
    (∀ i, i ∈ ([ex_info "A" [], ex_info "B" [], ex_info "A" ["B"]].foldl CState.reload_module
        {}).m_reloads_requested →
      [ex_info "A" [], ex_info "B" [], ex_info "A" ["B"]].reverse.find?
        (fun j => j.name = i.name) = some i) :=
  ⟨by decide,
   (reload_requests_keep_latest_info {}
     [ex_info "A" [], ex_info "B" [], ex_info "A" ["B"]] rfl).1,
   (reload_requests_keep_latest_info {}
     [ex_info "A" [], ex_info "B" [], ex_info "A" ["B"]] rfl).2.2.1⟩

/-! ## Unloading a module -/

/-- C16: for a loaded name, after `unload_module_u(name)` the name is absent
from `m_modules` and the other names are loaded as before, the subscriber list
of every event type is the former list without the container of the name (so
no list holds it, and the other subscriptions keep their order), `m_module_info`
is unchanged, and `core:module_unloaded` is the one event emitted; for a name
that is not loaded the host state, emitted events included, is unchanged. -/
theorem unload_module_u_effects (env : HostEnv) (st : CState) (name : String) :
    (∀ mc, smap_find st.m_modules name = some mc →
      smap_find (CState.unload_module_u env st name).m_modules name = none ∧
      (∀ k, k ≠ name → (smap_find (CState.unload_module_u env st name).m_modules k).isSome =
        (smap_find st.m_modules k).isSome) ∧
      (CState.unload_module_u env st name).m_event_subs.length = st.m_event_subs.length ∧
      (∀ T, (CState.unload_module_u env st name).m_event_subs.getD T [] =
        (st.m_event_subs.getD T []).filter (fun a => a != mc.addr)) ∧
      (∀ T, mc.addr ∉ (CState.unload_module_u env st name).m_event_subs.getD T []) ∧
      (CState.unload_module_u env st name).m_module_info = st.m_module_info ∧
      (CState.unload_module_u env st name).emitted =
        st.emitted ++
          [{ type := env.t "core:module_unloaded", p := Payload.ModuleUnloadedEvent name }]) ∧
    (smap_find st.m_modules name = none → CState.unload_module_u env st name = st) := by
  constructor
  · intro mc hmc
    have hsubs := unload_module_u_subs env st name mc hmc
    have hT : ∀ T, (CState.unload_module_u env st name).m_event_subs.getD T [] =
        (st.m_event_subs.getD T []).filter (fun a => a != mc.addr) := by
      intro T
      rw [hsubs]
      simp only [List.getD_eq_getElem?_getD, List.getElem?_map]
      cases st.m_event_subs[T]? <;> simp
    have hst : CState.unload_module_u env st name =
        CState.emit_event
          { st with
            m_event_subs :=
              st.m_event_subs.map (fun sublist => sublist.filter (fun a => a != mc.addr))
            m_modules := smap_erase st.m_modules name }
          { type := env.t "core:module_unloaded", p := Payload.ModuleUnloadedEvent name } := by
      unfold CState.unload_module_u
      rw [hmc]
    refine ⟨?_, ?_, ?_, hT, ?_, ?_, ?_⟩
    · have h := emit_event_keys
        { st with
          m_event_subs :=
            st.m_event_subs.map (fun sublist => sublist.filter (fun a => a != mc.addr))
          m_modules := smap_erase st.m_modules name }
        { type := env.t "core:module_unloaded", p := Payload.ModuleUnloadedEvent name } name
      rw [← hst] at h
      simp only [smap_find_erase, if_true, Option.isSome_none] at h
      cases hf : smap_find (CState.unload_module_u env st name).m_modules name with
      | none => rfl
      | some c => rw [hf] at h; cases h
    · intro k hk
      rw [hst, emit_event_keys]
      simp only [smap_find_erase]
      rw [if_neg (fun h => hk h.symm)]
    · rw [hsubs, List.length_map]
    · intro T
      rw [hT T]
      simp
    · rw [hst]
      exact (emit_event_frame _ _).1
    · rw [hst]
      exact (emit_event_frame _ _).2.2
  · intro hnone
    unfold CState.unload_module_u
    rw [hnone]

/-- Witness of C16 on the example host in which `A` (container 2) subscribed
to event type 3: after the unload of `A` the list of type 3 is empty and `B`
stays loaded. -/
theorem unload_module_u_effects_witness :
    (smap_find ex_host_sub.m_modules "A").map (fun c => c.addr) = some 2 ∧
    ex_host_sub.m_event_subs = [[], [], [], [2]] ∧
    smap_find (CState.unload_module_u ex_env ex_host_sub "A").m_modules "A" = none ∧
    (smap_find (CState.unload_module_u ex_env ex_host_sub "A").m_modules "B").isSome = true ∧
    (CState.unload_module_u ex_env ex_host_sub "A").m_event_subs = [[], [], [], []] ∧
    (CState.unload_module_u ex_env ex_host_sub "A").m_module_info = ex_host_sub.m_module_info ∧
    CState.unload_module_u ex_env (CState.unload_module_u ex_env ex_host_sub "A") "A" =
      CState.unload_module_u ex_env ex_host_sub "A" :=
  ⟨by decide, by decide,
   ((unload_module_u_effects ex_env ex_host_sub "A").1 (ex_container ex_host_sub "A")
      (by decide)).1,
   by decide, by decide,
   ((unload_module_u_effects ex_env ex_host_sub "A").1 (ex_container ex_host_sub "A")
      (by decide)).2.2.2.2.2.1,
   (unload_module_u_effects ex_env (CState.unload_module_u ex_env ex_host_sub "A") "A").2
      (by decide)⟩

/-! ## Lookups in the registry -/

/-- C17, as stated, fails for `check_module`: after `load_module` of a module
with `disable_cpp` the name is in the registry (`has_module` is true and
`get_module_path` returns its path), yet `check_module` raises
`ModuleNotFoundException`, since the container holds a null module pointer. -/
theorem check_module_raises_for_loaded_name :
    HostReachable (CState.load_module ex_env {} (ex_info_no_cpp "L")).2 ∧
    (CState.load_module ex_env {} (ex_info_no_cpp "L")).1 = Res.ok true ∧
    (CState.load_module ex_env {} (ex_info_no_cpp "L")).2.has_module "L" = true ∧
    (CState.load_module ex_env {} (ex_info_no_cpp "L")).2.get_module_path "L" =
      Except.ok "mods/L" ∧
    (CState.load_module ex_env {} (ex_info_no_cpp "L")).2.check_module "L" =
      Except.error (Exn.ModuleNotFoundException "Module not found: L") :=
  ⟨HostReachable.load_module _ _ _ HostReachable.empty, by decide, by decide, by rfl, by rfl⟩

/-- C17, amended: `get_module_path(name)` raises `ModuleNotFoundException`
exactly when the name is absent from the registry and returns the path of the
info of the container otherwise; `check_module(name)` raises
`ModuleNotFoundException` exactly when the name is absent or its container has
a null module pointer, and returns the module otherwise; in a reachable host a
loaded name whose worker runs and is not asked to stop has a module, which
`check_module` returns. -/
theorem lookups_raise_module_not_found_iff (st : CState) (name : String) :
    ((∃ msg, st.get_module_path name = Except.error (Exn.ModuleNotFoundException msg)) ↔
      st.has_module name = false) ∧
    (∀ mc, smap_find st.m_modules name = some mc →
      st.get_module_path name = Except.ok mc.info.path) ∧
    ((∃ msg, st.check_module name = Except.error (Exn.ModuleNotFoundException msg)) ↔
      (st.has_module name = false ∨
        ∃ mc, smap_find st.m_modules name = some mc ∧ mc.module = none)) ∧
    (∀ mc m, smap_find st.m_modules name = some mc → mc.module = some m →
      st.check_module name = Except.ok m) ∧
    (HostReachable st → ∀ mc t, smap_find st.m_modules name = some mc →
      mc.thread = some t → t.stop_requested = false →
      ∃ m, mc.module = some m ∧ st.check_module name = Except.ok m) := by
  have hcheck : ∀ mc m, smap_find st.m_modules name = some mc → mc.module = some m →
      st.check_module name = Except.ok m := by
    intro mc m hf hm
    simp [CState.check_module, CState.get_module, hf, hm]
  refine ⟨?_, ?_, ?_, hcheck, ?_⟩
  · unfold CState.get_module_path CState.has_module
    cases smap_find st.m_modules name with
    | none => simp
    | some mc => simp
  · intro mc hf
    unfold CState.get_module_path
    rw [hf]
  · unfold CState.check_module CState.get_module CState.has_module
    cases smap_find st.m_modules name with
    | none => simp
    | some mc =>
      cases hm : mc.module with
      | none => simp [hm]
      | some m => simp [hm]
  · intro hr mc t hf ht hs
    have hok := reachable_containers_ok st hr name mc hf t ht hs
    obtain ⟨m, hm⟩ := Option.isSome_iff_exists.mp hok
    exact ⟨m, hm, hcheck mc m hf hm⟩

/-- Witness of the amended C17 on the example host: `A` is loaded with a
running worker, so `check_module` returns its module and `get_module_path` its
path. -/
theorem lookups_raise_module_not_found_iff_witness :
    HostReachable ex_host_AB ∧
    ex_host_AB.get_module_path "A" = Except.ok (ex_container ex_host_AB "A").info.path ∧
    (∃ m, (ex_container ex_host_AB "A").module = some m ∧
      ex_host_AB.check_module "A" = Except.ok m) :=
  ⟨HostReachable.load_module _ _ _ (HostReachable.load_module _ _ _ HostReachable.empty),
   (lookups_raise_module_not_found_iff ex_host_AB "A").2.1 (ex_container ex_host_AB "A")
     (by decide),
   (lookups_raise_module_not_found_iff ex_host_AB "A").2.2.2.2
     (HostReachable.load_module _ _ _ (HostReachable.load_module _ _ _ HostReachable.empty))
     (ex_container ex_host_AB "A") {} (by decide) (by decide) (by decide)⟩

/-! ## An event handler that raises -/

/-- One iteration of a running worker with an empty slot and a queued event:
the front event is popped and handed to the module; when the handler raises,
the iteration asks the server to shut down with exit status 1. -/
theorem run_iteration_front_event (c : ModuleContainer) (e : Event) (rest : List Event)
    (ev : Event → Option String) (t : Thread) (m : Module)
    (ht : c.thread = some t) (hs : t.stop_requested = false)
    (hm : c.module = some m) (hcb : c.direct_cb = none) (hq : c.event_queue = e :: rest)
    (hsem : c.event_queue_sem ≠ 0) :
    ∃ it, ModuleThread.run_iteration c ev = some it ∧
      it.mc.event_queue = rest ∧ it.mc.trace = c.trace ++ [Call.event e] ∧
      it.shutdown = (ev e).map (fun w => (1, "M[" ++ c.info.name ++ "]->event() failed: " ++ w)) := by
  refine ⟨_, by
    simp [ModuleThread.run_iteration, ht, ModuleThread.w_wait, hs, hsem,
      ModuleThread.w_grab, hcb, hq, ModuleThread.handle_event, hm]
    rfl, ?_, ?_, ?_⟩
  all_goals simp [ModuleThread.handle_event, hm]

/-- C18: when the worker of a loaded container with a live module takes a
queued event and the handler `module->event` raises an exception with message
`w`, the iteration goes through and afterwards `is_shutdown_requested` returns
true with exit status 1 and the reason `M[<name>]->event() failed: <w>`, made of
the name of the module and the message, whatever shutdown state was recorded
before. -/
theorem event_handler_exception_shuts_down (st : CState) (name : String)
    (mc : ModuleContainer) (e : Event) (rest : List Event) (ev : Event → Option String)
    (t : Thread) (m : Module) (w : String)
    (hf : smap_find st.m_modules name = some mc)
    (ht : mc.thread = some t) (hs : t.stop_requested = false) (hm : mc.module = some m)
    (hcb : mc.direct_cb = none) (hq : mc.event_queue = e :: rest)
    (hsem : mc.event_queue_sem ≠ 0) (hraise : ev e = some w) :
    ∃ st1, st.worker_iteration name ev = some st1 ∧
      st1.is_shutdown_requested =
        (true, some (1, "M[" ++ mc.info.name ++ "]->event() failed: " ++ w)) ∧
      st1.m_shutdown_exit_status ≠ 0 ∧
      (∃ c1, smap_find st1.m_modules name = some c1 ∧
        c1.trace = mc.trace ++ [Call.event e] ∧ c1.event_queue = rest) := by
  obtain ⟨it, hit, hitq, hitt, hsh⟩ :=
    run_iteration_front_event mc e rest ev t m ht hs hm hcb hq hsem
  rw [hraise] at hsh
  simp only [Option.map_some'] at hsh
  have hw : st.worker_iteration name ev =
      some (CState.shutdown { st with m_modules := smap_set st.m_modules name it.mc }
        1 ("M[" ++ mc.info.name ++ "]->event() failed: " ++ w)) := by
    unfold CState.worker_iteration
    rw [hf]
    simp only [hit, hsh]
  refine ⟨_, hw, ?_, ?_, ?_⟩
  · simp [CState.shutdown, CState.is_shutdown_requested]
  · simp [CState.shutdown]
  · refine ⟨it.mc, ?_, hitt, hitq⟩
    rw [(shutdown_frame _ _ _).1, smap_find_set, if_pos rfl]

/-- Witness of C18: on the example host, with a shutdown with status 5
recorded before, the event of type 3 is emitted, and the handler of `A`
raises `boom`. -/
theorem event_handler_exception_shuts_down_witness :
    ((ex_host_sub.emit_event { type := 3 }).shutdown 5 "earlier").is_shutdown_requested =
      (true, some (5, "earlier")) ∧
    ∃ st1, ((ex_host_sub.emit_event { type := 3 }).shutdown 5 "earlier").worker_iteration "A"
        (fun _ => some "boom") = some st1 ∧
      st1.is_shutdown_requested = (true, some (1, "M[A]->event() failed: boom")) ∧
      st1.m_shutdown_exit_status ≠ 0 ∧
      (∃ c1, smap_find st1.m_modules "A" = some c1 ∧
        c1.trace = [Call.direct { id := 0 }] ++ [Call.event { type := 3 }] ∧
        c1.event_queue = []) :=
  ⟨by decide,
   event_handler_exception_shuts_down
     ((ex_host_sub.emit_event { type := 3 }).shutdown 5 "earlier") "A"
     (ex_container (ex_host_sub.emit_event { type := 3 }) "A") { type := 3 } []
     (fun _ => some "boom") {} { addr := 165, m_module_name := "A" } "boom"
     (by decide) (by decide) (by decide) (by decide) (by decide) (by decide) (by decide) rfl⟩

/-! ## A direct callback that raises -/

/-- C19: a direct callback that raises `e`, called through `access_module` on
a loaded target whose worker runs and is not asked to stop, by a caller that
passes the access check and is not in its module destructor: the worker calls
it, `execute_direct_cb` hands `e` back, `access_module` raises `e`; afterwards
the slot and `direct_cb_exception` of the target are empty,
`direct_cb_free_sem` has the count it had before, and the shutdown state of the
host is the one before the call. -/
theorem raising_direct_cb_reaches_caller (st : CState) (fuel : Nat)
    (caller_mc : Option ModuleContainer) (name : String) (mc : ModuleContainer)
    (cb : Callback) (e : Exn) (t : Thread) (m : Module)
    (hf : smap_find st.m_modules name = some mc)
    (hfree : mc.direct_cb_free_sem ≠ 0)
    (ht : mc.thread = some t) (hs : t.stop_requested = false) (hm : mc.module = some m)
    (hraise : cb.raises = some e)
    (hself : mc.is_this caller_mc = false)
    (hdestr : CState.in_destructor caller_mc = false)
    (haccess : ∀ c, caller_mc = some c →
      check_valid_access_u st.m_modules fuel mc c = some (Except.ok ())) :
    (mc.execute_direct_cb cb caller_mc Interference.nothing).1 = Res.ok (some e) ∧
    (mc.execute_direct_cb cb caller_mc Interference.nothing).2.trace =
      mc.trace ++ [Call.direct cb] ∧
    (mc.execute_direct_cb cb caller_mc Interference.nothing).2.direct_cb = none ∧
    (mc.execute_direct_cb cb caller_mc Interference.nothing).2.direct_cb_exception = none ∧
    (mc.execute_direct_cb cb caller_mc Interference.nothing).2.direct_cb_free_sem =
      mc.direct_cb_free_sem ∧
    (st.access_module fuel caller_mc name cb Interference.nothing).1 = Res.threw e ∧
    smap_find (st.access_module fuel caller_mc name cb Interference.nothing).2.m_modules name =
      some (mc.execute_direct_cb cb caller_mc Interference.nothing).2 ∧
    (st.access_module fuel caller_mc name cb Interference.nothing).2.is_shutdown_requested =
      st.is_shutdown_requested ∧
    (st.access_module fuel caller_mc name cb Interference.nothing).2.m_shutdown_requested =
      st.m_shutdown_requested ∧
    (st.access_module fuel caller_mc name cb Interference.nothing).2.m_shutdown_exit_status =
      st.m_shutdown_exit_status ∧
    (st.access_module fuel caller_mc name cb Interference.nothing).2.m_shutdown_reason =
      st.m_shutdown_reason := by
  have hrun := execute_direct_cb_runs mc cb caller_mc t m hself hfree ht hs hm
  rw [hraise] at hrun
  have hacc : st.access_module fuel caller_mc name cb Interference.nothing =
      (Res.threw e,
        { st with
          m_modules := smap_set st.m_modules name
            (mc.execute_direct_cb cb caller_mc Interference.nothing).2 }) := by
    unfold CState.access_module CState.access_module_try
    rw [hf]
    cases hc : caller_mc with
    | none =>
      subst hc
      simp only [hrun]
      have hd : CState.in_destructor none = false := rfl
      simp [hd]
    | some c =>
      subst hc
      simp only [haccess c rfl, hrun, hdestr]
      simp
  rw [hacc, hrun]
  refine ⟨rfl, rfl, rfl, rfl, rfl, rfl, ?_, rfl, rfl, rfl, rfl⟩
  simp [smap_find_set]

/-- Witness of C19: the driver thread calls a raising callback on `B` of the
example host. -/
theorem raising_direct_cb_reaches_caller_witness :
    (ex_host_AB.access_module 0 none "B" ex_cb_raising Interference.nothing).1 =
      Res.threw (Exn.Exception "callback failed") ∧
    ((ex_container ex_host_AB "B").execute_direct_cb ex_cb_raising none
      Interference.nothing).2.direct_cb = none ∧
    ((ex_container ex_host_AB "B").execute_direct_cb ex_cb_raising none
      Interference.nothing).2.direct_cb_free_sem = 1 ∧
    (ex_host_AB.access_module 0 none "B" ex_cb_raising
      Interference.nothing).2.m_shutdown_requested = false :=
  ⟨(raising_direct_cb_reaches_caller ex_host_AB 0 none "B" (ex_container ex_host_AB "B")
      ex_cb_raising (Exn.Exception "callback failed") {} { addr := 166, m_module_name := "B" }
      (by decide) (by decide) (by decide) (by decide) (by decide) rfl rfl rfl
      (fun c h => by cases h)).2.2.2.2.2.1,
   by decide, by decide, by decide⟩

/-! ## The content-hash cache of the build -/

/-- The state `build_module_u` leaves after a successful compilation. -/
theorem build_module_u_of_compiled (env : BuildEnv) (s : BuildState) (info : ModuleInfo)
    (hskip : BuildState.skip_compile env s info = false)
    (hok : (env.compiler_build (BuildState.build_call env s info) s.fs).1 = true) :
    BuildState.build_module_u env s info =
      (env.construct info.name,
        { s with
          m_module_file_watches := BuildState.with_file_watch env s info
          build_calls := s.build_calls ++ [BuildState.build_call env s info]
          fs := smap_set (env.compiler_build (BuildState.build_call env s info) s.fs).2
            (BuildState.hashfile_path env s info) (BuildState.content_hash env s info) }) := by
  unfold BuildState.build_module_u
  simp [hskip, hok]

/-- The state `build_module_u` leaves when the compilation is skipped. -/
theorem build_module_u_of_skipped (env : BuildEnv) (s : BuildState) (info : ModuleInfo)
    (hskip : BuildState.skip_compile env s info = true) :
    (BuildState.build_module_u env s info).2 =
      { s with
        m_module_file_watches := BuildState.with_file_watch env s info
        build_calls := s.build_calls ++ [BuildState.build_call env s info]
        fs := (env.compiler_build (BuildState.build_call env s info) s.fs).2 } := by
  unfold BuildState.build_module_u
  simp only [hskip]
  split <;> rfl

/-- The value of `skip_compile` when the configuration does not ask to skip:
true exactly when the output file can be opened and the hash file holds the
fresh hash. -/
theorem skip_compile_iff (env : BuildEnv) (s : BuildState) (info : ModuleInfo)
    (hcfg : env.skip_compiling_modules info.name = false) :
    BuildState.skip_compile env s info = true ↔
      ((smap_find s.fs (BuildState.build_dst env s info)).isSome = true ∧
        BuildState.previous_hash env s info = BuildState.content_hash env s info) := by
  unfold BuildState.skip_compile
  rw [hcfg]
  cases (smap_find s.fs (BuildState.build_dst env s info)).isSome <;>
    by_cases h : BuildState.previous_hash env s info = BuildState.content_hash env s info <;> simp [h]

/-- A build that does not skip was not configured to skip. -/
theorem skip_compile_false_config (env : BuildEnv) (s : BuildState) (info : ModuleInfo)
    (hskip : BuildState.skip_compile env s info = false) :
    env.skip_compiling_modules info.name = false := by
  unfold BuildState.skip_compile at hskip
  cases hcfg : env.skip_compiling_modules info.name with
  | false => rfl
  | true => simp [hcfg] at hskip

/-- The output path depends on the state through the content hash only. -/
theorem build_dst_congr (env : BuildEnv) (s s2 : BuildState) (info : ModuleInfo)
    (h : BuildState.content_hash env s2 info = BuildState.content_hash env s info) :
    BuildState.build_dst env s2 info = BuildState.build_dst env s info := by
  unfold BuildState.build_dst
  rw [h]

/-- C20: the content-hash cache.  A first `build_module_u` that passed
`skip_compile = false` to the compiler adapter and saw it succeed has written
the fresh hash to the hash file.  A second `build_module_u` for the module, in
a state where the content hash is the same, the hash file is as the first
build left it and the output file can be opened, passes `skip_compile = true`
and writes nothing after the adapter returns.  And in any state in which the
output file cannot be opened or the hash file does not hold the fresh hash,
`skip_compile = false` is passed. -/
theorem content_hash_cache_round_trip (env : BuildEnv) (info : ModuleInfo)
    (s0 s2 : BuildState)
    (hinvoked : BuildState.skip_compile env s0 info = false)
    (hok : (env.compiler_build (BuildState.build_call env s0 info) s0.fs).1 = true)
    (hhash : BuildState.content_hash env s2 info = BuildState.content_hash env s0 info)
    (hside : smap_find s2.fs (BuildState.hashfile_path env s0 info) =
      smap_find (BuildState.build_module_u env s0 info).2.fs (BuildState.hashfile_path env s0 info))
    (hout : (smap_find s2.fs (BuildState.build_dst env s2 info)).isSome = true) :
    smap_find (BuildState.build_module_u env s0 info).2.fs (BuildState.hashfile_path env s0 info) =
      some (BuildState.content_hash env s0 info) ∧
    (BuildState.build_module_u env s2 info).2.build_calls = s2.build_calls ++ [BuildState.build_call env s2 info] ∧
    (BuildState.build_call env s2 info).skip_compile = true ∧
    (BuildState.build_module_u env s2 info).2.fs =
      (env.compiler_build (BuildState.build_call env s2 info) s2.fs).2 ∧
    (∀ s : BuildState,
      ((smap_find s.fs (BuildState.build_dst env s info)).isSome = false ∨
        BuildState.previous_hash env s info ≠ BuildState.content_hash env s info) →
      (BuildState.build_module_u env s info).2.build_calls = s.build_calls ++ [BuildState.build_call env s info] ∧
      (BuildState.build_call env s info).skip_compile = false) := by
  have hcfg := skip_compile_false_config env s0 info hinvoked
  have hfirst : smap_find (BuildState.build_module_u env s0 info).2.fs (BuildState.hashfile_path env s0 info) =
      some (BuildState.content_hash env s0 info) := by
    rw [build_module_u_of_compiled env s0 info hinvoked hok]
    simp [smap_find_set]
  have hpath : BuildState.hashfile_path env s2 info = BuildState.hashfile_path env s0 info := by
    unfold BuildState.hashfile_path
    rw [build_dst_congr env s0 s2 info hhash]
  have hskip2 : BuildState.skip_compile env s2 info = true := by
    rw [skip_compile_iff env s2 info hcfg]
    refine ⟨hout, ?_⟩
    unfold BuildState.previous_hash
    rw [hpath, hside, hfirst, hhash]
  have hcalls : ∀ s : BuildState,
      (BuildState.build_module_u env s info).2.build_calls = s.build_calls ++ [BuildState.build_call env s info] := by
    intro s
    unfold BuildState.build_module_u
    split
    · rfl
    · split <;> rfl
  refine ⟨hfirst, hcalls s2, hskip2, ?_, fun s hs => ⟨hcalls s, ?_⟩⟩
  · rw [build_module_u_of_skipped env s2 info hskip2]
  · show BuildState.skip_compile env s info = false
    cases hsk : BuildState.skip_compile env s info with
    | false => rfl
    | true =>
      obtain ⟨h1, h2⟩ := (skip_compile_iff env s info hcfg).mp hsk
      rcases hs with hs | hs
      · rw [h1] at hs
        cases hs
      · exact absurd h2 hs

/-- Witness of C20: in the example the first build of `A` compiles and writes
the hash file, the second build, run on the state the first left, passes
`skip_compile = true`. -/
theorem content_hash_cache_round_trip_witness :
    (BuildState.build_module_u ex_build_env ex_build_state (ex_info "A" [])).2.build_calls.map
      (fun c => c.skip_compile) = [false] ∧
    smap_find (BuildState.build_module_u ex_build_env ex_build_state (ex_info "A" [])).2.fs
      "build/A.so.hash" = some "int a;void f();" ∧
    (BuildState.build_module_u ex_build_env
      (BuildState.build_module_u ex_build_env ex_build_state (ex_info "A" [])).2
      (ex_info "A" [])).2.build_calls.map (fun c => c.skip_compile) = [false, true] ∧
    (BuildState.build_call ex_build_env (BuildState.build_module_u ex_build_env ex_build_state (ex_info "A" [])).2
      (ex_info "A" [])).skip_compile = true :=
  ⟨by decide, by decide, by decide,
   (content_hash_cache_round_trip ex_build_env (ex_info "A" []) ex_build_state
      (BuildState.build_module_u ex_build_env ex_build_state (ex_info "A" [])).2
      (by decide) (by decide) (by decide) rfl (by decide)).2.2.1⟩

/-! ## Addresses of loaded containers -/

/-- Replacing a container by one of the same address keeps the addresses. -/
theorem modsAddr_set_same (n : Nat) (m : List (String × ModuleContainer)) (name : String)
    (c0 c : ModuleContainer) (h : ModsAddr n m) (h0 : smap_find m name = some c0)
    (hc : c.addr = c0.addr) : ModsAddr n (smap_set m name c) := by
  have hfind : ∀ k x, smap_find (smap_set m name c) k = some x →
      ∃ y, smap_find m k = some y ∧ x.addr = y.addr := by
    intro k x hx
    rw [smap_find_set] at hx
    by_cases hk : name = k
    · rw [if_pos hk] at hx
      cases hx
      exact ⟨c0, hk ▸ h0, hc⟩
    · rw [if_neg hk] at hx
      exact ⟨x, hx, rfl⟩
  constructor
  · intro k x hx
    obtain ⟨y, hy, hxy⟩ := hfind k x hx
    rw [hxy]
    exact h.1 k y hy
  · intro k1 k2 x1 x2 h1 h2 heq
    obtain ⟨y1, hy1, hxy1⟩ := hfind k1 x1 h1
    obtain ⟨y2, hy2, hxy2⟩ := hfind k2 x2 h2
    exact h.2 k1 k2 y1 y2 hy1 hy2 (by rw [← hxy1, ← hxy2, heq])

/-- Storing a container with the next address keeps the addresses, with the
bound moved up. -/
theorem modsAddr_set_fresh (n : Nat) (m : List (String × ModuleContainer)) (name : String)
    (c : ModuleContainer) (h : ModsAddr n m) (hc : c.addr = n) :
    ModsAddr (n + 1) (smap_set m name c) := by
  constructor
  · intro k x hx
    rw [smap_find_set] at hx
    by_cases hk : name = k
    · rw [if_pos hk] at hx
      cases hx
      omega
    · rw [if_neg hk] at hx
      have := h.1 k x hx
      omega
  · intro k1 k2 x1 x2 h1 h2 heq
    rw [smap_find_set] at h1 h2
    by_cases hk1 : name = k1
    · by_cases hk2 : name = k2
      · rw [← hk1, ← hk2]
      · rw [if_pos hk1] at h1
        rw [if_neg hk2] at h2
        cases h1
        have := h.1 k2 x2 h2
        omega
    · by_cases hk2 : name = k2
      · rw [if_neg hk1] at h1
        rw [if_pos hk2] at h2
        cases h2
        have := h.1 k1 x1 h1
        omega
      · rw [if_neg hk1] at h1
        rw [if_neg hk2] at h2
        exact h.2 k1 k2 x1 x2 h1 h2 heq

/-- Removing a name keeps the addresses. -/
theorem modsAddr_erase (n : Nat) (m : List (String × ModuleContainer)) (name : String)
    (h : ModsAddr n m) : ModsAddr n (smap_erase m name) := by
  have hfind : ∀ k x, smap_find (smap_erase m name) k = some x → smap_find m k = some x := by
    intro k x hx
    rw [smap_find_erase] at hx
    by_cases hk : name = k
    · rw [if_pos hk] at hx
      cases hx
    · rw [if_neg hk] at hx
      exact hx
  exact ⟨fun k x hx => h.1 k x (hfind k x hx),
    fun k1 k2 x1 x2 h1 h2 heq => h.2 k1 k2 x1 x2 (hfind k1 x1 h1) (hfind k2 x2 h2) heq⟩

/-- Pushing to a list of addresses keeps the address of a container. -/
theorem push_all_addr (e : Event) :
    ∀ (subs : List Nat) (c : ModuleContainer),
      (subs.foldl (fun c a => if c.addr = a then c.push_event e else c) c).addr = c.addr := by
  intro subs
  induction subs with
  | nil => intro c; rfl
  | cons a rest ih =>
    intro c
    rw [List.foldl_cons, ih]
    split <;> rfl

/-- Pushing an event to subscribers keeps the addresses. -/
theorem modsAddr_push_all (n : Nat) (subs : List Nat) (e : Event)
    (m : List (String × ModuleContainer)) (h : ModsAddr n m) :
    ModsAddr n (subs.foldl (fun ms addr => CState.push_to ms addr e) m) := by
  have hfind : ∀ k x, smap_find (subs.foldl (fun ms addr => CState.push_to ms addr e) m) k =
      some x → ∃ y, smap_find m k = some y ∧ x.addr = y.addr := by
    intro k x hx
    rw [smap_find_push_all_value] at hx
    cases hf : smap_find m k with
    | none => rw [hf] at hx; cases hx
    | some y =>
      rw [hf] at hx
      simp only [Option.map_some', Option.some.injEq] at hx
      exact ⟨y, rfl, by rw [← hx, push_all_addr]⟩
  constructor
  · intro k x hx
    obtain ⟨y, hy, hxy⟩ := hfind k x hx
    rw [hxy]
    exact h.1 k y hy
  · intro k1 k2 x1 x2 h1 h2 heq
    obtain ⟨y1, hy1, hxy1⟩ := hfind k1 x1 h1
    obtain ⟨y2, hy2, hxy2⟩ := hfind k2 x2 h2
    exact h.2 k1 k2 y1 y2 hy1 hy2 (by rw [← hxy1, ← hxy2, heq])

/-- An emission keeps the addresses. -/
theorem addrInv_emit_event (st : CState) (e : Event) (h : AddrInv st) :
    AddrInv (st.emit_event e) := by
  unfold CState.emit_event
  split
  · exact h
  · exact modsAddr_push_all _ _ e _ h

/-- One iteration of a worker keeps the address of its container. -/
theorem run_iteration_addr (mc : ModuleContainer) (ev : Event → Option String)
    (it : ModuleThread.Iteration) (h : ModuleThread.run_iteration mc ev = some it) :
    it.mc.addr = mc.addr := by
  unfold ModuleThread.run_iteration at h
  cases ht : mc.thread with
  | none => simp [ht] at h
  | some t =>
    simp only [ht] at h
    by_cases hq : mc.event_queue_sem = 0
    · simp [ModuleThread.w_wait, hq] at h
    · simp only [ModuleThread.w_wait, hq, if_false] at h
      cases hst : t.stop_requested <;>
      cases hs : mc.direct_cb <;> cases hq2 : mc.event_queue <;> cases hm : mc.module <;>
        simp [hst, ModuleThread.w_grab, hs, hq2, ModuleThread.handle_direct_cb,
          ModuleThread.handle_event, hm, ModuleThread.w_stop, ModuleThread.w_begin_destruct,
          ModuleThread.w_end_destruct] at h <;> subst h <;> rfl

/-- A call of `execute_direct_cb` keeps the address of the target. -/
theorem execute_direct_cb_addr (mc : ModuleContainer) (cb : Callback)
    (caller_mc : Option ModuleContainer) (itf : Interference) :
    (mc.execute_direct_cb cb caller_mc itf).2.addr = mc.addr := by
  unfold ModuleContainer.execute_direct_cb
  by_cases hself : mc.is_this caller_mc = true
  · simp [hself]
  · rw [if_neg hself]
    by_cases hfree : mc.direct_cb_free_sem = 0
    · simp [ModuleContainer.edc_acquire, hfree]
    · obtain ⟨mc1, hacq, hth, haddr⟩ : ∃ mc1, mc.edc_acquire = some mc1 ∧
          mc1.thread = mc.thread ∧ mc1.addr = mc.addr :=
        ⟨{ mc with direct_cb_free_sem := mc.direct_cb_free_sem - 1 },
          by simp [ModuleContainer.edc_acquire, hfree], rfl, rfl⟩
      rw [hacq]
      simp only
      cases ht : mc.thread with
      | none =>
        have hchk : mc1.edc_check caller_mc = (Res.null_deref, mc1) := by
          simp [ModuleContainer.edc_check, hth, ht]
        rw [hchk]
        exact haddr
      | some t =>
        by_cases hstop : t.stop_requested = true
        · simp [ModuleContainer.edc_check, hth, ht, hstop, haddr]
        · have hchk : mc1.edc_check caller_mc = (Res.ok (), mc1) := by
            simp [ModuleContainer.edc_check, hth, ht, hstop]
          rw [hchk]
          simp only
          generalize hmc3 : itf.apply (mc1.edc_park cb) = mc3
          have h3 : mc3.addr = mc.addr := by
            subst hmc3
            cases itf with
            | nothing => exact haddr
            | stop_request =>
              have hth1 : mc1.thread = some t := by rw [hth, ht]
              simp [Interference.apply, ModuleContainer.thread_request_stop, hth1,
                ModuleContainer.edc_park, haddr]
          cases hrun : ModuleThread.run_iteration mc3 (fun _ => none) with
          | none => exact h3
          | some it =>
            have hit := run_iteration_addr mc3 _ it hrun
            simp only
            by_cases hex : it.mc.direct_cb_executed_sem = 0
            · simp only [ModuleContainer.edc_wait, hex, if_true]
              rw [hit, h3]
            · simp only [ModuleContainer.edc_wait, hex, if_false, ModuleContainer.edc_release]
              rw [← h3, ← hit]

/-- Method `init_and_start_thread` keeps the address of the container. -/
theorem init_and_start_thread_addr (mc : ModuleContainer) (init : Callback) :
    (mc.init_and_start_thread init).2.addr = mc.addr := by
  unfold ModuleContainer.init_and_start_thread
  cases hm : mc.module with
  | none => rfl
  | some m =>
    simp only
    split
    · rfl
    · split
      · rfl
      · have hres := execute_direct_cb_addr { mc with module := some m, thread := some {} }
          init none Interference.nothing
        generalize ModuleContainer.execute_direct_cb
          { mc with module := some m, thread := some {} } init none
          Interference.nothing = res at hres ⊢
        obtain ⟨r, mc1⟩ := res
        cases r with
        | ok o => cases o <;> exact hres
        | threw e => exact hres
        | blocked => exact hres
        | null_deref => exact hres
        | no_fuel => exact hres

/-- A direct call keeps the addresses. -/
theorem addrInv_access_module (st : CState) (fuel : Nat) (caller_mc : Option ModuleContainer)
    (name : String) (cb : Callback) (itf : Interference) (h : AddrInv st) :
    AddrInv (st.access_module fuel caller_mc name cb itf).2 := by
  rw [access_module_snd]
  rcases access_module_try_state st fuel caller_mc name cb itf with hs | ⟨mc, hfind, hs⟩
  · rw [hs]
    exact h
  · rw [hs]
    exact modsAddr_set_same _ _ name mc _ h hfind (execute_direct_cb_addr mc cb caller_mc itf)

/-- Method `unload_module_u` keeps the addresses. -/
theorem addrInv_unload_module_u (env : HostEnv) (st : CState) (name : String) (h : AddrInv st) :
    AddrInv (CState.unload_module_u env st name) := by
  unfold CState.unload_module_u
  split
  · exact h
  · exact addrInv_emit_event _ _ (modsAddr_erase _ _ _ h)

/-- Storing a fresh container under a name and then the container its start
leaves keeps the addresses. -/
theorem modsAddr_load_step (n : Nat) (m : List (String × ModuleContainer)) (name : String)
    (c c1 : ModuleContainer) (h : ModsAddr n m) (hc : c.addr = n) (hc1 : c1.addr = c.addr) :
    ModsAddr (n + 1) (smap_set (smap_set m name c) name c1) :=
  modsAddr_set_same _ _ name c c1 (modsAddr_set_fresh n m name c h hc)
    (by rw [smap_find_set, if_pos rfl]) hc1

/-- A registry with addresses below `n` has them below `n + 1`. -/
theorem modsAddr_mono (n : Nat) (m : List (String × ModuleContainer)) (h : ModsAddr n m) :
    ModsAddr (n + 1) m :=
  ⟨fun k c hk => Nat.lt_succ_of_lt (h.1 k c hk), h.2⟩

/-- Method `load_module_direct_u` keeps the addresses. -/
theorem addrInv_load_module_direct_u (env : HostEnv) (st : CState) (m : Option Module)
    (name : String) (h : AddrInv st) : AddrInv (CState.load_module_direct_u env st m name).2 := by
  unfold CState.load_module_direct_u
  exact modsAddr_load_step _ _ name _ _ h rfl (init_and_start_thread_addr _ _)

/-- Method `load_module` keeps the addresses. -/
theorem addrInv_load_module (env : HostEnv) (st : CState) (info : ModuleInfo) (h : AddrInv st) :
    AddrInv (CState.load_module env st info).2 := by
  by_cases hl : (smap_find st.m_modules info.name).isSome = true
  · rw [load_module_of_loaded env st info hl]
    exact h
  · have hl1 : (smap_find st.m_modules info.name).isSome = false := by simpa using hl
    cases hcpp : info.meta.disable_cpp with
    | true =>
      rw [load_module_of_disable_cpp env st info hl1 hcpp]
      exact addrInv_emit_event _ _ (modsAddr_set_fresh _ _ info.name _ h rfl)
    | false =>
      cases hb : env.build info with
      | none =>
        rw [load_module_of_build_failed env st info hl1 hcpp hb]
        exact h
      | some m =>
        rcases load_module_of_built env st info m hl1 hcpp hb with ⟨_, hst⟩ | ⟨_, _, hst⟩
        · rw [hst]
          exact addrInv_emit_event _ _
            (modsAddr_load_step _ _ info.name _ _ h rfl (init_and_start_thread_addr _ _))
        · rw [hst]
          exact modsAddr_load_step _ _ info.name _ _ h rfl (init_and_start_thread_addr _ _)

/-- A stop request keeps the address of a container. -/
theorem thread_request_stop_addr (c : ModuleContainer) :
    c.thread_request_stop.addr = c.addr := by
  unfold ModuleContainer.thread_request_stop
  cases c.thread <;> rfl

/-- The stop request to all workers keeps the addresses. -/
theorem addrInv_thread_request_stop (st : CState) (h : AddrInv st) :
    AddrInv st.thread_request_stop := by
  have hfind : ∀ k x, smap_find st.thread_request_stop.m_modules k = some x →
      ∃ y, smap_find st.m_modules k = some y ∧ x.addr = y.addr := by
    intro k x hx
    rw [thread_request_stop_find] at hx
    cases hf : smap_find st.m_modules k with
    | none => rw [hf] at hx; cases hx
    | some y =>
      rw [hf] at hx
      simp only [Option.map_some', Option.some.injEq] at hx
      subst hx
      exact ⟨y, rfl, stop_all_keeps (fun c => c.addr = y.addr)
        (fun c hc => (thread_request_stop_addr c).trans hc) _ y rfl⟩
  constructor
  · intro k x hx
    obtain ⟨y, hy, hxy⟩ := hfind k x hx
    rw [hxy]
    exact h.1 k y hy
  · intro k1 k2 x1 x2 h1 h2 heq
    obtain ⟨y1, hy1, hxy1⟩ := hfind k1 x1 h1
    obtain ⟨y2, hy2, hxy2⟩ := hfind k2 x2 h2
    exact h.2 k1 k2 y1 y2 hy1 hy2 (by rw [← hxy1, ← hxy2, heq])

/-- Having distinct addresses below `next_addr` is a preserved property. -/
theorem preserved_addrInv : Preserved AddrInv where
  emit := addrInv_emit_event
  access := fun st fuel caller_mc name cb itf h =>
    addrInv_access_module st fuel caller_mc name cb itf h
  unload := addrInv_unload_module_u
  load := addrInv_load_module
  clear_modified := fun _ h => h
  clear_requests := fun _ h => h

/-- In every reachable host state the loaded containers have distinct
addresses: an address in a subscriber list stands for at most one loaded
container. -/
theorem reachable_addrInv (st : CState) (h : HostReachable st) : AddrInv st := by
  induction h with
  | empty =>
    exact ⟨fun k c hk => by simp [smap_find] at hk, fun k1 k2 c1 c2 hk => by simp [smap_find] at hk⟩
  | load_module env st info _ ih => exact addrInv_load_module env st info ih
  | load_module_direct_u env st m name _ ih => exact addrInv_load_module_direct_u env st m name ih
  | unload_module_u env st name _ ih => exact addrInv_unload_module_u env st name ih
  | handle_events env st _ ih => exact preserved_handle_events preserved_addrInv env st ih
  | unload_module st name _ ih =>
    unfold CState.unload_module
    split
    · exact ih
    · exact ih
  | reload_module st info _ ih => exact ih
  | reload_module_name st name _ ih =>
    unfold CState.reload_module_name
    split
    · exact ih
    · exact ih
  | sub_event type_bits st st1 module type _ hs ih =>
    obtain ⟨X, hX⟩ := sub_event_frame type_bits st st1 module type hs
    rw [hX]
    exact ih
  | emit_event st event _ ih => exact addrInv_emit_event st event ih
  | access_module st fuel caller_mc name cb itf _ ih =>
    exact addrInv_access_module st fuel caller_mc name cb itf ih
  | shutdown st exit_status reason _ ih =>
    unfold CState.shutdown
    split
    · exact ih
    · exact ih
  | modified st name _ ih => exact ih
  | worker_iteration st st1 name ev _ hw ih =>
    obtain ⟨mc, it, hf, hr, hm, _⟩ := worker_iteration_spec st st1 name ev hw
    have hn : st1.next_addr = st.next_addr := by
      unfold CState.worker_iteration at hw
      rw [hf] at hw
      simp only [hr] at hw
      cases hs : it.shutdown with
      | none =>
        simp only [hs, Option.some.injEq] at hw
        subst hw
        rfl
      | some xr =>
        obtain ⟨x, r⟩ := xr
        simp only [hs, Option.some.injEq] at hw
        subst hw
        unfold CState.shutdown
        split <;> rfl
    unfold AddrInv
    rw [hm, hn]
    exact modsAddr_set_same _ _ name mc _ ih hf (run_iteration_addr mc ev it hr)
  | thread_request_stop st _ ih => exact addrInv_thread_request_stop st ih

/-! ## Subscriptions of a stopping module -/

/-- Method `sub_event` for a module pointer that no loaded container holds:
the call is refused and the host state stays as it is. -/
theorem sub_event_of_unknown (type_bits : Nat) (st : CState) (module : Option Nat)
    (type : Nat)
    (h : ∀ p, p ∈ st.m_modules → p.2.module.map (fun m => m.addr) ≠ module) :
    st.sub_event type_bits module type = some st := by
  have hfind : st.m_modules.find? (fun p => p.2.module.map (fun m => m.addr) == module) = none := by
    rw [List.find?_eq_none]
    intro p hp
    simpa using h p hp
  unfold CState.sub_event
  rw [hfind]

/-- The name of an entry of a map is found in the map. -/
theorem smap_find_isSome_of_mem {α : Type} (m : List (String × α)) (p : String × α)
    (hp : p ∈ m) : (smap_find m p.1).isSome = true := by
  induction m with
  | nil => cases hp
  | cons q r ih =>
    obtain ⟨k0, v0⟩ := q
    by_cases h0 : k0 = p.1
    · simp [smap_find, h0]
    · rcases List.mem_cons.mp hp with h | h
      · exact absurd (by rw [h]) h0
      · simpa [smap_find, h0] using ih h

/-- Pushing an event to subscribers keeps the name and the module pointer of
every entry of the registry. -/
theorem mem_push_all (e : Event) :
    ∀ (subs : List Nat) (m : List (String × ModuleContainer)) (p : String × ModuleContainer),
      p ∈ subs.foldl (fun ms addr => CState.push_to ms addr e) m →
      ∃ q, q ∈ m ∧ q.1 = p.1 ∧ q.2.module = p.2.module := by
  intro subs
  induction subs with
  | nil => intro m p hp; exact ⟨p, hp, rfl, rfl⟩
  | cons a rest ih =>
    intro m p hp
    rw [List.foldl_cons] at hp
    obtain ⟨q, hq, hq1, hq2⟩ := ih _ p hp
    unfold CState.push_to at hq
    rw [List.mem_map] at hq
    obtain ⟨r, hr, hrq⟩ := hq
    refine ⟨r, hr, ?_, ?_⟩
    · rw [← hq1, ← hrq]
    · rw [← hq2, ← hrq]
      simp only
      split <;> rfl

/-- An emission keeps the name and the module pointer of every entry of the
registry. -/
theorem mem_emit_event (st : CState) (e : Event) (p : String × ModuleContainer)
    (hp : p ∈ (st.emit_event e).m_modules) :
    ∃ q, q ∈ st.m_modules ∧ q.1 = p.1 ∧ q.2.module = p.2.module := by
  unfold CState.emit_event at hp
  split at hp
  · exact ⟨p, hp, rfl, rfl⟩
  · exact mem_push_all e _ _ p hp

/-- C21, as stated, fails for the server-wide stop request: on the example
host, after `thread_request_stop` the worker of `A` is asked to stop, the
container of `A` is still in `m_modules` with its module, and `sub_event`
with that module is accepted and enters the container in the list of the
type. -/
theorem sub_event_after_stop_request_is_accepted :
    HostReachable ex_host_AB.thread_request_stop ∧
    (ex_container ex_host_AB.thread_request_stop "A").thread =
      some { stop_requested := true } ∧
    (ex_container ex_host_AB.thread_request_stop "A").module =
      some { addr := 165, m_module_name := "A" } ∧
    (ex_container ex_host_AB.thread_request_stop "A").addr = 2 ∧
    ex_host_AB.thread_request_stop.m_event_subs = [] ∧
    (ex_host_AB.thread_request_stop.sub_event 64 (some 165) 3).map (fun s => s.m_event_subs) =
      some [[], [], [], [2]] :=
  ⟨HostReachable.thread_request_stop _
      (HostReachable.load_module _ _ _ (HostReachable.load_module _ _ _ HostReachable.empty)),
   by decide, by decide, by decide, by decide, by decide⟩

/-- C21, amended: `sub_event` is refused, leaving the host state and so every
subscriber list unchanged, for a module that no container in `m_modules`
holds; this is the case after `unload_module_u(name)` for the module of the
unloaded container (a module pointer that only the container under `name`
held), since `unload_module_u` takes the container out of `m_modules` before
it asks the worker to stop. -/
theorem sub_event_after_unload_is_refused (env : HostEnv) (st : CState) (name : String)
    (a : Nat) (type_bits type : Nat)
    (hown : ∀ p, p ∈ st.m_modules → p.2.module.map (fun m => m.addr) = some a → p.1 = name) :
    (CState.unload_module_u env st name).sub_event type_bits (some a) type =
      some (CState.unload_module_u env st name) ∧
    (∀ st1, (CState.unload_module_u env st name).sub_event type_bits (some a) type = some st1 →
      ∀ T, st1.m_event_subs.getD T [] =
        (CState.unload_module_u env st name).m_event_subs.getD T []) := by
  have hkey : (CState.unload_module_u env st name).sub_event type_bits (some a) type =
      some (CState.unload_module_u env st name) := by
    apply sub_event_of_unknown
    intro p hp hmod
    unfold CState.unload_module_u at hp
    cases hf : smap_find st.m_modules name with
    | none =>
      rw [hf] at hp
      simp only at hp
      have hk := hown p hp hmod
      have hin := smap_find_isSome_of_mem st.m_modules p hp
      rw [hk, hf] at hin
      cases hin
    | some mc =>
      rw [hf] at hp
      simp only at hp
      obtain ⟨q, hq, hq1, hq2⟩ := mem_emit_event _ _ p hp
      simp only [smap_erase, List.mem_filter] at hq
      have hk := hown q hq.1 (by rw [hq2]; exact hmod)
      simp [hk] at hq
  refine ⟨hkey, fun st1 h T => ?_⟩
  rw [hkey] at h
  rw [← Option.some.inj h]

/-- Witness of the amended C21: on the example host in which `A` subscribed to
type 3, after the unload of `A` a subscription with the module of `A` to type
5 is refused. -/
theorem sub_event_after_unload_is_refused_witness :
    (CState.unload_module_u ex_env ex_host_sub "A").m_event_subs = [[], [], [], []] ∧
    ((CState.unload_module_u ex_env ex_host_sub "A").sub_event 64 (some 165) 5).map
        (fun s => s.m_event_subs) = some [[], [], [], []] ∧
    (CState.unload_module_u ex_env ex_host_sub "A").sub_event 64 (some 165) 5 =
      some (CState.unload_module_u ex_env ex_host_sub "A") :=
  ⟨by decide, by decide,
   (sub_event_after_unload_is_refused ex_env ex_host_sub "A" 165 64 5 (by decide)).1⟩

/-! ## The unload order -/

/-- Occurrences of a value among the values collected along a list of keys,
when one key only has that value. -/
theorem count_filterMap_of_unique {α β : Type} [DecidableEq α] [DecidableEq β]
    (f : α → Option β) (k : α) (c : β) (hk : f k = some c)
    (huniq : ∀ k1, f k1 = some c → k1 = k) :
    ∀ l : List α, (l.filterMap f).count c = l.count k := by
  intro l
  induction l with
  | nil => rfl
  | cons a r ih =>
    rw [List.filterMap_cons]
    by_cases ha : a = k
    · subst ha
      rw [hk, List.count_cons_self, List.count_cons_self, ih]
    · cases hfa : f a with
      | none =>
        simp only
        rw [ih, List.count_cons_of_ne (fun h => ha h.symm)]
      | some b =>
        simp only
        have hb : b ≠ c := fun h => ha (huniq a (by rw [hfa, h]))
        rw [List.count_cons_of_ne (fun h => hb h.symm), ih,
          List.count_cons_of_ne (fun h => ha h.symm)]

/-- C22, as stated, fails: in the host in which `A` was loaded, unloaded and
loaded again, the one container in `m_modules` is returned twice by
`get_modules_in_unload_order`. -/
theorem unload_order_repeats_reloaded_container :
    HostReachable ex_host_reloaded ∧
    ex_host_reloaded.get_loaded_modules = ["A"] ∧
    ex_host_reloaded.m_module_load_order = ["A", "A"] ∧
    ex_host_reloaded.get_modules_in_unload_order.map (fun c => c.addr) = [2, 2] ∧
    ex_host_reloaded.get_modules_in_unload_order.count (ex_container ex_host_reloaded "A") = 2 :=
  ⟨HostReachable.load_module _ _ _
      (HostReachable.unload_module_u _ _ _
        (HostReachable.load_module _ _ _ HostReachable.empty)),
   by decide, by decide, by decide, by decide⟩

/-- C22, amended: in every reachable host state `get_modules_in_unload_order`
returns the containers in `m_modules` and no other; the container of a name
occurs as often as the name occurs in `m_module_load_order`, so once when the
name was loaded once and no container twice when no name is twice in the
order; and a container stands before another only if its name stands after
the name of the other somewhere in `m_module_load_order`. -/
theorem unload_order_of_reachable (st : CState) (h : HostReachable st) :
    (∀ c, c ∈ st.get_modules_in_unload_order ↔ ∃ k, smap_find st.m_modules k = some c) ∧
    (∀ k c, smap_find st.m_modules k = some c →
      st.get_modules_in_unload_order.count c = st.m_module_load_order.count k) ∧
    (st.m_module_load_order.Nodup → st.get_modules_in_unload_order.Nodup) ∧
    st.get_modules_in_unload_order.Pairwise (fun c1 c2 =>
      ∃ k1 k2, smap_find st.m_modules k1 = some c1 ∧ smap_find st.m_modules k2 = some c2 ∧
        List.Sublist [k2, k1] st.m_module_load_order) := by
  have hreg := reachable_registryInv st h
  have haddr := reachable_addrInv st h
  have huniq : ∀ k k1 c, smap_find st.m_modules k = some c →
      smap_find st.m_modules k1 = some c → k1 = k :=
    fun k k1 c hk hk1 => haddr.2 k1 k c c hk1 hk rfl
  unfold CState.get_modules_in_unload_order
  refine ⟨fun c => ?_, fun k c hk => ?_, fun hnd => ?_, ?_⟩
  · rw [List.mem_filterMap]
    constructor
    · rintro ⟨k, _, hk⟩
      exact ⟨k, hk⟩
    · rintro ⟨k, hk⟩
      exact ⟨k, List.mem_reverse.mpr (hreg k (by rw [hk]; rfl)).2, hk⟩
  · rw [count_filterMap_of_unique _ k c hk (fun k1 hk1 => huniq k k1 c hk hk1),
      List.count_reverse]
  · refine List.Nodup.filterMap ?_ (List.nodup_reverse.mpr hnd)
    intro a a1 b ha ha1
    exact huniq a1 a b ha1 ha
  · have h1 : st.m_module_load_order.Pairwise (fun a b => List.Sublist [a, b] st.m_module_load_order) :=
      List.pairwise_iff_forall_sublist.mpr (fun hs => hs)
    have h2 : st.m_module_load_order.reverse.Pairwise
        (fun a b => List.Sublist [b, a] st.m_module_load_order) := List.pairwise_reverse.mpr h1
    refine List.Pairwise.filterMap _ ?_ h2
    intro a a1 hs b hb b1 hb1
    exact ⟨a, a1, hb, hb1, hs⟩

/-- Witness of the amended C22 on the example host, where `B` was loaded
before `A`: the container of `A` (address 2) comes first, the container of
`B` (address 1) second, each once. -/
theorem unload_order_of_reachable_witness :
    HostReachable ex_host_AB ∧
    ex_host_AB.get_modules_in_unload_order.map (fun c => c.addr) = [2, 1] ∧
    (∀ c, c ∈ ex_host_AB.get_modules_in_unload_order ↔
      ∃ k, smap_find ex_host_AB.m_modules k = some c) ∧
    ex_host_AB.get_modules_in_unload_order.Nodup :=
  ⟨HostReachable.load_module _ _ _ (HostReachable.load_module _ _ _ HostReachable.empty),
   by decide,
   (unload_order_of_reachable ex_host_AB
     (HostReachable.load_module _ _ _ (HostReachable.load_module _ _ _ HostReachable.empty))).1,
   (unload_order_of_reachable ex_host_AB
     (HostReachable.load_module _ _ _ (HostReachable.load_module _ _ _ HostReachable.empty))).2.2.1
     (by decide)⟩

/-! ## A reload whose module is missing -/

/-- C23 fails in the code: a driver tick with a pending reload raises out of
`handle_events` in both cases of the claim.  In the first host `A` is loaded
and its rebuild fails: after `unload_module_u` and the failed `load_module`
the `core:continue` call of `access_module` does not find `A`.  In the second
host `A` has an info entry and is not loaded: the `core:unload` call of
`access_module` does not find it. -/
theorem reload_of_missing_module_raises :
    HostReachable ex_host_reload_A ∧
    ex_host_reload_A.m_reloads_requested = [ex_info "A" ["B"]] ∧
    (smap_find ex_host_reload_A.m_module_info "A").isSome = true ∧
    (CState.handle_events ex_env_build_fails ex_host_reload_A).1 =
      Res.threw (Exn.Exception "access_module(): Module \"A\" not found") ∧
    (CState.handle_events ex_env_build_fails ex_host_reload_A).2.has_module "A" = false ∧
    HostReachable ex_host_reload_unloaded_A ∧
    ex_host_reload_unloaded_A.m_reloads_requested = [ex_info "A" []] ∧
    (smap_find ex_host_reload_unloaded_A.m_module_info "A").isSome = true ∧
    ex_host_reload_unloaded_A.has_module "A" = false ∧
    (CState.handle_events ex_env ex_host_reload_unloaded_A).1 =
      Res.threw (Exn.Exception "access_module(): Module \"A\" not found") ∧
    (CState.handle_events ex_env ex_host_reload_unloaded_A).2.has_module "A" = false :=
  ⟨HostReachable.reload_module_name _ _
      (HostReachable.load_module _ _ _ (HostReachable.load_module _ _ _ HostReachable.empty)),
   by decide, by decide, by decide, by decide,
   HostReachable.reload_module_name _ _
      (HostReachable.unload_module_u _ _ _
        (HostReachable.load_module _ _ _ HostReachable.empty)),
   by decide, by decide, by decide, by decide, by decide⟩

/-! ## What one worker iteration takes -/

/-- C24: one worker iteration of a well-formed container, with no stop
requested.  A callback parked in the slot is called, the slot emptied and the
event queue left as it is, whatever it holds; with an empty slot the oldest
event is popped and handed to the module; with an empty slot and an empty
queue nothing is called. -/
theorem run_iteration_prefers_direct_cb (mc : ModuleContainer) (ev : Event → Option String)
    (t : Thread) (ht : mc.thread = some t) (hs : t.stop_requested = false)
    (hsem : mc.event_queue_sem ≠ 0) (hok : ContainerOk mc) :
    (∀ cb, mc.direct_cb = some cb →
      ∃ it, ModuleThread.run_iteration mc ev = some it ∧
        it.mc.trace = mc.trace ++ [Call.direct cb] ∧
        it.mc.event_queue = mc.event_queue ∧ it.mc.direct_cb = none ∧
        it.exited = false ∧ it.shutdown = none) ∧
    (∀ e rest, mc.direct_cb = none → mc.event_queue = e :: rest →
      ∃ it, ModuleThread.run_iteration mc ev = some it ∧
        it.mc.trace = mc.trace ++ [Call.event e] ∧ it.mc.event_queue = rest ∧
        it.exited = false) ∧
    (mc.direct_cb = none → mc.event_queue = [] →
      ∃ it, ModuleThread.run_iteration mc ev = some it ∧
        it.mc.trace = mc.trace ∧ it.mc.event_queue = [] ∧ it.exited = false) := by
  obtain ⟨m, hm⟩ := Option.isSome_iff_exists.mp (hok t ht hs)
  refine ⟨fun cb hcb => ?_, fun e rest hcb hq => ?_, fun hcb hq => ?_⟩
  · refine ⟨_, by
      simp [ModuleThread.run_iteration, ht, ModuleThread.w_wait, hs, hsem,
        ModuleThread.w_grab, hcb, ModuleThread.handle_direct_cb, hm]
      rfl, ?_, ?_, ?_, ?_, ?_⟩
    all_goals simp
  · obtain ⟨it, hit, hq1, ht1, _⟩ :=
      run_iteration_front_event mc e rest ev t m ht hs hm hcb hq hsem
    refine ⟨it, hit, ht1, hq1, ?_⟩
    simp [ModuleThread.run_iteration, ht, ModuleThread.w_wait, hs, hsem,
      ModuleThread.w_grab, hcb, hq] at hit
    rw [← hit]
  · refine ⟨_, by
      simp [ModuleThread.run_iteration, ht, ModuleThread.w_wait, hs, hsem,
        ModuleThread.w_grab, hcb, hq]
      rfl, ?_, ?_, ?_⟩
    all_goals simp [hq]

/-- Witness of C24: with `ex_cb` parked and an event queued, the iteration
calls `ex_cb` and leaves the event in the queue. -/
theorem run_iteration_prefers_direct_cb_witness :
    ex_container_both.event_queue = [{ type := 3 }] ∧
    ∃ it, ModuleThread.run_iteration ex_container_both (fun _ => none) = some it ∧
      it.mc.trace = ex_container_both.trace ++ [Call.direct ex_cb] ∧
      it.mc.event_queue = ex_container_both.event_queue ∧ it.mc.direct_cb = none ∧
      it.exited = false ∧ it.shutdown = none :=
  ⟨by decide,
   (run_iteration_prefers_direct_cb ex_container_both (fun _ => none) {} (by decide)
      (by decide) (by decide) (fun _ _ _ => by decide)).1 ex_cb (by decide)⟩

/-! ## The protocol: what `event_queue_sem` counts -/

/-- A stop request stays: no action takes it back. -/
theorem stop_requested_step {s s1 : Proto} {a : Action} (h : s.step a = some s1)
    (hs : s.mc.stop_requested = true) : s1.mc.stop_requested = true := by
  cases a with
  | push e =>
    simp only [Proto.step, Option.some.injEq] at h
    subst h
    exact hs
  | stop =>
    simp only [Proto.step, Option.some.injEq] at h
    subst h
    cases ht : s.mc.thread with
    | none => simp [ModuleContainer.stop_requested, ht] at hs
    | some t => simp [ModuleContainer.stop_requested, ModuleContainer.thread_request_stop, ht]
  | acquire i cb =>
    obtain ⟨_, _, rfl⟩ := Proto.step_acquire h
    exact hs
  | check i =>
    obtain ⟨cb, _, ⟨_, rfl⟩ | ⟨_, rfl⟩⟩ := Proto.step_check h
    · exact hs
    · exact hs
  | park i =>
    obtain ⟨cb, _, rfl⟩ := Proto.step_park h
    exact hs
  | wake i =>
    obtain ⟨cb, _, _, rfl⟩ := Proto.step_wake h
    exact hs
  | release i =>
    obtain ⟨_, rfl⟩ := Proto.step_release h
    exact hs
  | w_wait =>
    obtain ⟨_, _, rfl⟩ := Proto.step_w_wait h
    exact hs
  | w_grab =>
    obtain ⟨_, rfl⟩ := Proto.step_w_grab h
    have : (ModuleThread.w_grab s.mc).2.thread = s.mc.thread := by
      unfold ModuleThread.w_grab
      cases s.mc.direct_cb <;> cases s.mc.event_queue <;> rfl
    simp only [ModuleContainer.stop_requested, this]
    exact hs
  | w_dispatch what =>
    obtain ⟨d, e, _, ⟨_, rfl⟩ | ⟨hno, _⟩⟩ := Proto.step_w_dispatch h
    · have : (ModuleThread.w_end_destruct
          (ModuleThread.w_begin_destruct (ModuleThread.w_stop s.mc d))).thread =
        s.mc.thread := by
        cases d <;> rfl
      simp only [ModuleContainer.stop_requested, this]
      exact hs
    · rw [hs] at hno
      cases hno

/-- Adding the same number to the count and to what it counts keeps their
relation. -/
theorem semCount_shift (w : WorkerPc) (sem pending d : Nat) (h : SemCount w sem pending) :
    SemCount w (sem + d) (pending + d) := by
  cases w with
  | waiting => simp only [SemCount] at h ⊢; omega
  | woken => simp only [SemCount] at h ⊢; omega
  | grabbed dcb e =>
    cases dcb with
    | some cb => simp only [SemCount] at h ⊢; omega
    | none =>
      cases e with
      | some e1 => simp only [SemCount] at h ⊢; omega
      | none => exact h
  | exited => exact h

/-- The start state satisfies the semaphore invariant. -/
theorem semInv_start (addr : Nat) (m : Module) (info : ModuleInfo) :
    SemInv (Proto.start addr m info) := by
  intro _
  simp [Proto.start, SemCount, ModuleContainer.pending, ModuleContainer.create]

/-- Every action keeps the semaphore invariant, given the protocol
invariant. -/
theorem semInv_step {s s1 : Proto} {a : Action} (hinv : SemInv s) (hp : ProtoInv s)
    (h : s.step a = some s1) : SemInv s1 := by
  intro hs1
  have hs : s.mc.stop_requested = false := by
    cases hst : s.mc.stop_requested with
    | false => rfl
    | true =>
      rw [stop_requested_step h hst] at hs1
      cases hs1
  have hi := hinv hs
  cases a with
  | push e =>
    simp only [Proto.step, Option.some.injEq] at h
    subst h
    have := semCount_shift _ _ _ 1 hi
    simpa [ModuleContainer.push_event, ModuleContainer.pending, Nat.add_right_comm] using this
  | stop =>
    simp only [Proto.step, Option.some.injEq] at h
    subst h
    cases ht : s.mc.thread with
    | none =>
      have : s.mc.thread_request_stop = s.mc := by
        simp [ModuleContainer.thread_request_stop, ht]
      simp only [this]
      exact hi
    | some t =>
      simp [ModuleContainer.stop_requested, ModuleContainer.thread_request_stop, ht] at hs1
  | acquire i cb =>
    obtain ⟨_, _, rfl⟩ := Proto.step_acquire h
    exact hi
  | check i =>
    obtain ⟨cb, _, ⟨_, rfl⟩ | ⟨hyes, _⟩⟩ := Proto.step_check h
    · exact hi
    · rw [hs] at hyes
      cases hyes
  | park i =>
    obtain ⟨cb, hpassed, rfl⟩ := Proto.step_park h
    have hslot0 : s.mc.direct_cb = none := by
      cases hsl : s.mc.direct_cb with
      | none => rfl
      | some cb1 =>
        obtain ⟨j, hj⟩ := hp.slot_owner cb1 hsl
        have hji : j = i := hp.one_in_flight j i (by rw [hj]; rfl) (by rw [hpassed]; rfl)
        subst hji
        rw [hpassed] at hj
        cases hj
    have := semCount_shift _ _ _ 1 hi
    simpa [ModuleContainer.edc_park, ModuleContainer.pending, hslot0] using this
  | wake i =>
    obtain ⟨cb, _, _, rfl⟩ := Proto.step_wake h
    exact hi
  | release i =>
    obtain ⟨_, rfl⟩ := Proto.step_release h
    exact hi
  | w_wait =>
    obtain ⟨hw, hne, rfl⟩ := Proto.step_w_wait h
    rw [hw] at hi
    simp only [SemCount, ModuleContainer.pending] at hi ⊢
    omega
  | w_grab =>
    obtain ⟨hw, rfl⟩ := Proto.step_w_grab h
    rw [hw] at hi
    simp only [SemCount, ModuleContainer.pending] at hi
    cases hsl : s.mc.direct_cb with
    | some cb =>
      simp only [ModuleThread.w_grab, hsl, SemCount, ModuleContainer.pending]
      simpa [hsl] using hi
    | none =>
      cases hq : s.mc.event_queue with
      | nil => simp [hsl, hq] at hi
      | cons e rest =>
        simp only [ModuleThread.w_grab, hsl, hq, SemCount, ModuleContainer.pending]
        simpa [hsl, hq] using hi
  | w_dispatch what =>
    obtain ⟨d, e, hw, ⟨hyes, _⟩ | ⟨_, hcase⟩⟩ := Proto.step_w_dispatch h
    · rw [hs] at hyes
      cases hyes
    · rw [hw] at hi
      rcases hcase with ⟨cb, rfl, rfl⟩ | ⟨e1, rfl, rfl, rfl⟩ | ⟨rfl, rfl, rfl⟩
      · have hsl := hp.grabbed_slot cb e hw
        simp [SemCount, ModuleContainer.pending, hsl] at hi
        cases hm : s.mc.module <;>
          simp [SemCount, ModuleContainer.pending, ModuleThread.handle_direct_cb, hm] <;> omega
      · simp only [SemCount, ModuleContainer.pending] at hi
        cases hm : s.mc.module <;>
          simp [SemCount, ModuleContainer.pending, ModuleThread.handle_event, hm] <;> omega
      · exact hi.elim

/-- Every run from a state with both invariants ends in a state with both. -/
theorem semInv_run (acts : List Action) :
    ∀ s s1 : Proto, SemInv s → ProtoInv s → Proto.run s acts = some s1 →
      SemInv s1 ∧ ProtoInv s1 := by
  induction acts with
  | nil =>
    intro s s1 hinv hp h
    simp only [Proto.run, Option.some.injEq] at h
    subst h
    exact ⟨hinv, hp⟩
  | cons a rest ih =>
    intro s s1 hinv hp h
    simp only [Proto.run] at h
    cases hstep : s.step a with
    | none => rw [hstep] at h; cases h
    | some s2 =>
      rw [hstep] at h
      exact ih s2 s1 (semInv_step hinv hp hstep) (Proto.protoInv_step hp hstep) h

/-- C25: in every state of the protocol of a container reached from its start
by any sequence of actions, as long as no stop is requested: with the worker
at its wait (between two iterations) the count of `event_queue_sem` is the
number of queued events plus one if a callback is parked in the slot; and the
worker is never past a grab that took neither a callback nor an event, which
is the only way into the branch of `run` for a semaphore signalled with
nothing to do. -/
theorem event_queue_sem_counts_pending (addr : Nat) (m : Module) (info : ModuleInfo)
    (acts : List Action) (s : Proto)
    (h : Proto.run (Proto.start addr m info) acts = some s)
    (hstop : s.mc.stop_requested = false) :
    (s.worker = WorkerPc.waiting →
      s.mc.event_queue_sem =
        s.mc.event_queue.length + (if s.mc.direct_cb.isSome then 1 else 0)) ∧
    s.worker ≠ WorkerPc.grabbed none none ∧
    (s.worker = WorkerPc.woken → (ModuleThread.w_grab s.mc).1 ≠ (none, none)) := by
  obtain ⟨hinv, _⟩ := semInv_run acts _ s (semInv_start addr m info)
    (Proto.protoInv_start addr m info) h
  have hi := hinv hstop
  refine ⟨fun hw => ?_, fun hw => ?_, fun hw => ?_⟩
  · rw [hw] at hi
    exact hi
  · rw [hw] at hi
    exact hi
  · rw [hw] at hi
    simp only [SemCount, ModuleContainer.pending] at hi
    unfold ModuleThread.w_grab
    cases hsl : s.mc.direct_cb with
    | some cb => simp
    | none =>
      cases hq : s.mc.event_queue with
      | nil => simp [hsl, hq] at hi
      | cons e rest => simp

/-- Witness of C25: after an event was pushed and caller 0 has parked its
callback, with the worker at its wait, the count is 2. -/
theorem event_queue_sem_counts_pending_witness :
    ∃ s, Proto.run (Proto.start 2 { addr := 166, m_module_name := "B" } (ex_info "B" []))
        [Action.push { type := 3 }, Action.acquire 0 ex_cb, Action.check 0, Action.park 0]
        = some s ∧
      s.mc.event_queue_sem = 2 ∧
      ((s.worker = WorkerPc.waiting →
        s.mc.event_queue_sem =
          s.mc.event_queue.length + (if s.mc.direct_cb.isSome then 1 else 0)) ∧
      s.worker ≠ WorkerPc.grabbed none none ∧
      (s.worker = WorkerPc.woken → (ModuleThread.w_grab s.mc).1 ≠ (none, none))) :=
  ⟨_, rfl, rfl, event_queue_sem_counts_pending 2 { addr := 166, m_module_name := "B" }
    (ex_info "B" [])
    [Action.push { type := 3 }, Action.acquire 0 ex_cb, Action.check 0, Action.park 0] _ rfl
    rfl⟩

/-! ## The dependency search on a cycle -/

/-- The search of `is_dependency_u` from a container whose one dependency is
loaded goes into that dependency when the dependency is not the searched
name. -/
theorem is_dependency_u_descends (m : List (String × ModuleContainer)) (fuel : Nat)
    (mc mc_dep mc_search : ModuleContainer) (dep : String)
    (hdeps : mc.info.meta.dependencies = [{ module := dep }])
    (hne : dep ≠ mc_search.info.name) (hfind : smap_find m dep = some mc_dep)
    (hrec : is_dependency_u m fuel mc_dep mc_search = none) :
    is_dependency_u m (fuel + 1) mc mc_search = none := by
  unfold is_dependency_u
  simp [hdeps, hne, is_dependency_loop, hfind, hrec]

/-- C26, as stated, fails: `A`, `B` and `C` are loaded, `A` and `B` declare
each other as dependency, and the search `is_dependency_u(A, C)`, which
`check_valid_access_u` runs when `C` calls `access_module("A")`, has no answer
with any amount of fuel: it goes from `A` to `B` and back for ever. -/
theorem is_dependency_u_cycle_never_answers :
    HostReachable ex_host_cycle ∧
    (ex_container ex_host_cycle "A").info.meta.dependencies = [{ module := "B" }] ∧
    (ex_container ex_host_cycle "B").info.meta.dependencies = [{ module := "A" }] ∧
    (ex_container ex_host_cycle "C").info.name = "C" ∧
    (∀ fuel, is_dependency_u ex_host_cycle.m_modules fuel
      (ex_container ex_host_cycle "A") (ex_container ex_host_cycle "C") = none) ∧
    (∀ fuel, check_valid_access_u ex_host_cycle.m_modules fuel
      (ex_container ex_host_cycle "A") (ex_container ex_host_cycle "C") = none) := by
  have hA : smap_find ex_host_cycle.m_modules "A" = some (ex_container ex_host_cycle "A") := by
    decide
  have hB : smap_find ex_host_cycle.m_modules "B" = some (ex_container ex_host_cycle "B") := by
    decide
  have hdA : (ex_container ex_host_cycle "A").info.meta.dependencies = [{ module := "B" }] := by
    decide
  have hdB : (ex_container ex_host_cycle "B").info.meta.dependencies = [{ module := "A" }] := by
    decide
  have hC : (ex_container ex_host_cycle "C").info.name = "C" := by decide
  have hboth : ∀ fuel,
      is_dependency_u ex_host_cycle.m_modules fuel
        (ex_container ex_host_cycle "A") (ex_container ex_host_cycle "C") = none ∧
      is_dependency_u ex_host_cycle.m_modules fuel
        (ex_container ex_host_cycle "B") (ex_container ex_host_cycle "C") = none := by
    intro fuel
    induction fuel with
    | zero => exact ⟨rfl, rfl⟩
    | succ n ih =>
      exact ⟨is_dependency_u_descends _ n _ _ _ "B" hdA (by rw [hC]; decide) hB ih.2,
        is_dependency_u_descends _ n _ _ _ "A" hdB (by rw [hC]; decide) hA ih.1⟩
  refine ⟨HostReachable.load_module _ _ _
      (HostReachable.load_module _ _ _ (HostReachable.load_module _ _ _ HostReachable.empty)),
    hdA, hdB, hC, fun fuel => (hboth fuel).1, fun fuel => ?_⟩
  unfold check_valid_access_u
  have haddr : ¬ (ex_container ex_host_cycle "C").addr = (ex_container ex_host_cycle "A").addr := by
    decide
  rw [if_neg haddr, (hboth fuel).1]

/-- C26, amended: on a registry whose declared dependencies among loaded
modules have no cycle, `is_dependency_u(dependent, dependency)` terminates
for every loaded `dependent` and every `dependency`: from some amount of fuel
on it gives one and the same answer. -/
theorem is_dependency_u_terminates_on_acyclic (m_modules : List (String × ModuleContainer))
    (k : String) (mc_should_be_dependent mc_should_be_dependency : ModuleContainer)
    (hacyc : Acyclic m_modules)
    (hk : smap_find m_modules k = some mc_should_be_dependent) :
    ∃ N r, ∀ fuel, N ≤ fuel →
      is_dependency_u m_modules fuel mc_should_be_dependent mc_should_be_dependency =
        some r := by
  obtain ⟨f0, r0, h0⟩ :=
    is_dependency_u_answers m_modules mc_should_be_dependency hacyc k mc_should_be_dependent hk
  exact ⟨f0, r0, fun fuel hfuel =>
    is_dependency_u_mono m_modules mc_should_be_dependency f0 fuel hfuel
      mc_should_be_dependent r0 h0⟩

/-- Witness of the amended C26 on the example host, where `A` depends on `B`
and `B` on nothing: the search from `A` for `B` ends, and two rounds give the
answer. -/
theorem is_dependency_u_terminates_on_acyclic_witness :
    is_dependency_u ex_host_AB.m_modules 2 (ex_container ex_host_AB "A")
      (ex_container ex_host_AB "B") = some true ∧
    ∃ N r, ∀ fuel, N ≤ fuel →
      is_dependency_u ex_host_AB.m_modules fuel (ex_container ex_host_AB "A")
        (ex_container ex_host_AB "B") = some r :=
  ⟨by decide,
   is_dependency_u_terminates_on_acyclic ex_host_AB.m_modules "A"
     (ex_container ex_host_AB "A") (ex_container ex_host_AB "B") ex_host_AB_acyclic
     (by decide)⟩

/-! ## A direct call on a module without native code -/

/-- C27 fails in the code: `load_module` accepts the info of `L`, whose meta
disables the native build, and stores a container without thread and without
module; `access_module("L", cb)` from the driver thread then reaches the stop
check of `execute_direct_cb`, which dereferences the null `thread`.  The
driver tick does the same when an unload of `L` was requested. -/
theorem access_module_of_module_without_thread :
    (CState.load_module ex_env {} (ex_info_no_cpp "L")).1 = Res.ok true ∧
    HostReachable ex_host_no_cpp ∧
    ex_host_no_cpp.has_module "L" = true ∧
    (ex_container ex_host_no_cpp "L").thread = none ∧
    (ex_container ex_host_no_cpp "L").module = none ∧
    ((ex_container ex_host_no_cpp "L").execute_direct_cb ex_cb none Interference.nothing).1 =
      Res.null_deref ∧
    (ex_host_no_cpp.access_module 0 none "L" ex_cb Interference.nothing).1 = Res.null_deref ∧
    (ex_host_no_cpp.unload_module "L").m_unloads_requested = ["L"] ∧
    (CState.handle_events ex_env (ex_host_no_cpp.unload_module "L")).1 = Res.null_deref :=
  ⟨by decide, HostReachable.load_module _ _ _ HostReachable.empty,
   by decide, by decide, by decide, by decide, by decide, by decide, by decide⟩

/-! ## Temporary data -/

/-- Method `tmp_restore_data` returns the stored value of the name, or the
empty string, and leaves the map without the name and with every other entry
as it was. -/
theorem tmp_restore_data_spec (st : CState) (n : String) :
    (st.tmp_restore_data n).1 = (smap_find st.m_tmp_data n).getD "" ∧
    smap_find (st.tmp_restore_data n).2.m_tmp_data n = none ∧
    (∀ k, k ≠ n → smap_find (st.tmp_restore_data n).2.m_tmp_data k =
      smap_find st.m_tmp_data k) := by
  unfold CState.tmp_restore_data
  cases hf : smap_find st.m_tmp_data n with
  | none =>
    refine ⟨by simp [smap_find_set], by simp [smap_find_erase], fun k hk => ?_⟩
    have hk1 : ¬ n = k := fun h => hk h.symm
    simp [smap_find_erase, smap_find_set, hk1]
  | some v =>
    refine ⟨by simp [hf], by simp [smap_find_erase], fun k hk => ?_⟩
    have hk1 : ¬ n = k := fun h => hk h.symm
    simp [smap_find_erase, hk1]

/-- C28: `tmp_restore_data(n)` right after `tmp_store_data(n, d)` returns `d`
and removes the entry, so that a second `tmp_restore_data(n)` returns the
empty string; restoring a name that has no entry returns the empty string and
leaves the map without that name; in each case the entries of the other names
are as they were. -/
theorem tmp_data_is_consumed_on_restore (st : CState) (n d : String) :
    ((st.tmp_store_data n d).tmp_restore_data n).1 = d ∧
    smap_find ((st.tmp_store_data n d).tmp_restore_data n).2.m_tmp_data n = none ∧
    (((st.tmp_store_data n d).tmp_restore_data n).2.tmp_restore_data n).1 = "" ∧
    (smap_find st.m_tmp_data n = none →
      (st.tmp_restore_data n).1 = "" ∧
      smap_find (st.tmp_restore_data n).2.m_tmp_data n = none) ∧
    (∀ k, k ≠ n →
      smap_find (st.tmp_store_data n d).m_tmp_data k = smap_find st.m_tmp_data k ∧
      smap_find ((st.tmp_store_data n d).tmp_restore_data n).2.m_tmp_data k =
        smap_find st.m_tmp_data k ∧
      smap_find (st.tmp_restore_data n).2.m_tmp_data k = smap_find st.m_tmp_data k) := by
  have hstore : ∀ k, smap_find (st.tmp_store_data n d).m_tmp_data k =
      if n = k then some d else smap_find st.m_tmp_data k := by
    intro k
    unfold CState.tmp_store_data
    exact smap_find_set _ _ _ _
  obtain ⟨h1, h2, h3⟩ := tmp_restore_data_spec (st.tmp_store_data n d) n
  obtain ⟨g1, g2, g3⟩ := tmp_restore_data_spec st n
  obtain ⟨f1, _, _⟩ := tmp_restore_data_spec ((st.tmp_store_data n d).tmp_restore_data n).2 n
  refine ⟨?_, h2, ?_, fun hnone => ⟨?_, g2⟩, fun k hk => ⟨?_, ?_, g3 k hk⟩⟩
  · rw [h1, hstore, if_pos rfl]
    rfl
  · rw [f1, h2]
    rfl
  · rw [g1, hnone]
    rfl
  · rw [hstore, if_neg (fun h => hk h.symm)]
  · rw [h3 k hk, hstore, if_neg (fun h => hk h.symm)]

/-- Witness of C28: the data stored under `a` and `b` on the fresh host; the
restore of `a` returns its data once, a restore of the name `c`, never stored,
returns the empty string, and the entry of `b` stays. -/
theorem tmp_data_is_consumed_on_restore_witness :
    (((({} : CState).tmp_store_data "b" "data of b").tmp_store_data "a" "data of a"
      ).tmp_restore_data "a").1 = "data of a" ∧
    (((({} : CState).tmp_store_data "b" "data of b").tmp_store_data "a" "data of a"
      ).tmp_restore_data "a").2.m_tmp_data = [("b", "data of b")] ∧
    ((({} : CState).tmp_store_data "b" "data of b").tmp_restore_data "c").1 = "" ∧
    smap_find ((({} : CState).tmp_store_data "b" "data of b").tmp_restore_data "c").2.m_tmp_data
      "c" = none :=
  ⟨(tmp_data_is_consumed_on_restore (({} : CState).tmp_store_data "b" "data of b")
      "a" "data of a").1,
   by decide,
   ((tmp_data_is_consumed_on_restore (({} : CState).tmp_store_data "b" "data of b")
      "c" "").2.2.2.1 (by decide)).1,
   ((tmp_data_is_consumed_on_restore (({} : CState).tmp_store_data "b" "data of b")
      "c" "").2.2.2.1 (by decide)).2⟩

/-! ## The voxel world: regions of sections tile the space -/

/-- One axis of the region of a section, for the sizes of the module: no
operation overflows. -/
theorem Voxelworld.section_region_axis_default (s : Int) (h : Voxelworld.is_int16 s) :
    Voxelworld.section_region_axis s 2 16 = some (32 * s, 32 * s + 31) := by
  obtain ⟨h1, h2⟩ := h
  have e1 : Voxelworld.checked_int (s * 2) = some (s * 2) := by
    unfold Voxelworld.checked_int
    rw [if_pos (by constructor <;> omega)]
  have e2 : Voxelworld.checked_int (s * 2 * 16) = some (s * 2 * 16) := by
    unfold Voxelworld.checked_int
    rw [if_pos (by constructor <;> omega)]
  have e3 : Voxelworld.checked_int (2 * 16) = some 32 := by decide
  have e4 : Voxelworld.checked_int (32 - 1) = some 31 := by decide
  have e5 : Voxelworld.checked_int (s * 2 * 16 + 31) = some (s * 2 * 16 + 31) := by
    unfold Voxelworld.checked_int
    rw [if_pos (by constructor <;> omega)]
  unfold Voxelworld.section_region_axis
  simp only [e1, Option.some_bind, e2, e3, e4, e5]
  have : s * 2 * 16 = 32 * s := by ring
  rw [this]

/-- The region of a section, for the sizes of the module. -/
theorem Voxelworld.get_section_region_default (s : Voxelworld.V3)
    (hx : Voxelworld.is_int16 s.x) (hy : Voxelworld.is_int16 s.y)
    (hz : Voxelworld.is_int16 s.z) :
    Voxelworld.get_section_region Voxelworld.m_section_size_chunks
        Voxelworld.m_chunk_size_voxels s =
      some (⟨32 * s.x, 32 * s.y, 32 * s.z⟩, ⟨32 * s.x + 31, 32 * s.y + 31, 32 * s.z + 31⟩) := by
  unfold Voxelworld.get_section_region Voxelworld.m_section_size_chunks
    Voxelworld.m_chunk_size_voxels
  simp only [Voxelworld.section_region_axis_default s.x hx,
    Voxelworld.section_region_axis_default s.y hy,
    Voxelworld.section_region_axis_default s.z hz, Option.some_bind]

/-- C29: for every section position with `int16` coordinates and the sizes
of the module (sections of 2 chunks of 16 voxels per axis),
`get_section_region` overflows nowhere and gives `p0 = 32 * section_p` and
`p1 = p0 + 31` on each axis; the regions of two different section positions
have no point in common; and the region of the next section along an axis
starts one past the end of this one on that axis and spans the same range on
the other two. -/
theorem section_regions_tile (s : Voxelworld.V3)
    (hx : Voxelworld.is_int16 s.x) (hy : Voxelworld.is_int16 s.y)
    (hz : Voxelworld.is_int16 s.z) :
    Voxelworld.get_section_region Voxelworld.m_section_size_chunks
        Voxelworld.m_chunk_size_voxels s =
      some (⟨s.x * 2 * 16, s.y * 2 * 16, s.z * 2 * 16⟩,
        ⟨s.x * 2 * 16 + (2 * 16 - 1), s.y * 2 * 16 + (2 * 16 - 1),
          s.z * 2 * 16 + (2 * 16 - 1)⟩) ∧
    (∀ s1 r r1, Voxelworld.is_int16 s1.x → Voxelworld.is_int16 s1.y →
      Voxelworld.is_int16 s1.z → s1 ≠ s →
      Voxelworld.get_section_region Voxelworld.m_section_size_chunks
        Voxelworld.m_chunk_size_voxels s = some r →
      Voxelworld.get_section_region Voxelworld.m_section_size_chunks
        Voxelworld.m_chunk_size_voxels s1 = some r1 →
      ∀ p, ¬ (Voxelworld.in_region r p ∧ Voxelworld.in_region r1 p)) ∧
    (∀ s1 r r1, Voxelworld.is_int16 s1.x → Voxelworld.is_int16 s1.y →
      Voxelworld.is_int16 s1.z →
      Voxelworld.get_section_region Voxelworld.m_section_size_chunks
        Voxelworld.m_chunk_size_voxels s = some r →
      Voxelworld.get_section_region Voxelworld.m_section_size_chunks
        Voxelworld.m_chunk_size_voxels s1 = some r1 →
      (s1.x = s.x + 1 → r1.1.x = r.2.x + 1) ∧
      (s1.y = s.y + 1 → r1.1.y = r.2.y + 1) ∧
      (s1.z = s.z + 1 → r1.1.z = r.2.z + 1) ∧
      (s1.x = s.x → r1.1.x = r.1.x ∧ r1.2.x = r.2.x) ∧
      (s1.y = s.y → r1.1.y = r.1.y ∧ r1.2.y = r.2.y) ∧
      (s1.z = s.z → r1.1.z = r.1.z ∧ r1.2.z = r.2.z)) := by
  have hs := Voxelworld.get_section_region_default s hx hy hz
  refine ⟨?_, ?_, ?_⟩
  · rw [hs]
    simp only [Option.some.injEq, Prod.mk.injEq, Voxelworld.V3.mk.injEq]
    refine ⟨⟨?_, ?_, ?_⟩, ?_, ?_, ?_⟩ <;> ring
  · intro s1 r r1 h1x h1y h1z hne hr hr1 p hp
    rw [hs] at hr
    rw [Voxelworld.get_section_region_default s1 h1x h1y h1z] at hr1
    cases hr
    cases hr1
    obtain ⟨⟨a1, a2, a3, a4, a5, a6⟩, b1, b2, b3, b4, b5, b6⟩ := hp
    simp only at a1 a2 a3 a4 a5 a6 b1 b2 b3 b4 b5 b6
    apply hne
    obtain ⟨sx, sy, sz⟩ := s
    obtain ⟨tx, ty, tz⟩ := s1
    simp only at a1 a2 a3 a4 a5 a6 b1 b2 b3 b4 b5 b6
    simp only [Voxelworld.V3.mk.injEq]
    refine ⟨?_, ?_, ?_⟩ <;> omega
  · intro s1 r r1 h1x h1y h1z hr hr1
    rw [hs] at hr
    rw [Voxelworld.get_section_region_default s1 h1x h1y h1z] at hr1
    cases hr
    cases hr1
    simp only
    refine ⟨fun h => ?_, fun h => ?_, fun h => ?_, fun h => ?_, fun h => ?_, fun h => ?_⟩ <;>
      rw [h] <;> omega

/-- Witness of C29 at the corner section `(32767, -32768, 0)` and its
neighbour `(32766, -32768, 0)`. -/
theorem section_regions_tile_witness :
    Voxelworld.get_section_region Voxelworld.m_section_size_chunks
        Voxelworld.m_chunk_size_voxels ⟨32767, -32768, 0⟩ =
      some (⟨1048544, -1048576, 0⟩, ⟨1048575, -1048545, 31⟩) ∧
    Voxelworld.get_section_region Voxelworld.m_section_size_chunks
        Voxelworld.m_chunk_size_voxels ⟨32766, -32768, 0⟩ =
      some (⟨1048512, -1048576, 0⟩, ⟨1048543, -1048545, 31⟩) ∧
    (∀ p, ¬ (Voxelworld.in_region (⟨1048544, -1048576, 0⟩, ⟨1048575, -1048545, 31⟩) p ∧
      Voxelworld.in_region (⟨1048512, -1048576, 0⟩, ⟨1048543, -1048545, 31⟩) p)) :=
  ⟨(section_regions_tile ⟨32767, -32768, 0⟩ ⟨by decide, by decide⟩ ⟨by decide, by decide⟩
      ⟨by decide, by decide⟩).1,
   by decide,
   (section_regions_tile ⟨32767, -32768, 0⟩ ⟨by decide, by decide⟩ ⟨by decide, by decide⟩
      ⟨by decide, by decide⟩).2.1 ⟨32766, -32768, 0⟩ _ _ ⟨by decide, by decide⟩
      ⟨by decide, by decide⟩ ⟨by decide, by decide⟩ (by decide) (by decide) (by decide)⟩

/-! ## Rendering of socket addresses: digits and separators -/

set_option maxRecDepth 1000000 in
/-- The decimal digits of a byte give the byte back and hold no dot. -/
theorem Tcpsocket.put_dec_byte :
    ∀ v, v < 256 → Tcpsocket.of_dec (Tcpsocket.put_dec v) = v ∧ '.' ∉ Tcpsocket.put_dec v := by
  decide

set_option maxRecDepth 1000000 in
/-- The two hexadecimal digits of a byte give the byte back. -/
theorem Tcpsocket.put_hex2_byte :
    ∀ v, v < 256 → Tcpsocket.of_hex (Tcpsocket.put_hex2 v) = v ∧
      (Tcpsocket.put_hex2 v).length = 2 := by
  decide

/-- The rendering of a 4-byte address: the four bytes in decimal, joined by
dots. -/
theorem Tcpsocket.address_bytes_to_string_four (a b c d : Nat) :
    Tcpsocket.address_bytes_to_string [a, b, c, d] =
      String.mk (Tcpsocket.put_dec (a % 256) ++ '.' :: (Tcpsocket.put_dec (b % 256) ++
        '.' :: (Tcpsocket.put_dec (c % 256) ++ '.' :: Tcpsocket.put_dec (d % 256)))) := by
  simp [Tcpsocket.address_bytes_to_string, Tcpsocket.address_bytes_loop]

/-- The rendering of a 16-byte address: eight groups of two bytes, each byte
as two hexadecimal digits, joined by colons. -/
theorem Tcpsocket.address_bytes_to_string_sixteen (b0 b1 b2 b3 b4 b5 b6 b7 b8 b9 b10 b11 b12 b13 b14 b15 : Nat) :
    Tcpsocket.address_bytes_to_string [b0, b1, b2, b3, b4, b5, b6, b7, b8, b9, b10, b11, b12, b13, b14, b15] =
      String.mk (Tcpsocket.put_hex2 (b0 % 256) ++ Tcpsocket.put_hex2 (b1 % 256) ++
        ':' :: (Tcpsocket.put_hex2 (b2 % 256) ++ Tcpsocket.put_hex2 (b3 % 256) ++
        ':' :: (Tcpsocket.put_hex2 (b4 % 256) ++ Tcpsocket.put_hex2 (b5 % 256) ++
        ':' :: (Tcpsocket.put_hex2 (b6 % 256) ++ Tcpsocket.put_hex2 (b7 % 256) ++
        ':' :: (Tcpsocket.put_hex2 (b8 % 256) ++ Tcpsocket.put_hex2 (b9 % 256) ++
        ':' :: (Tcpsocket.put_hex2 (b10 % 256) ++ Tcpsocket.put_hex2 (b11 % 256) ++
        ':' :: (Tcpsocket.put_hex2 (b12 % 256) ++ Tcpsocket.put_hex2 (b13 % 256) ++
        ':' :: (Tcpsocket.put_hex2 (b14 % 256) ++ Tcpsocket.put_hex2 (b15 % 256))))))))) := by
  simp [Tcpsocket.address_bytes_to_string, Tcpsocket.address_bytes_loop]

/-- Two lists that are equal after a separator which neither holds before it
are equal before and after it. -/
theorem Tcpsocket.split_at_sep (sep : Char) :
    ∀ (l1 l2 r1 r2 : List Char), sep ∉ l1 → sep ∉ l2 →
      l1 ++ sep :: r1 = l2 ++ sep :: r2 → l1 = l2 ∧ r1 = r2 := by
  intro l1
  induction l1 with
  | nil =>
    intro l2 r1 r2 _ h2 h
    cases l2 with
    | nil => exact ⟨rfl, by simpa using h⟩
    | cons c t =>
      simp only [List.nil_append, List.cons_append, List.cons.injEq] at h
      exact absurd (by simp [h.1]) h2
  | cons a t ih =>
    intro l2 r1 r2 h1 h2 h
    cases l2 with
    | nil =>
      simp only [List.nil_append, List.cons_append, List.cons.injEq] at h
      exact absurd (by simp [h.1]) h1
    | cons c u =>
      simp only [List.cons_append, List.cons.injEq] at h
      obtain ⟨hl, hr⟩ := ih u r1 r2 (fun hm => h1 (List.mem_cons_of_mem _ hm))
        (fun hm => h2 (List.mem_cons_of_mem _ hm)) h.2
      exact ⟨by rw [h.1, hl], hr⟩

/-- The decimal rendering is injective on bytes. -/
theorem Tcpsocket.put_dec_inj (a b : Nat) (ha : a < 256) (hb : b < 256)
    (h : Tcpsocket.put_dec a = Tcpsocket.put_dec b) : a = b := by
  rw [← (Tcpsocket.put_dec_byte a ha).1, h, (Tcpsocket.put_dec_byte b hb).1]

/-- Two renderings that start with two bytes in hexadecimal agree on the two
bytes and on what follows. -/
theorem Tcpsocket.put_hex2_pair (a b a1 b1 : Nat) (r r1 : List Char)
    (ha : a < 256) (hb : b < 256) (ha1 : a1 < 256) (hb1 : b1 < 256)
    (h : Tcpsocket.put_hex2 (a % 256) ++ (Tcpsocket.put_hex2 (b % 256) ++ r) =
      Tcpsocket.put_hex2 (a1 % 256) ++ (Tcpsocket.put_hex2 (b1 % 256) ++ r1)) :
    a = a1 ∧ b = b1 ∧ r = r1 := by
  rw [Nat.mod_eq_of_lt ha, Nat.mod_eq_of_lt hb, Nat.mod_eq_of_lt ha1, Nat.mod_eq_of_lt hb1] at h
  obtain ⟨h1, h2⟩ := List.append_inj h
    (by rw [(Tcpsocket.put_hex2_byte a ha).2, (Tcpsocket.put_hex2_byte a1 ha1).2])
  obtain ⟨h3, h4⟩ := List.append_inj h2
    (by rw [(Tcpsocket.put_hex2_byte b hb).2, (Tcpsocket.put_hex2_byte b1 hb1).2])
  refine ⟨?_, ?_, h4⟩
  · rw [← (Tcpsocket.put_hex2_byte a ha).1, h1, (Tcpsocket.put_hex2_byte a1 ha1).1]
  · rw [← (Tcpsocket.put_hex2_byte b hb).1, h3, (Tcpsocket.put_hex2_byte b1 hb1).1]

/-- A list of positive length has a head and a tail. -/
theorem Tcpsocket.uncons_of_length {α : Type} {n : Nat} {l : List α}
    (h : l.length = n + 1) : ∃ a t, l = a :: t ∧ t.length = n := by
  cases l with
  | nil => cases h
  | cons a t => exact ⟨a, t, rfl, by simpa using h⟩

/-- The rendering is injective on 4-byte addresses. -/
theorem Tcpsocket.address_bytes_to_string_inj_four (ip1 ip2 : List Nat)
    (h1 : ip1.length = 4) (h2 : ip2.length = 4)
    (hb : ∀ v, v ∈ ip1 → v < 256) (hc : ∀ v, v ∈ ip2 → v < 256)
    (h : Tcpsocket.address_bytes_to_string ip1 = Tcpsocket.address_bytes_to_string ip2) :
    ip1 = ip2 := by
  obtain ⟨a, kt0, rfl, k0⟩ := Tcpsocket.uncons_of_length h1
  obtain ⟨b, kt1, rfl, k1⟩ := Tcpsocket.uncons_of_length k0
  obtain ⟨c, kt2, rfl, k2⟩ := Tcpsocket.uncons_of_length k1
  obtain ⟨d, kt3, rfl, k3⟩ := Tcpsocket.uncons_of_length k2
  obtain rfl := List.length_eq_zero.mp k3
  obtain ⟨a1, jt0, rfl, j0⟩ := Tcpsocket.uncons_of_length h2
  obtain ⟨b1, jt1, rfl, j1⟩ := Tcpsocket.uncons_of_length j0
  obtain ⟨c1, jt2, rfl, j2⟩ := Tcpsocket.uncons_of_length j1
  obtain ⟨d1, jt3, rfl, j3⟩ := Tcpsocket.uncons_of_length j2
  obtain rfl := List.length_eq_zero.mp j3
  have ha := hb a (by simp)
  have hb0 := hb b (by simp)
  have hc0 := hb c (by simp)
  have hd := hb d (by simp)
  have ha1 := hc a1 (by simp)
  have hb1 := hc b1 (by simp)
  have hc1 := hc c1 (by simp)
  have hd1 := hc d1 (by simp)
  rw [Tcpsocket.address_bytes_to_string_four, Tcpsocket.address_bytes_to_string_four,
    Nat.mod_eq_of_lt ha, Nat.mod_eq_of_lt hb0, Nat.mod_eq_of_lt hc0,
    Nat.mod_eq_of_lt hd, Nat.mod_eq_of_lt ha1, Nat.mod_eq_of_lt hb1, Nat.mod_eq_of_lt hc1,
    Nat.mod_eq_of_lt hd1] at h
  replace h := congrArg String.data h
  dsimp only at h
  obtain ⟨e0, h⟩ := Tcpsocket.split_at_sep '.' _ _ _ _ (Tcpsocket.put_dec_byte a ha).2
    (Tcpsocket.put_dec_byte a1 ha1).2 h
  obtain ⟨e1, h⟩ := Tcpsocket.split_at_sep '.' _ _ _ _ (Tcpsocket.put_dec_byte b hb0).2
    (Tcpsocket.put_dec_byte b1 hb1).2 h
  obtain ⟨e2, h⟩ := Tcpsocket.split_at_sep '.' _ _ _ _ (Tcpsocket.put_dec_byte c hc0).2
    (Tcpsocket.put_dec_byte c1 hc1).2 h
  rw [Tcpsocket.put_dec_inj a a1 ha ha1 e0, Tcpsocket.put_dec_inj b b1 hb0 hb1 e1,
    Tcpsocket.put_dec_inj c c1 hc0 hc1 e2, Tcpsocket.put_dec_inj d d1 hd hd1 h]

/-- The rendering is injective on 16-byte addresses. -/
theorem Tcpsocket.address_bytes_to_string_inj_sixteen (ip1 ip2 : List Nat)
    (h1 : ip1.length = 16) (h2 : ip2.length = 16)
    (hb : ∀ v, v ∈ ip1 → v < 256) (hc : ∀ v, v ∈ ip2 → v < 256)
    (h : Tcpsocket.address_bytes_to_string ip1 = Tcpsocket.address_bytes_to_string ip2) :
    ip1 = ip2 := by
  obtain ⟨b0, kt0, rfl, k0⟩ := Tcpsocket.uncons_of_length h1
  obtain ⟨b1, kt1, rfl, k1⟩ := Tcpsocket.uncons_of_length k0
  obtain ⟨b2, kt2, rfl, k2⟩ := Tcpsocket.uncons_of_length k1
  obtain ⟨b3, kt3, rfl, k3⟩ := Tcpsocket.uncons_of_length k2
  obtain ⟨b4, kt4, rfl, k4⟩ := Tcpsocket.uncons_of_length k3
  obtain ⟨b5, kt5, rfl, k5⟩ := Tcpsocket.uncons_of_length k4
  obtain ⟨b6, kt6, rfl, k6⟩ := Tcpsocket.uncons_of_length k5
  obtain ⟨b7, kt7, rfl, k7⟩ := Tcpsocket.uncons_of_length k6
  obtain ⟨b8, kt8, rfl, k8⟩ := Tcpsocket.uncons_of_length k7
  obtain ⟨b9, kt9, rfl, k9⟩ := Tcpsocket.uncons_of_length k8
  obtain ⟨b10, kt10, rfl, k10⟩ := Tcpsocket.uncons_of_length k9
  obtain ⟨b11, kt11, rfl, k11⟩ := Tcpsocket.uncons_of_length k10
  obtain ⟨b12, kt12, rfl, k12⟩ := Tcpsocket.uncons_of_length k11
  obtain ⟨b13, kt13, rfl, k13⟩ := Tcpsocket.uncons_of_length k12
  obtain ⟨b14, kt14, rfl, k14⟩ := Tcpsocket.uncons_of_length k13
  obtain ⟨b15, kt15, rfl, k15⟩ := Tcpsocket.uncons_of_length k14
  obtain rfl := List.length_eq_zero.mp k15
  obtain ⟨c0, jt0, rfl, j0⟩ := Tcpsocket.uncons_of_length h2
  obtain ⟨c1, jt1, rfl, j1⟩ := Tcpsocket.uncons_of_length j0
  obtain ⟨c2, jt2, rfl, j2⟩ := Tcpsocket.uncons_of_length j1
  obtain ⟨c3, jt3, rfl, j3⟩ := Tcpsocket.uncons_of_length j2
  obtain ⟨c4, jt4, rfl, j4⟩ := Tcpsocket.uncons_of_length j3
  obtain ⟨c5, jt5, rfl, j5⟩ := Tcpsocket.uncons_of_length j4
  obtain ⟨c6, jt6, rfl, j6⟩ := Tcpsocket.uncons_of_length j5
  obtain ⟨c7, jt7, rfl, j7⟩ := Tcpsocket.uncons_of_length j6
  obtain ⟨c8, jt8, rfl, j8⟩ := Tcpsocket.uncons_of_length j7
  obtain ⟨c9, jt9, rfl, j9⟩ := Tcpsocket.uncons_of_length j8
  obtain ⟨c10, jt10, rfl, j10⟩ := Tcpsocket.uncons_of_length j9
  obtain ⟨c11, jt11, rfl, j11⟩ := Tcpsocket.uncons_of_length j10
  obtain ⟨c12, jt12, rfl, j12⟩ := Tcpsocket.uncons_of_length j11
  obtain ⟨c13, jt13, rfl, j13⟩ := Tcpsocket.uncons_of_length j12
  obtain ⟨c14, jt14, rfl, j14⟩ := Tcpsocket.uncons_of_length j13
  obtain ⟨c15, jt15, rfl, j15⟩ := Tcpsocket.uncons_of_length j14
  obtain rfl := List.length_eq_zero.mp j15
  rw [Tcpsocket.address_bytes_to_string_sixteen, Tcpsocket.address_bytes_to_string_sixteen] at h
  replace h := congrArg String.data h
  dsimp only at h
  simp only [List.append_assoc] at h
  obtain ⟨e0, e1, h⟩ := Tcpsocket.put_hex2_pair b0 b1 c0 c1 _ _ (hb _ (by simp)) (hb _ (by simp))
    (hc _ (by simp)) (hc _ (by simp)) h
  rw [List.cons.injEq] at h
  replace h := h.2
  obtain ⟨e2, e3, h⟩ := Tcpsocket.put_hex2_pair b2 b3 c2 c3 _ _ (hb _ (by simp)) (hb _ (by simp))
    (hc _ (by simp)) (hc _ (by simp)) h
  rw [List.cons.injEq] at h
  replace h := h.2
  obtain ⟨e4, e5, h⟩ := Tcpsocket.put_hex2_pair b4 b5 c4 c5 _ _ (hb _ (by simp)) (hb _ (by simp))
    (hc _ (by simp)) (hc _ (by simp)) h
  rw [List.cons.injEq] at h
  replace h := h.2
  obtain ⟨e6, e7, h⟩ := Tcpsocket.put_hex2_pair b6 b7 c6 c7 _ _ (hb _ (by simp)) (hb _ (by simp))
    (hc _ (by simp)) (hc _ (by simp)) h
  rw [List.cons.injEq] at h
  replace h := h.2
  obtain ⟨e8, e9, h⟩ := Tcpsocket.put_hex2_pair b8 b9 c8 c9 _ _ (hb _ (by simp)) (hb _ (by simp))
    (hc _ (by simp)) (hc _ (by simp)) h
  rw [List.cons.injEq] at h
  replace h := h.2
  obtain ⟨e10, e11, h⟩ := Tcpsocket.put_hex2_pair b10 b11 c10 c11 _ _ (hb _ (by simp)) (hb _ (by simp))
    (hc _ (by simp)) (hc _ (by simp)) h
  rw [List.cons.injEq] at h
  replace h := h.2
  obtain ⟨e12, e13, h⟩ := Tcpsocket.put_hex2_pair b12 b13 c12 c13 _ _ (hb _ (by simp)) (hb _ (by simp))
    (hc _ (by simp)) (hc _ (by simp)) h
  rw [List.cons.injEq] at h
  replace h := h.2
  obtain ⟨e14, e15, _⟩ := Tcpsocket.put_hex2_pair b14 b15 c14 c15 [] [] (hb _ (by simp)) (hb _ (by simp))
    (hc _ (by simp)) (hc _ (by simp)) (by simpa using h)
  rw [e0, e1, e2, e3, e4, e5, e6, e7, e8, e9, e10, e11, e12, e13, e14, e15]

/-- C30: `address_bytes_to_string` renders a 4-byte address as its four bytes
in decimal joined by dots, and a 16-byte address as eight groups joined by
colons, each group the two hexadecimal digits of one byte followed by the two
of the next, with no separator at either end; the digits of a byte determine
the byte, and the rendering is injective on 4-byte addresses and on 16-byte
addresses; the empty vector gives the empty string. -/
theorem address_bytes_to_string_renders :
    (∀ a b c d : Nat, Tcpsocket.address_bytes_to_string [a, b, c, d] =
      String.mk (Tcpsocket.put_dec (a % 256) ++ '.' :: (Tcpsocket.put_dec (b % 256) ++
        '.' :: (Tcpsocket.put_dec (c % 256) ++ '.' :: Tcpsocket.put_dec (d % 256))))) ∧
    (∀ b0 b1 b2 b3 b4 b5 b6 b7 b8 b9 b10 b11 b12 b13 b14 b15 : Nat,
      Tcpsocket.address_bytes_to_string [b0, b1, b2, b3, b4, b5, b6, b7, b8, b9, b10, b11, b12, b13, b14, b15] =
        String.mk (Tcpsocket.put_hex2 (b0 % 256) ++ Tcpsocket.put_hex2 (b1 % 256) ++
          ':' :: (Tcpsocket.put_hex2 (b2 % 256) ++ Tcpsocket.put_hex2 (b3 % 256) ++
          ':' :: (Tcpsocket.put_hex2 (b4 % 256) ++ Tcpsocket.put_hex2 (b5 % 256) ++
          ':' :: (Tcpsocket.put_hex2 (b6 % 256) ++ Tcpsocket.put_hex2 (b7 % 256) ++
          ':' :: (Tcpsocket.put_hex2 (b8 % 256) ++ Tcpsocket.put_hex2 (b9 % 256) ++
          ':' :: (Tcpsocket.put_hex2 (b10 % 256) ++ Tcpsocket.put_hex2 (b11 % 256) ++
          ':' :: (Tcpsocket.put_hex2 (b12 % 256) ++ Tcpsocket.put_hex2 (b13 % 256) ++
          ':' :: (Tcpsocket.put_hex2 (b14 % 256) ++ Tcpsocket.put_hex2 (b15 % 256)))))))))) ∧
    (∀ v, v < 256 → (Tcpsocket.put_hex2 v).length = 2 ∧
      Tcpsocket.of_hex (Tcpsocket.put_hex2 v) = v ∧
      Tcpsocket.of_dec (Tcpsocket.put_dec v) = v ∧ '.' ∉ Tcpsocket.put_dec v) ∧
    (∀ ip1 ip2 : List Nat, ip1.length = 4 → ip2.length = 4 →
      (∀ v, v ∈ ip1 → v < 256) → (∀ v, v ∈ ip2 → v < 256) →
      Tcpsocket.address_bytes_to_string ip1 = Tcpsocket.address_bytes_to_string ip2 →
      ip1 = ip2) ∧
    (∀ ip1 ip2 : List Nat, ip1.length = 16 → ip2.length = 16 →
      (∀ v, v ∈ ip1 → v < 256) → (∀ v, v ∈ ip2 → v < 256) →
      Tcpsocket.address_bytes_to_string ip1 = Tcpsocket.address_bytes_to_string ip2 →
      ip1 = ip2) ∧
    Tcpsocket.address_bytes_to_string [] = "" :=
  ⟨Tcpsocket.address_bytes_to_string_four, Tcpsocket.address_bytes_to_string_sixteen,
   fun v hv => ⟨(Tcpsocket.put_hex2_byte v hv).2, (Tcpsocket.put_hex2_byte v hv).1,
     (Tcpsocket.put_dec_byte v hv).1, (Tcpsocket.put_dec_byte v hv).2⟩,
   Tcpsocket.address_bytes_to_string_inj_four, Tcpsocket.address_bytes_to_string_inj_sixteen,
   rfl⟩

/-- Witness of C30: the renderings of `192.168.0.1` and of
`2001:0db8::1`, and the injectivity on 4-byte addresses at `192.168.0.1`. -/
theorem address_bytes_to_string_renders_witness :
    Tcpsocket.address_bytes_to_string [192, 168, 0, 1] = "192.168.0.1" ∧
    Tcpsocket.address_bytes_to_string [32, 1, 13, 184, 0, 0, 0, 0, 0, 0, 0, 0, 0, 0, 0, 1] =
      "2001:0db8:0000:0000:0000:0000:0000:0001" ∧
    ((Tcpsocket.put_hex2 13).length = 2 ∧ Tcpsocket.of_hex (Tcpsocket.put_hex2 13) = 13 ∧
      Tcpsocket.of_dec (Tcpsocket.put_dec 13) = 13 ∧ '.' ∉ Tcpsocket.put_dec 13) ∧
    [192, 168, 0, 1] = [192, 168, 0, 1] :=
  ⟨by decide, by decide,
   address_bytes_to_string_renders.2.2.1 13 (by decide),
   address_bytes_to_string_renders.2.2.2.1 [192, 168, 0, 1] [192, 168, 0, 1] rfl rfl
     (by decide) (by decide) rfl⟩

end Buildat
